import Mathlib

/-! # vaultsync: key mapping, equality oracle and reconciliation engine

A shallow embedding of `syncer/sync.go` (package `syncer` of `WqyJh/vaultsync`).

* Go strings are `String`; the library functions `strings.TrimPrefix`,
  `strings.TrimSuffix`, `strings.HasSuffix`, `path.Clean` and `path.Join` are
  written out on the character lists, following the Go documentation.
* A Go `map[string]interface{}` is `GoMap`: `none` is the nil map, `some o` an
  allocated map with pairwise distinct keys.
* Remote calls go through a `VaultClient`, a record of transition functions on
  an arbitrary remote state; every call is appended to a trace, so "which
  operations were issued" is a statement about the trace.
-/

namespace VaultSync

/-! ## Go string and path library -/

/-- Go `strings.HasPrefix(s, pre)`. -/
def HasPrefix (s pre : String) : Bool :=
  pre.data.isPrefixOf s.data

/-- Go `strings.HasSuffix(s, suf)`. -/
def HasSuffix (s suf : String) : Bool :=
  suf.data.reverse.isPrefixOf s.data.reverse

/-- Go `strings.TrimPrefix(s, pre)`: `s` without the leading `pre`, or `s`
itself when it does not start with `pre`. -/
def TrimPrefix (s pre : String) : String :=
  if HasPrefix s pre then String.mk (s.data.drop pre.data.length) else s

/-- Go `strings.TrimSuffix(s, suf)`: `s` without the trailing `suf`, or `s`
itself when it does not end with `suf`. -/
def TrimSuffix (s suf : String) : String :=
  if HasSuffix s suf then String.mk (s.data.take (s.data.length - suf.data.length)) else s

/-- The elements of a path between its slashes (empty elements included). -/
def splitSlash : List Char → List (List Char)
  | [] => [[]]
  | c :: cs =>
    if c = '/' then [] :: splitSlash cs
    else
      match splitSlash cs with
      | [] => [[c]]
      | e :: es => (c :: e) :: es

/-- One element of `path.Clean`: the cleaned elements so far are kept as a
stack, last element first. Empty and `.` elements are dropped; `..` removes the
element before it when there is one that is not itself `..`, is dropped at the
root of a rooted path, and is kept otherwise; any other element is pushed. -/
def cleanStep (rooted : Bool) (stack : List (List Char)) (e : List Char) : List (List Char) :=
  if e = [] ∨ e = ['.'] then stack
  else if e = ['.', '.'] then
    match stack with
    | top :: rest => if top = ['.', '.'] then e :: stack else rest
    | [] => if rooted then [] else [e]
  else e :: stack

/-- Elements joined by single slashes. -/
def joinSlash : List (List Char) → List Char
  | [] => []
  | [e] => e
  | e :: es => e ++ '/' :: joinSlash es

/-- Go `path.Clean`: the shortest path name equivalent to `p` by purely lexical
processing; the empty string becomes `.`. -/
def Clean (p : String) : String :=
  if p.data = [] then "."
  else
    let rooted := p.data.head? = some '/'
    let stack := (splitSlash p.data).foldl (cleanStep rooted) []
    let body := joinSlash stack.reverse
    if rooted then String.mk ('/' :: body)
    else if stack = [] then "."
    else String.mk body

/-- Go `path.Join` (and `filepath.Join` on a slash-separated system): the
non-empty elements joined by slashes and cleaned; the empty string when every
element is empty. -/
def Join (elems : List String) : String :=
  match elems.filter (fun e => e.data ≠ []) with
  | [] => ""
  | es => Clean (String.mk (joinSlash (es.map String.data)))

/-! ## Key mapper (`sync.go`, `toVaultKey`, `toMetadataPath`, `ToLocalPath`) -/

/-- The configuration of a syncer (`SyncerConfig`). -/
structure SyncerConfig where
  VaultAddr : String
  VaultToken : String
  MountPath : String
  VaultPath : String
  LocalPath : String
  CasTry : Int
  deriving DecidableEq, Repr

/-- Function `NewSyncer`: both paths are cleaned and lose one leading slash. -/
def NewSyncer (config : SyncerConfig) : SyncerConfig :=
  { config with
    VaultPath := TrimPrefix (Clean config.VaultPath) "/"
    LocalPath := TrimPrefix (Clean config.LocalPath) "/" }

/-- Function `toVaultKey(prefix, localPath, vaultPath)`. -/
def toVaultKey (pfx localPath vaultPath : String) : String :=
  let relativePath := TrimPrefix localPath pfx
  let targetPath := Join [vaultPath, relativePath]
  let targetPath := TrimPrefix targetPath "/"
  let targetPath := TrimSuffix targetPath ".json"
  targetPath

/-- Function `toMetadataPath(path)`. -/
def toMetadataPath (path : String) : String :=
  let path := TrimSuffix path ".json"
  path ++ ".meta.json"

/-- Function `ToLocalPath(localPath, vaultPath, key)`. -/
def ToLocalPath (localPath vaultPath key : String) : String :=
  let relativePath := TrimPrefix key vaultPath
  Join [localPath, relativePath] ++ ".json"

/-! ## Values and maps -/

/-- The dynamic value held in an `interface{}` slot of a decoded JSON document.
The program inspects only the dynamic type and value of the `version` entry
(`getVersion`) and compares everything else with `reflect.DeepEqual`, so
composite values (slices, nested maps, floating point numbers) are kept as a
code that identifies them up to `reflect.DeepEqual`. -/
inductive GoValue where
  | null
  | bool (b : Bool)
  | int (n : Int)
  | number (lit : String)
  | str (s : String)
  | composite (code : Nat)
  deriving DecidableEq, Repr

/-- The entries of an allocated Go map with string keys: the keys are pairwise
distinct; the order of the list carries no meaning. -/
structure MapEntries where
  entries : List (String × GoValue)
  nodupKeys : (entries.map Prod.fst).Nodup
  deriving DecidableEq

/-- A Go `map[string]interface{}`: `none` is the nil map. -/
abbrev GoMap := Option MapEntries

/-- Go `len(m)`; the nil map has length 0. -/
def GoMap.len : GoMap → Nat
  | none => 0
  | some o => o.entries.length

/-- Go `v, ok := m[k]`: `none` when `ok` is false. Reading the nil map finds nothing. -/
def GoMap.get : GoMap → String → Option GoValue
  | none, _ => none
  | some o, k => o.entries.lookup k

/-- Go `reflect.DeepEqual` on two maps: both nil or both non-nil, of the same
length, and every key of the first maps to an equal value in the second. -/
def DeepEqual (a b : GoMap) : Bool :=
  match a, b with
  | none, none => true
  | some x, some y =>
    x.entries.length == y.entries.length &&
      x.entries.all (fun kv => y.entries.lookup kv.1 == some kv.2)
  | _, _ => false

/-- The allocated map with no entries, `map[string]interface{}{}`. -/
def emptyMap : GoMap := some ⟨[], List.nodup_nil⟩

/-- The map literal `map[string]interface{}{"(empty)": "(empty)"}`. -/
def sentinelMap : GoMap :=
  some ⟨[("(empty)", GoValue.str "(empty)")], List.nodup_singleton _⟩

/-! ## Equality oracle (`sync.go`, `IsEmptyMap`, `MapEqual`, `MetadataEqual`) -/

/-- Function `IsEmptyMap(a)`. -/
def IsEmptyMap (a : GoMap) : Bool :=
  if a.len == 0 then true
  else if (a.get "(empty)").isSome && a.len == 1 then true
  else false

/-- Function `MapEqual(a, b)`. -/
def MapEqual (a b : GoMap) : Bool :=
  if IsEmptyMap a && IsEmptyMap b then true
  else if a.len != b.len then false
  else DeepEqual a b

/-- Go `int32(x)` for a 64-bit integer `x`: the low 32 bits, read as a signed number. -/
def toInt32 (x : Int) : Int :=
  (x + 2147483648) % 4294967296 - 2147483648

/-- The fields of `schema.KvV2ReadMetadataResponse` that the program reads.
`MaxVersions` is an `int64`. -/
structure KvV2ReadMetadataResponse where
  CasRequired : Bool
  CustomMetadata : GoMap
  DeleteVersionAfter : String
  MaxVersions : Int
  deriving DecidableEq

/-- The record `schema.KvV2WriteMetadataRequest`. `MaxVersions` is an `int32`. -/
structure KvV2WriteMetadataRequest where
  CasRequired : Bool
  CustomMetadata : GoMap
  DeleteVersionAfter : String
  MaxVersions : Int
  deriving DecidableEq

/-- Function `MetadataEqual(a, b)` on two pointers, `none` being the nil pointer. The
result is `none` when the Go code dereferences a nil pointer (both arguments
nil: `a.CustomMetadata` is read although `a` is nil). -/
def MetadataEqual (a : Option KvV2ReadMetadataResponse) (b : Option KvV2WriteMetadataRequest) :
    Option Bool :=
  match b with
  | none =>
    match a with
    | none => none
    | some a => some (IsEmptyMap a.CustomMetadata)
  | some b =>
    match a with
    | none => some (IsEmptyMap b.CustomMetadata)
    | some a =>
      if a.CasRequired != b.CasRequired then some false
      else if a.DeleteVersionAfter != b.DeleteVersionAfter then some false
      else if a.MaxVersions != b.MaxVersions then some false
      else some (MapEqual a.CustomMetadata b.CustomMetadata)

/-! ## Remote client and trace -/

/-- The outcome of a call of the Vault client, `(response, err)`: a response
with a nil error, a `*vault.ResponseError` with its HTTP status code, or any
other error. The response is nil whenever the error is not. -/
inductive CallResult (α : Type) where
  | ok (response : α)
  | responseError (statusCode : Int)
  | otherError
  deriving DecidableEq

/-- Response of `KvV2Read`: `response.Data.Data` and `response.Data.Metadata`. -/
structure KvV2ReadResponse where
  Data : GoMap
  Metadata : GoMap
  deriving DecidableEq

/-- The request `schema.KvV2WriteRequest{Data: ..., Options: {"cas": cas}}`. -/
structure KvV2WriteRequest where
  Data : GoMap
  cas : Int
  deriving DecidableEq

/-- Response of `KvV2List`: `response.Data.Keys`. -/
structure KvV2ListResponse where
  Keys : List String
  deriving DecidableEq

/-- The Vault client as the program uses it: each call takes its arguments
and the remote state and gives a result and the next remote state. Nothing is
assumed about the remote state, so a client can answer in any way, fail at any
call and change between calls. The second string of every call is the mount path. -/
structure VaultClient (σ : Type) where
  KvV2Read : String → String → σ → CallResult KvV2ReadResponse × σ
  KvV2Write : String → KvV2WriteRequest → String → σ → CallResult Unit × σ
  KvV2ReadMetadata : String → String → σ → CallResult KvV2ReadMetadataResponse × σ
  KvV2WriteMetadata : String → KvV2WriteMetadataRequest → String → σ → CallResult Unit × σ
  KvV2Delete : String → String → σ → CallResult Unit × σ
  KvV2DeleteMetadataAndAllVersions : String → String → σ → CallResult Unit × σ
  KvV2List : String → String → σ → CallResult KvV2ListResponse × σ

/-- A call issued to the remote store, with its arguments. -/
inductive RemoteCall where
  | KvV2Read (key mount : String)
  | KvV2Write (key : String) (request : KvV2WriteRequest) (mount : String)
  | KvV2ReadMetadata (key mount : String)
  | KvV2WriteMetadata (key : String) (request : KvV2WriteMetadataRequest) (mount : String)
  | KvV2Delete (key mount : String)
  | KvV2DeleteMetadataAndAllVersions (key mount : String)
  | KvV2List (path mount : String)
  deriving DecidableEq

/-- The state a run of the program threads through: the remote state and the
calls issued so far, oldest first. -/
structure World (σ : Type) where
  remote : σ
  trace : List RemoteCall

/-- A Go `error` value: `nil`, or an error with the message of the
`fmt.Errorf` that made it (the wrapped cause is not kept). -/
inductive ErrorValue where
  | nil
  | error (msg : String)
  deriving DecidableEq, Repr

/-- Whether a call of the trace is a data write. -/
def RemoteCall.isDataWrite : RemoteCall → Bool
  | RemoteCall.KvV2Write _ _ _ => true
  | _ => false

/-- Whether a call of the trace is a metadata write. -/
def RemoteCall.isMetadataWrite : RemoteCall → Bool
  | RemoteCall.KvV2WriteMetadata _ _ _ => true
  | _ => false

/-- Whether a call of the trace is a delete (of the data or of all versions and metadata). -/
def RemoteCall.isDelete : RemoteCall → Bool
  | RemoteCall.KvV2Delete _ _ => true
  | RemoteCall.KvV2DeleteMetadataAndAllVersions _ _ => true
  | _ => false

section Calls

variable {σ : Type}

/-- Function `client.Secrets.KvV2Read(ctx, key, vault.WithMountPath(mount))`. -/
def kvV2Read (c : VaultClient σ) (key mount : String) (w : World σ) :
    CallResult KvV2ReadResponse × World σ :=
  let r := c.KvV2Read key mount w.remote
  (r.1, ⟨r.2, w.trace ++ [RemoteCall.KvV2Read key mount]⟩)

/-- Function `client.Secrets.KvV2Write(ctx, key, request, vault.WithMountPath(mount))`. -/
def kvV2Write (c : VaultClient σ) (key : String) (request : KvV2WriteRequest) (mount : String)
    (w : World σ) : CallResult Unit × World σ :=
  let r := c.KvV2Write key request mount w.remote
  (r.1, ⟨r.2, w.trace ++ [RemoteCall.KvV2Write key request mount]⟩)

/-- Function `client.Secrets.KvV2ReadMetadata(ctx, key, vault.WithMountPath(mount))`. -/
def kvV2ReadMetadata (c : VaultClient σ) (key mount : String) (w : World σ) :
    CallResult KvV2ReadMetadataResponse × World σ :=
  let r := c.KvV2ReadMetadata key mount w.remote
  (r.1, ⟨r.2, w.trace ++ [RemoteCall.KvV2ReadMetadata key mount]⟩)

/-- Function `client.Secrets.KvV2WriteMetadata(ctx, key, request, vault.WithMountPath(mount))`. -/
def kvV2WriteMetadata (c : VaultClient σ) (key : String) (request : KvV2WriteMetadataRequest)
    (mount : String) (w : World σ) : CallResult Unit × World σ :=
  let r := c.KvV2WriteMetadata key request mount w.remote
  (r.1, ⟨r.2, w.trace ++ [RemoteCall.KvV2WriteMetadata key request mount]⟩)

/-- Function `client.Secrets.KvV2Delete(ctx, key, vault.WithMountPath(mount))`. -/
def kvV2Delete (c : VaultClient σ) (key mount : String) (w : World σ) :
    CallResult Unit × World σ :=
  let r := c.KvV2Delete key mount w.remote
  (r.1, ⟨r.2, w.trace ++ [RemoteCall.KvV2Delete key mount]⟩)

/-- Function `client.Secrets.KvV2DeleteMetadataAndAllVersions(ctx, key, vault.WithMountPath(mount))`. -/
def kvV2DeleteMetadataAndAllVersions (c : VaultClient σ) (key mount : String) (w : World σ) :
    CallResult Unit × World σ :=
  let r := c.KvV2DeleteMetadataAndAllVersions key mount w.remote
  (r.1, ⟨r.2, w.trace ++ [RemoteCall.KvV2DeleteMetadataAndAllVersions key mount]⟩)

/-- Function `client.Secrets.KvV2List(ctx, path, vault.WithMountPath(mount))`. -/
def kvV2List (c : VaultClient σ) (path mount : String) (w : World σ) :
    CallResult KvV2ListResponse × World σ :=
  let r := c.KvV2List path mount w.remote
  (r.1, ⟨r.2, w.trace ++ [RemoteCall.KvV2List path mount]⟩)

end Calls

/-! ## Version of a read response (`sync.go`, `getVersion`) -/

/-- The value of a string of decimal digits; `none` for the empty string and
for a string with any other character. -/
def parseDigits (cs : List Char) : Option Nat :=
  if cs = [] then none
  else cs.foldl
    (fun acc c =>
      match acc with
      | none => none
      | some n => if '0' ≤ c ∧ c ≤ '9' then some (n * 10 + (c.toNat - 48)) else none)
    (some 0)

/-- Go `strconv.ParseInt(s, 10, 64)`, which is also `json.Number.Int64` and, on
a 64-bit platform, `strconv.Atoi`: an optional sign and decimal digits, in the
range of `int64`; `none` when Go reports an error. -/
def ParseInt (s : String) : Option Int :=
  let body (neg : Bool) (ds : List Char) : Option Int :=
    match parseDigits ds with
    | none => none
    | some un =>
      if neg then (if un > 9223372036854775808 then none else some (-(un : Int)))
      else (if un ≥ 9223372036854775808 then none else some (un : Int))
  match s.data with
  | [] => none
  | '+' :: ds => body false ds
  | '-' :: ds => body true ds
  | ds => body false ds

section Engine

variable {σ : Type}

/- The part of the Go library that is not written out: `float64ToInt s` is
`strconv.ParseFloat(s, 64)` followed by the conversion `int(f)`, `none` when
`ParseFloat` reports an error. -/
variable (float64ToInt : String → Option Int)

/-- Function `getVersion(metadata)`: `none` when the Go function returns an error. -/
def getVersion (metadata : GoMap) : Option Int :=
  match metadata.get "version" with
  | none => none
  | some (GoValue.int v) => some v
  | some (GoValue.number v) =>
    match ParseInt v with
    | some i => some i
    | none =>
      match float64ToInt v with
      | some f => some f
      | none => none
  | some (GoValue.str v) => ParseInt v
  | some _ => none

/-- The record `VaultPair`. `Metadata` is a pointer: `none` is nil. -/
structure VaultPair where
  MountPath : String
  Key : String
  Data : GoMap
  Metadata : Option KvV2WriteMetadataRequest
  deriving DecidableEq

/-! ## Write side (`sync.go`, `trySetData`, `trySetMetadata`, `trySetKV`, `setKV`) -/

/-- The Go idiom `if err != nil { return fmt.Errorf(msg) }; return nil` applied
to the outcome of a client call. -/
def errorOf {α : Type} (r : CallResult α) (msg : String) : ErrorValue :=
  match r with
  | CallResult.ok _ => ErrorValue.nil
  | _ => ErrorValue.error msg

/-- Function `trySetData(ctx, client, pair)`. -/
def trySetData (c : VaultClient σ) (pair : VaultPair) (w : World σ) : ErrorValue × World σ :=
  let r := kvV2Read c pair.Key pair.MountPath w
  match r.1 with
  | CallResult.otherError => (ErrorValue.error "failed to read kv", r.2)
  | CallResult.responseError statusCode =>
    if statusCode = 404 then
      -- not found: response is nil
      let wr := kvV2Write c pair.Key ⟨pair.Data, 0⟩ pair.MountPath r.2
      (errorOf wr.1 "failed to create data", wr.2)
    else (ErrorValue.error "failed to read kv", r.2)
  | CallResult.ok response =>
    if MapEqual response.Data pair.Data then (ErrorValue.nil, r.2)
    else
      match getVersion float64ToInt response.Metadata with
      | none => (ErrorValue.error "failed to get version", r.2)
      | some version =>
        let wr := kvV2Write c pair.Key ⟨pair.Data, version⟩ pair.MountPath r.2
        (errorOf wr.1 "failed to update data", wr.2)

/-- Function `trySetMetadata(ctx, client, pair)`. -/
def trySetMetadata (c : VaultClient σ) (pair : VaultPair) (w : World σ) : ErrorValue × World σ :=
  let r := kvV2ReadMetadata c pair.Key pair.MountPath w
  match r.1 with
  | CallResult.otherError => (ErrorValue.error "failed to read metadata", r.2)
  | CallResult.responseError statusCode =>
    if statusCode = 404 then
      -- notFound = true
      match pair.Metadata with
      | none => (ErrorValue.nil, r.2)
      | some metadata =>
        let wr := kvV2WriteMetadata c pair.Key metadata pair.MountPath r.2
        (errorOf wr.1 "failed to create metadata", wr.2)
    else (ErrorValue.error "failed to read metadata", r.2)
  | CallResult.ok metadataResponse =>
    if MetadataEqual (some metadataResponse) pair.Metadata = some true then (ErrorValue.nil, r.2)
    else
      match pair.Metadata with
      | none =>
        -- remove custom_metadata
        let wr := kvV2WriteMetadata c pair.Key
          { CasRequired := metadataResponse.CasRequired
            DeleteVersionAfter := metadataResponse.DeleteVersionAfter
            MaxVersions := toInt32 metadataResponse.MaxVersions
            CustomMetadata := sentinelMap } pair.MountPath r.2
        (errorOf wr.1 "failed to clear metadata", wr.2)
      | some metadata =>
        let wr := kvV2WriteMetadata c pair.Key metadata pair.MountPath r.2
        (errorOf wr.1 "failed to update metadata", wr.2)

/-- Function `trySetKV(ctx, client, pair)`: the data phase, then the metadata phase. -/
def trySetKV (c : VaultClient σ) (pair : VaultPair) (w : World σ) : ErrorValue × World σ :=
  let d := trySetData float64ToInt c pair w
  match d.1 with
  | ErrorValue.error _ => (ErrorValue.error "failed to set data", d.2)
  | ErrorValue.nil =>
    let m := trySetMetadata c pair d.2
    match m.1 with
    | ErrorValue.error _ => (ErrorValue.error "failed to set metadata", m.2)
    | ErrorValue.nil => (ErrorValue.nil, m.2)

/-- The loop of `setKV` with `remaining` iterations left (`casTry - i`). -/
def setKVLoop (c : VaultClient σ) (pair : VaultPair) : Nat → World σ → ErrorValue × World σ
  | 0, w => (ErrorValue.error "failed to set kv after tries", w)
  | remaining + 1, w =>
    let t := trySetKV float64ToInt c pair w
    match t.1 with
    | ErrorValue.error _ => setKVLoop c pair remaining t.2
    | ErrorValue.nil => (ErrorValue.nil, t.2)

/-- Function `setKV(ctx, client, pair, casTry)`: `for i := 0; i < casTry; i++`. -/
def setKV (c : VaultClient σ) (pair : VaultPair) (casTry : Int) (w : World σ) :
    ErrorValue × World σ :=
  setKVLoop float64ToInt c pair casTry.toNat w

end Engine

/-! ## Local files -/

/-- One call of the `filepath.WalkDir` callback: the path, whether the entry
is a directory, and whether the walk reports an error for it. -/
structure WalkEntry where
  path : String
  isDir : Bool
  err : Bool
  deriving DecidableEq

/-- The outcome of `os.Stat`: no error, an error for which `os.IsNotExist`
holds, or another error. -/
inductive StatResult where
  | found
  | notExist
  | failed
  deriving DecidableEq

/-- The local file system as the program sees it: the entries
`filepath.WalkDir(root, ...)` visits, in order; the outcome of `os.Stat`; and
what `ReadJson` decodes from a file into a map or into a metadata request,
`none` when it cannot open or decode the file. -/
structure LocalFS where
  WalkDir : String → List WalkEntry
  Stat : String → StatResult
  ReadJsonData : String → Option GoMap
  ReadJsonMetadata : String → Option KvV2WriteMetadataRequest

/-- Function `FileExists(file)`: `none` when it returns an error. -/
def FileExists (fs : LocalFS) (file : String) : Option Bool :=
  match fs.Stat file with
  | StatResult.found => some true
  | StatResult.notExist => some false
  | StatResult.failed => none

/-- The record `Secret`. -/
structure Secret where
  Data : GoMap
  Metadata : Option KvV2WriteMetadataRequest
  deriving DecidableEq

/-- Function `ReadData(file)`: `none` when it returns an error. -/
def ReadData (fs : LocalFS) (file : String) : Option GoMap :=
  fs.ReadJsonData file

/-- Function `ReadMetadata(file)`: `none` when it returns an error. -/
def ReadMetadata (fs : LocalFS) (file : String) : Option KvV2WriteMetadataRequest :=
  fs.ReadJsonMetadata file

/-- Function `ReadLocalSecret(file)`: `none` when it returns an error. -/
def ReadLocalSecret (fs : LocalFS) (file : String) : Option Secret :=
  match ReadData fs file with
  | none => none
  | some data =>
    let metadataPath := toMetadataPath file
    match FileExists fs metadataPath with
    | none => none
    | some false => some { Data := data, Metadata := none }
    | some true =>
      match ReadMetadata fs metadataPath with
      | none => none
      | some metadata => some { Data := data, Metadata := some metadata }

/-! ## Remote walk (`sync.go`, `WalkKV`) -/

section Walk

variable {σ : Type}

/-- The loop of `WalkKV` over the keys of one listing; `recurse` is the
recursive call of `WalkKV` (`none` when it does not return). -/
def walkKeys (recurse : String → World σ → Option (ErrorValue × World σ))
    (vaultPath : String) (walkFn : String → World σ → ErrorValue × World σ) :
    List String → World σ → Option (ErrorValue × World σ)
  | [], w => some (ErrorValue.nil, w)
  | key :: keys, w =>
    if HasSuffix key "/" then
      -- is a directory
      match recurse (Join [vaultPath, key]) w with
      | none => none
      | some r =>
        match r.1 with
        | ErrorValue.error _ => some (ErrorValue.error "failed to walk kv", r.2)
        | ErrorValue.nil => walkKeys recurse vaultPath walkFn keys r.2
    else
      let r := walkFn (Join [vaultPath, key]) w
      match r.1 with
      | ErrorValue.error _ => some (ErrorValue.error "failed to walk kv", r.2)
      | ErrorValue.nil => walkKeys recurse vaultPath walkFn keys r.2

/-- Function `WalkKV(ctx, client, vaultPath, mountPath, walkFn)` with a bound on the
depth of the recursion: `none` when the bound is reached before the walk returns. -/
def WalkKV (c : VaultClient σ) :
    Nat → String → String → (String → World σ → ErrorValue × World σ) → World σ →
      Option (ErrorValue × World σ)
  | 0, _, _, _, _ => none
  | fuel + 1, vaultPath, mountPath, walkFn, w =>
    let r := kvV2List c vaultPath mountPath w
    match r.1 with
    | CallResult.ok response =>
      walkKeys (fun p x => WalkKV c fuel p mountPath walkFn x) vaultPath walkFn response.Keys r.2
    | _ => some (ErrorValue.error "failed to list kv", r.2)

end Walk

/-! ## Sync (`sync.go`, `Sync`) -/

section SyncPass

variable {σ : Type}

variable (float64ToInt : String → Option Int)

/-- The callback `Sync` gives to `filepath.WalkDir` (set or update kv). -/
def syncFile (fs : LocalFS) (c : VaultClient σ) (s : SyncerConfig) (entry : WalkEntry)
    (w : World σ) : ErrorValue × World σ :=
  if entry.err then (ErrorValue.error "walk error", w)
  else if entry.isDir then (ErrorValue.nil, w)
  else if !HasSuffix entry.path ".json" then (ErrorValue.nil, w)  -- skip non-json file
  else if HasSuffix entry.path ".meta.json" then (ErrorValue.nil, w)  -- skip meta file
  else
    match ReadLocalSecret fs entry.path with
    | none => (ErrorValue.error "failed to read secret file", w)
    | some secret =>
      let vaultKey := toVaultKey s.LocalPath entry.path s.VaultPath
      let r := setKV float64ToInt c
        { MountPath := s.MountPath, Key := vaultKey, Data := secret.Data,
          Metadata := secret.Metadata } s.CasTry w
      match r.1 with
      | ErrorValue.error _ => (ErrorValue.error "failed to set kv", r.2)
      | ErrorValue.nil => (ErrorValue.nil, r.2)

/-- Function `filepath.WalkDir` running a callback over the entries it visits: the walk
stops at the first error the callback returns and returns it. -/
def walkLocal (fn : WalkEntry → World σ → ErrorValue × World σ) :
    List WalkEntry → World σ → ErrorValue × World σ
  | [], w => (ErrorValue.nil, w)
  | entry :: entries, w =>
    let r := fn entry w
    match r.1 with
    | ErrorValue.error msg => (ErrorValue.error msg, r.2)
    | ErrorValue.nil => walkLocal fn entries r.2

/-- The callback `Sync` gives to `WalkKV` (delete kv). -/
def deleteKey (fs : LocalFS) (c : VaultClient σ) (s : SyncerConfig) (key : String)
    (w : World σ) : ErrorValue × World σ :=
  let localPath := ToLocalPath s.LocalPath s.VaultPath key
  match FileExists fs localPath with
  | none => (ErrorValue.error "failed to check local file", w)
  | some localExists =>
    let metadataPath := toMetadataPath localPath
    match FileExists fs metadataPath with
    | none => (ErrorValue.error "failed to check metadata file", w)
    | some metadataExists =>
      if localExists then
        -- local file exists, skip delete data
        if !metadataExists then
          -- metadata not exists, clear remote metadata
          let r := kvV2ReadMetadata c key s.MountPath w
          match r.1 with
          | CallResult.ok metadataResponse =>
            if MetadataEqual (some metadataResponse) none = some true then (ErrorValue.nil, r.2)
            else
              let wr := kvV2WriteMetadata c key
                { CasRequired := metadataResponse.CasRequired
                  DeleteVersionAfter := metadataResponse.DeleteVersionAfter
                  MaxVersions := toInt32 metadataResponse.MaxVersions
                  CustomMetadata := sentinelMap } s.MountPath r.2
              (errorOf wr.1 "failed to clear metadata", wr.2)
          | _ => (ErrorValue.error "failed to read metadata", r.2)
        else (ErrorValue.nil, w)
      else
        -- local file not exists, delete remote file
        let d := kvV2Delete c key s.MountPath w
        match d.1 with
        | CallResult.ok _ =>
          let da := kvV2DeleteMetadataAndAllVersions c key s.MountPath d.2
          (errorOf da.1 "failed to delete metadata", da.2)
        | _ => (ErrorValue.error "failed to delete kv", d.2)

/-- Function `(s *Syncer) Sync(ctx)` from the point where the client has been made and
its token set: the write phase over the local walk, then the delete phase
over the remote walk. `fuel` bounds the depth of the remote walk; the result
is `none` when the bound is reached. -/
def Sync (fs : LocalFS) (c : VaultClient σ) (s : SyncerConfig) (fuel : Nat) (w : World σ) :
    Option (ErrorValue × World σ) :=
  let r := walkLocal (syncFile float64ToInt fs c s) (fs.WalkDir s.LocalPath) w
  match r.1 with
  | ErrorValue.error _ => some (ErrorValue.error "failed to walk local file", r.2)
  | ErrorValue.nil =>
    match WalkKV c fuel s.VaultPath s.MountPath (deleteKey fs c s) r.2 with
    | none => none
    | some k =>
      match k.1 with
      | ErrorValue.error _ => some (ErrorValue.error "failed to walk vault file", k.2)
      | ErrorValue.nil => some (ErrorValue.nil, k.2)

end SyncPass

/-! ## A remote store without concurrent writers

The store of the spec (sections 3 and 6): every key has a payload, a current
version and a metadata record. A data write whose CAS token is the current
version (0 for a key without versions) succeeds and stores the payload; a
metadata write stores the record; deletes take effect as issued; nothing else
changes the store. The mount path is not looked at: the store is one mount. -/

/-- Modelled from the spec: one key of the remote store (`RemoteEntry`, section
3). `currentVersion` is 0 as long as only metadata has been written; `deleted`
says that the current version has been deleted by `KvV2Delete`. -/
structure RemoteEntry where
  data : GoMap
  currentVersion : Int
  deleted : Bool
  metadata : KvV2ReadMetadataResponse
  deriving DecidableEq

/-- Modelled from the spec: the remote store, the keys with their entries; the
first entry of a key counts. -/
abbrev Store := List (String × RemoteEntry)

/-- The entry of a key. -/
def Store.get (st : Store) (key : String) : Option RemoteEntry :=
  match st with
  | [] => none
  | (k, e) :: rest => if k = key then some e else Store.get rest key

/-- The store without a key. -/
def Store.erase (st : Store) (key : String) : Store :=
  st.filter (fun ke => ke.1 ≠ key)

/-- The store with the entry of a key set. -/
def Store.put (st : Store) (key : String) (e : RemoteEntry) : Store :=
  (key, e) :: Store.erase st key

/-- The metadata record of a key that has none yet. -/
def defaultMetadata : KvV2ReadMetadataResponse :=
  { CasRequired := false, CustomMetadata := none, DeleteVersionAfter := "0s", MaxVersions := 0 }

/-- The `metadata` map of a read response: its `version` entry. -/
def versionMetadata (version : Int) : GoMap :=
  some ⟨[("version", GoValue.int version)], List.nodup_singleton _⟩

/-- Modelled from the spec: `readData(key)` of the remote store, as the client
call `KvV2Read`: 404 for a key without an undeleted version. -/
def Store.KvV2Read (key : String) (st : Store) : CallResult KvV2ReadResponse × Store :=
  match st.get key with
  | none => (CallResult.responseError 404, st)
  | some e =>
    if 0 < e.currentVersion ∧ e.deleted = false then
      (CallResult.ok { Data := e.data, Metadata := versionMetadata e.currentVersion }, st)
    else (CallResult.responseError 404, st)

/-- Modelled from the spec: `writeData(key, payload, expectedVersion)` of the
remote store, as the client call `KvV2Write`: the write succeeds when the CAS token is the
current version of the key (0 for a new key), and is refused otherwise. -/
def Store.KvV2Write (key : String) (request : KvV2WriteRequest) (st : Store) :
    CallResult Unit × Store :=
  match st.get key with
  | none =>
    if request.cas = 0 then
      (CallResult.ok (),
        st.put key { data := request.Data, currentVersion := 1, deleted := false,
                     metadata := defaultMetadata })
    else (CallResult.responseError 400, st)
  | some e =>
    if request.cas = e.currentVersion then
      (CallResult.ok (),
        st.put key { e with data := request.Data, currentVersion := e.currentVersion + 1,
                            deleted := false })
    else (CallResult.responseError 400, st)

/-- Modelled from the spec: `readMetadata(key)` of the remote store, as the client
call `KvV2ReadMetadata`: 404 for a key the store does not have. -/
def Store.KvV2ReadMetadata (key : String) (st : Store) :
    CallResult KvV2ReadMetadataResponse × Store :=
  match st.get key with
  | none => (CallResult.responseError 404, st)
  | some e => (CallResult.ok e.metadata, st)

/-- The record the store keeps for a metadata write. -/
def storedMetadata (request : KvV2WriteMetadataRequest) : KvV2ReadMetadataResponse :=
  { CasRequired := request.CasRequired, CustomMetadata := request.CustomMetadata,
    DeleteVersionAfter := request.DeleteVersionAfter, MaxVersions := request.MaxVersions }

/-- Modelled from the spec: `writeMetadata(key, record)` of the remote store, as
the client call `KvV2WriteMetadata`: the record is stored as written. -/
def Store.KvV2WriteMetadata (key : String) (request : KvV2WriteMetadataRequest) (st : Store) :
    CallResult Unit × Store :=
  match st.get key with
  | none =>
    (CallResult.ok (),
      st.put key { data := none, currentVersion := 0, deleted := false,
                   metadata := storedMetadata request })
  | some e => (CallResult.ok (), st.put key { e with metadata := storedMetadata request })

/-- Modelled from the spec: `deleteData(key)` of the remote store, as the client
call `KvV2Delete`: the current version of the key is marked deleted. -/
def Store.KvV2Delete (key : String) (st : Store) : CallResult Unit × Store :=
  match st.get key with
  | none => (CallResult.ok (), st)
  | some e => (CallResult.ok (), st.put key { e with deleted := true })

/-- Modelled from the spec: `deleteAllVersionsAndMetadata(key)` of the remote
store, as the client call `KvV2DeleteMetadataAndAllVersions`: the key is removed. -/
def Store.KvV2DeleteMetadataAndAllVersions (key : String) (st : Store) :
    CallResult Unit × Store :=
  (CallResult.ok (), st.erase key)

/-- The name under which a key shows in the listing of `path`: the first
element of the key below `path`, with a trailing slash when the key lies
deeper; `none` for a key that is not below `path`. -/
def childName (path key : String) : Option String :=
  let below : Option (List Char) :=
    if path.data = [] then some key.data
    else if HasPrefix key (path ++ "/") then some (key.data.drop (path.data.length + 1))
    else none
  match below with
  | none => none
  | some rest =>
    match splitSlash rest with
    | [] => none
    | [name] => if name = [] then none else some (String.mk name)
    | name :: _ => some (String.mk (name ++ ['/']))

/-- Modelled from the spec: `list(prefix)` of the remote store, as the client call
`KvV2List`: the names below `path`, each once; 404 when there are none. -/
def Store.KvV2List (path : String) (st : Store) : CallResult KvV2ListResponse × Store :=
  match (st.filterMap (fun ke => childName path ke.1)).eraseDups with
  | [] => (CallResult.responseError 404, st)
  | keys => (CallResult.ok { Keys := keys }, st)

/-- Modelled from the spec: the client of the remote store without concurrent
writers. -/
def storeClient : VaultClient Store where
  KvV2Read := fun key _ st => Store.KvV2Read key st
  KvV2Write := fun key request _ st => Store.KvV2Write key request st
  KvV2ReadMetadata := fun key _ st => Store.KvV2ReadMetadata key st
  KvV2WriteMetadata := fun key request _ st => Store.KvV2WriteMetadata key request st
  KvV2Delete := fun key _ st => Store.KvV2Delete key st
  KvV2DeleteMetadataAndAllVersions := fun key _ st => Store.KvV2DeleteMetadataAndAllVersions key st
  KvV2List := fun path _ st => Store.KvV2List path st

/-! ## Vocabulary of the statements -/

/-- The calls issued between the world `w` and a later world `w1` of the same run. -/
def issued {σ : Type} (w w1 : World σ) : List RemoteCall :=
  w1.trace.drop w.trace.length

/-- The world in which attempt number `k` of `setKV` starts (attempts are
numbered from 0), when every attempt before it has been run in turn. -/
def attemptWorld {σ : Type} (float64ToInt : String → Option Int) (c : VaultClient σ)
    (pair : VaultPair) (k : Nat) (w : World σ) : World σ :=
  Nat.iterate (fun x => (trySetKV float64ToInt c pair x).2) k w

/-- The error value of attempt number `k`. -/
def attemptOutcome {σ : Type} (float64ToInt : String → Option Int) (c : VaultClient σ)
    (pair : VaultPair) (k : Nat) (w : World σ) : ErrorValue :=
  (trySetKV float64ToInt c pair (attemptWorld float64ToInt c pair k w)).1

/-- The situations in which the metadata phase is said to write nothing: the
remote record is not found and the local metadata is unset, or the remote
record is found and `MetadataEqual` to the local metadata. -/
def noMetadataWriteCase {σ : Type} (c : VaultClient σ) (pair : VaultPair) (w : World σ) : Prop :=
  ((c.KvV2ReadMetadata pair.Key pair.MountPath w.remote).1 = CallResult.responseError 404 ∧
      pair.Metadata = none) ∨
    ∃ response, (c.KvV2ReadMetadata pair.Key pair.MountPath w.remote).1 = CallResult.ok response ∧
      MetadataEqual (some response) pair.Metadata = some true

/-! ## Example inputs -/

/-- The payload `{"x": 1}`. -/
def payloadOne : GoMap := some ⟨[("x", GoValue.int 1)], List.nodup_singleton _⟩

/-- The payload `{"x": 2}`. -/
def payloadTwo : GoMap := some ⟨[("x", GoValue.int 2)], List.nodup_singleton _⟩

/-- The custom metadata `{"team": "x"}`. -/
def teamMetadata : GoMap := some ⟨[("team", GoValue.str "x")], List.nodup_singleton _⟩

/-- The key `un/a` with the payload `{"x": 1}` and no local metadata. -/
def pairA : VaultPair := { MountPath := "kv", Key := "un/a", Data := payloadOne, Metadata := none }

/-- A run that starts on the empty store. -/
def emptyWorld : World Store := ⟨[], []⟩

/-- A run that starts on a store holding `un/a` with a payload at version 4
and a metadata record with the given custom metadata. -/
def worldA (payload customMetadata : GoMap) : World Store :=
  ⟨[("un/a", { data := payload, currentVersion := 4, deleted := false,
               metadata := { defaultMetadata with CustomMetadata := customMetadata } })], []⟩

/-- No number literal is read as a floating point number. -/
def noFloat : String → Option Int := fun _ => none

/-- Whether a client call returned without error. -/
def CallResult.isOk {α : Type} : CallResult α → Bool
  | CallResult.ok _ => true
  | _ => false

/-- The metadata write that clears the custom metadata of a remote record: the
record's other fields, `MaxVersions` converted with `int32(...)`, and the
sentinel map. -/
def clearRequest (metadataResponse : KvV2ReadMetadataResponse) : KvV2WriteMetadataRequest :=
  { CasRequired := metadataResponse.CasRequired
    DeleteVersionAfter := metadataResponse.DeleteVersionAfter
    MaxVersions := toInt32 metadataResponse.MaxVersions
    CustomMetadata := sentinelMap }

/-- The store client with a policy that refuses `KvV2Delete` (status 403). -/
def denyDeleteClient : VaultClient Store :=
  { storeClient with KvV2Delete := fun _ _ st => (CallResult.responseError 403, st) }

/-- A local tree given by its root directory and the paths of its regular
files: the walk of the root visits the root and then the files, the walk of
any other path reports an error; a path exists when it is the root or one of
the files; `dataOf` and `metadataOf` give what the files decode to. -/
def treeFS (dir : String) (files : List String) (dataOf : String → Option GoMap)
    (metadataOf : String → Option KvV2WriteMetadataRequest) : LocalFS where
  WalkDir := fun root =>
    if root = dir then ⟨dir, true, false⟩ :: files.map (fun p => ⟨p, false, false⟩)
    else [⟨root, false, true⟩]
  Stat := fun p => if p = dir ∨ p ∈ files then StatResult.found else StatResult.notExist
  ReadJsonData := dataOf
  ReadJsonMetadata := metadataOf

/-- The configuration `NewSyncer` makes of the local path `data` and the vault path `un`. -/
def configA : SyncerConfig :=
  NewSyncer { VaultAddr := "", VaultToken := "", MountPath := "kv", VaultPath := "un",
              LocalPath := "data", CasTry := 3 }

/-- Whether the write phase of `Sync` treats an entry of the local walk as a
data file: no walk error, not a directory, a name ending in `.json` and not
in `.meta.json`. -/
def WalkEntry.isDataFile (e : WalkEntry) : Bool :=
  !e.err && !e.isDir && HasSuffix e.path ".json" && !HasSuffix e.path ".meta.json"

/-- The store has converged to a local secret at a key: the key has an
undeleted current version whose payload is `MapEqual` to the local payload,
and its metadata record is `MetadataEqual` to the local metadata. -/
def ConvergedAt (st : Store) (key : String) (secret : Secret) : Prop :=
  ∃ e, st.get key = some e ∧ 0 < e.currentVersion ∧ e.deleted = false ∧
    MapEqual e.data secret.Data = true ∧
    MetadataEqual (some e.metadata) secret.Metadata = some true

/-- The store has converged to a data file of the local walk. -/
def ConvergedFile (fs : LocalFS) (s : SyncerConfig) (st : Store) (e : WalkEntry) : Prop :=
  e.isDataFile = true →
    ∃ secret, ReadLocalSecret fs e.path = some secret ∧
      ConvergedAt st (toVaultKey s.LocalPath e.path s.VaultPath) secret

/-- The payload `{"(empty)": "x"}`. -/
def markerPayload : GoMap := some ⟨[("(empty)", GoValue.str "x")], List.nodup_singleton _⟩

/-- The local tree with the one data file `data/a.json` holding `{}` and no sidecar. -/
def emptyPayloadFS : LocalFS :=
  treeFS "data" ["data/a.json"] (fun p => if p = "data/a.json" then some emptyMap else none)
    (fun _ => none)

/-- The local metadata `{cas_required: true, custom_metadata: {"team": "x"},
delete_version_after: "0s", max_versions: 5}`. -/
def teamRequest : KvV2WriteMetadataRequest :=
  { CasRequired := true, CustomMetadata := teamMetadata, DeleteVersionAfter := "0s",
    MaxVersions := 5 }

/-- The local tree with `data/a.json` holding `{"x": 1}` with a sidecar, and
`data/b/c.json` holding `{"x": 2}` without one. -/
def twoFilesFS : LocalFS :=
  treeFS "data" ["data/a.json", "data/a.meta.json", "data/b/c.json"]
    (fun p =>
      if p = "data/a.json" then some payloadOne
      else if p = "data/b/c.json" then some payloadTwo
      else none)
    (fun p => if p = "data/a.meta.json" then some teamRequest else none)

/-- A run that starts on a store holding `un/a` with `{"x": 2}` at version 4
and `un/old` with `{"x": 1}` at version 1. -/
def worldOld : World Store :=
  ⟨[("un/a", { data := payloadTwo, currentVersion := 4, deleted := false,
               metadata := defaultMetadata }),
    ("un/old", { data := payloadOne, currentVersion := 1, deleted := false,
                 metadata := defaultMetadata })], []⟩

/-- The configuration `NewSyncer` makes of the local path `.` and the vault path `un`. -/
def configDot : SyncerConfig :=
  NewSyncer { VaultAddr := "", VaultToken := "", MountPath := "kv", VaultPath := "un",
              LocalPath := ".", CasTry := 3 }

/-- The local tree with the root `.` and the one data file `.env.json`, which
holds `{"x": 1}` and has no sidecar; the walk reports the file under the path
`filepath.Join(".", ".env.json")`. -/
def hiddenFileFS : LocalFS :=
  treeFS "." [Join [".", ".env.json"]]
    (fun p => if p = ".env.json" then some payloadOne else none) (fun _ => none)

/-- The local sidecar `{cas_required: false, delete_version_after: "0s",
max_versions: 0}` with no `custom_metadata` entry. -/
def bareRequest : KvV2WriteMetadataRequest :=
  { CasRequired := false, CustomMetadata := none, DeleteVersionAfter := "0s", MaxVersions := 0 }

/-- The key `un/a` with the payload `{"x": 1}` and the local sidecar `bareRequest`. -/
def pairBare : VaultPair :=
  { MountPath := "kv", Key := "un/a", Data := payloadOne, Metadata := some bareRequest }

/-- A run that starts on a store holding `un/a` with the custom metadata
`{"team": "x"}` and `max_versions` 2147483648. -/
def worldBig : World Store :=
  ⟨[("un/a", { data := payloadOne, currentVersion := 4, deleted := false,
               metadata := { CasRequired := false, CustomMetadata := teamMetadata,
                             DeleteVersionAfter := "0s", MaxVersions := 2147483648 } })], []⟩

/-- Whether a call of the trace is a listing. -/
def RemoteCall.isList : RemoteCall → Bool
  | RemoteCall.KvV2List _ _ => true
  | _ => false

/-- The world `w1` continues the run of `w` by calls that are neither deletes
nor listings. -/
def WritePhaseOnly {σ : Type} (w w1 : World σ) : Prop :=
  ∃ cs, w1.trace = w.trace ++ cs ∧ ∀ call ∈ cs, call.isDelete = false ∧ call.isList = false

/-- A run that starts on a store in which the current version 3 of `un/a` has
been deleted (so a read reports 404 and a write with CAS token 0 is refused)
and which also holds `un/old`. -/
def worldDeleted : World Store :=
  ⟨[("un/a", { data := payloadTwo, currentVersion := 3, deleted := true,
               metadata := defaultMetadata }),
    ("un/old", { data := payloadOne, currentVersion := 1, deleted := false,
                 metadata := defaultMetadata })], []⟩

/-! ## Finite remote namespaces -/

/-- The listing of a finite remote namespace: its entries in the order of the
listing, each a leaf entry or a sub-namespace entry with the listing below it. -/
inductive NsTree where
  | nil
  | leaf (name : String) (rest : NsTree)
  | sub (name : String) (children : NsTree) (rest : NsTree)
  deriving DecidableEq

/-- The names of a listing, as `KvV2List` returns them. -/
def NsTree.names : NsTree → List String
  | NsTree.nil => []
  | NsTree.leaf name rest => name :: rest.names
  | NsTree.sub name _ rest => name :: rest.names

/-- The names of the leaf entries do not end in a slash, the names of the
sub-namespace entries do, at every level. -/
def NsTree.wellFormed : NsTree → Bool
  | NsTree.nil => true
  | NsTree.leaf name rest => !HasSuffix name "/" && rest.wellFormed
  | NsTree.sub name children rest =>
    HasSuffix name "/" && children.wellFormed && rest.wellFormed

/-- The number of nested listings below a listing. -/
def NsTree.depth : NsTree → Nat
  | NsTree.nil => 0
  | NsTree.leaf _ rest => rest.depth
  | NsTree.sub _ children rest => max (children.depth + 1) rest.depth

/-- The key of every leaf entry at or below a listing at `path`, one for each
leaf entry, in the order of the listings: `path` joined with the names of the
entries on the way down to the leaf. -/
def NsTree.leafKeys : NsTree → String → List String
  | NsTree.nil, _ => []
  | NsTree.leaf name rest, path => Join [path, name] :: rest.leafKeys path
  | NsTree.sub name children rest, path =>
    children.leafKeys (Join [path, name]) ++ rest.leafKeys path

/-- The client lists the sub-namespaces of a listing at `path` as the listing
says, in every remote state that satisfies `inv`, and stays within `inv`. -/
def servesBelow {σ : Type} (inv : σ → Prop) (c : VaultClient σ) (mount : String) :
    NsTree → String → Prop
  | NsTree.nil, _ => True
  | NsTree.leaf _ rest, path => servesBelow inv c mount rest path
  | NsTree.sub name children rest, path =>
    (∀ st, inv st →
      (c.KvV2List (Join [path, name]) mount st).1 = CallResult.ok ⟨children.names⟩ ∧
        inv (c.KvV2List (Join [path, name]) mount st).2) ∧
    servesBelow inv c mount children (Join [path, name]) ∧
    servesBelow inv c mount rest path

/-- The remote namespace at `path` is the finite tree `t` in every remote state
that satisfies `inv`: every listing succeeds and returns the names the tree
has there. -/
def ServesOn {σ : Type} (inv : σ → Prop) (c : VaultClient σ) (mount : String) (t : NsTree)
    (path : String) : Prop :=
  (∀ st, inv st →
    (c.KvV2List path mount st).1 = CallResult.ok ⟨t.names⟩ ∧ inv (c.KvV2List path mount st).2) ∧
  servesBelow inv c mount t path

/-- The remote namespace at `path` is the finite tree `t`, whatever the remote state. -/
def Serves {σ : Type} (c : VaultClient σ) (mount : String) (t : NsTree) (path : String) : Prop :=
  ServesOn (fun _ => True) c mount t path

/-- One step of a remote walk: a listing, or a call of the visitor. -/
inductive WalkStep where
  | list (path : String)
  | visit (key : String)
  deriving DecidableEq

/-- The steps of the walk of the entries of a listing at `path`: a call of the
visitor for a leaf entry, a listing and the steps below it for a sub-namespace entry. -/
def NsTree.entrySteps : NsTree → String → List WalkStep
  | NsTree.nil, _ => []
  | NsTree.leaf name rest, path => WalkStep.visit (Join [path, name]) :: rest.entrySteps path
  | NsTree.sub name children rest, path =>
    (WalkStep.list (Join [path, name]) :: children.entrySteps (Join [path, name])) ++
      rest.entrySteps path

/-- The steps of the walk of the tree at `path`. -/
def NsTree.walkSteps (t : NsTree) (path : String) : List WalkStep :=
  WalkStep.list path :: t.entrySteps path

/-- The keys the visitor is called with in a sequence of steps, call by call. -/
def visitedKeys (steps : List WalkStep) : List String :=
  steps.filterMap (fun step =>
    match step with
    | WalkStep.visit key => some key
    | WalkStep.list _ => none)

/-- The world after one step of a walk. -/
def runStep {σ : Type} (c : VaultClient σ) (mount : String)
    (walkFn : String → World σ → ErrorValue × World σ) (w : World σ) : WalkStep → World σ
  | WalkStep.list path => (kvV2List c path mount w).2
  | WalkStep.visit key => (walkFn key w).2

/-- The world after a sequence of steps of a walk. -/
def runSteps {σ : Type} (c : VaultClient σ) (mount : String)
    (walkFn : String → World σ → ErrorValue × World σ) (steps : List WalkStep) (w : World σ) :
    World σ :=
  steps.foldl (runStep c mount walkFn) w

/-- A client that answers listings from a table of paths and fails every other call. -/
def listingClient (listing : String → Option (List String)) : VaultClient Unit where
  KvV2Read := fun _ _ st => (CallResult.otherError, st)
  KvV2Write := fun _ _ _ st => (CallResult.otherError, st)
  KvV2ReadMetadata := fun _ _ st => (CallResult.otherError, st)
  KvV2WriteMetadata := fun _ _ _ st => (CallResult.otherError, st)
  KvV2Delete := fun _ _ st => (CallResult.otherError, st)
  KvV2DeleteMetadataAndAllVersions := fun _ _ st => (CallResult.otherError, st)
  KvV2List := fun path _ st =>
    match listing path with
    | some keys => (CallResult.ok ⟨keys⟩, st)
    | none => (CallResult.responseError 404, st)

/-- The namespace with the leaf `a` and the sub-namespace `b/` holding the leaf `c`. -/
def smallTree : NsTree :=
  NsTree.leaf "a" (NsTree.sub "b/" (NsTree.leaf "c" NsTree.nil) NsTree.nil)

/-- The listings of `smallTree` under the prefix `un`. -/
def smallListing (path : String) : Option (List String) :=
  if path = "un" then some ["a", "b/"]
  else if path = "un/b" then some ["c"]
  else none

/-- A visitor that reads the key it is called with and returns no error. -/
def readVisitor {σ : Type} (c : VaultClient σ) (mount : String) (key : String) (w : World σ) :
    ErrorValue × World σ :=
  (ErrorValue.nil, (kvV2Read c key mount w).2)

/-! ## Fetch (`fetch.go`, `NewFetcher`, `Fetch`) -/

/-- Go `path.Dir`: the path up to its last slash, cleaned. -/
def Dir (p : String) : String :=
  Clean (String.mk (p.data.reverse.dropWhile (fun ch => ch ≠ '/')).reverse)

/-- Function `NewFetcher`: the vault path is cleaned and loses one leading slash,
the local path is cleaned. -/
def NewFetcher (config : SyncerConfig) : SyncerConfig :=
  { config with
    VaultPath := TrimPrefix (Clean config.VaultPath) "/"
    LocalPath := Clean config.LocalPath }

/-- The local file operations of `Fetch`, as transition functions on an
arbitrary disk state; the boolean is true when the operation returns no
error. `EncodeData` and `EncodeMetadata` stand for `encoder.Encode` on the
file created at the path. -/
structure LocalDisk (φ : Type) where
  MkdirAll : String → φ → Bool × φ
  Create : String → φ → Bool × φ
  EncodeData : String → GoMap → φ → Bool × φ
  EncodeMetadata : String → KvV2WriteMetadataRequest → φ → Bool × φ

/-- A local file operation issued by `Fetch`, with its arguments. -/
inductive LocalCall where
  | MkdirAll (dir : String)
  | Create (path : String)
  | EncodeData (path : String) (payload : GoMap)
  | EncodeMetadata (path : String) (request : KvV2WriteMetadataRequest)
  deriving DecidableEq

/-- What a run of `Fetch` threads through besides the trace of remote calls:
the remote state, the disk state, and the local file operations issued so
far, oldest first. -/
structure FetchState (σ φ : Type) where
  store : σ
  disk : φ
  localTrace : List LocalCall

section FetchPass

variable {σ φ : Type}

/-- The client acting on the remote part of the state of a fetch. -/
def liftClient (c : VaultClient σ) : VaultClient (FetchState σ φ) where
  KvV2Read := fun key mount x =>
    ((c.KvV2Read key mount x.store).1, { x with store := (c.KvV2Read key mount x.store).2 })
  KvV2Write := fun key request mount x =>
    ((c.KvV2Write key request mount x.store).1,
      { x with store := (c.KvV2Write key request mount x.store).2 })
  KvV2ReadMetadata := fun key mount x =>
    ((c.KvV2ReadMetadata key mount x.store).1,
      { x with store := (c.KvV2ReadMetadata key mount x.store).2 })
  KvV2WriteMetadata := fun key request mount x =>
    ((c.KvV2WriteMetadata key request mount x.store).1,
      { x with store := (c.KvV2WriteMetadata key request mount x.store).2 })
  KvV2Delete := fun key mount x =>
    ((c.KvV2Delete key mount x.store).1, { x with store := (c.KvV2Delete key mount x.store).2 })
  KvV2DeleteMetadataAndAllVersions := fun key mount x =>
    ((c.KvV2DeleteMetadataAndAllVersions key mount x.store).1,
      { x with store := (c.KvV2DeleteMetadataAndAllVersions key mount x.store).2 })
  KvV2List := fun path mount x =>
    ((c.KvV2List path mount x.store).1, { x with store := (c.KvV2List path mount x.store).2 })

/-- Go `os.MkdirAll(dir, 0755)`: true when it returns no error. -/
def mkdirAll (disk : LocalDisk φ) (dir : String) (w : World (FetchState σ φ)) :
    Bool × World (FetchState σ φ) :=
  let r := disk.MkdirAll dir w.remote.disk
  (r.1, { w with remote := { w.remote with
    disk := r.2, localTrace := w.remote.localTrace ++ [LocalCall.MkdirAll dir] } })

/-- Go `os.Create(path)`: true when it returns no error. -/
def createFile (disk : LocalDisk φ) (path : String) (w : World (FetchState σ φ)) :
    Bool × World (FetchState σ φ) :=
  let r := disk.Create path w.remote.disk
  (r.1, { w with remote := { w.remote with
    disk := r.2, localTrace := w.remote.localTrace ++ [LocalCall.Create path] } })

/-- The call `encoder.Encode(payload)` on the file created at `path`: true when it
returns no error. -/
def encodeData (disk : LocalDisk φ) (path : String) (payload : GoMap)
    (w : World (FetchState σ φ)) : Bool × World (FetchState σ φ) :=
  let r := disk.EncodeData path payload w.remote.disk
  (r.1, { w with remote := { w.remote with
    disk := r.2, localTrace := w.remote.localTrace ++ [LocalCall.EncodeData path payload] } })

/-- The call `encoder.Encode(metadataRequest)` on the file created at `path`: true
when it returns no error. -/
def encodeMetadata (disk : LocalDisk φ) (path : String) (request : KvV2WriteMetadataRequest)
    (w : World (FetchState σ φ)) : Bool × World (FetchState σ φ) :=
  let r := disk.EncodeMetadata path request w.remote.disk
  (r.1, { w with remote := { w.remote with
    disk := r.2,
    localTrace := w.remote.localTrace ++ [LocalCall.EncodeMetadata path request] } })

/-- The first part of the callback `Fetch` gives to `WalkKV` (`fetch.go` lines
54 to 77): the directory and the data file are created, the secret is read and
its payload saved. -/
def fetchData (disk : LocalDisk φ) (c : VaultClient σ) (f : SyncerConfig) (key : String)
    (w : World (FetchState σ φ)) : ErrorValue × World (FetchState σ φ) :=
  let localPath := ToLocalPath f.LocalPath f.VaultPath key
  let md := mkdirAll disk (Dir localPath) w
  if !md.1 then (ErrorValue.error "failed to create directory", md.2)
  else
    let cr := createFile disk localPath md.2
    if !cr.1 then (ErrorValue.error "failed to create file", cr.2)
    else
      let r := kvV2Read (liftClient c) key f.MountPath cr.2
      match r.1 with
      | CallResult.ok response =>
        let en := encodeData disk localPath response.Data r.2
        if !en.1 then (ErrorValue.error "failed to save data", en.2)
        else (ErrorValue.nil, en.2)
      | _ => (ErrorValue.error "failed to read secret", r.2)

/-- The second part of the callback `Fetch` gives to `WalkKV` (`fetch.go` lines
79 to 111): the metadata is read and, unless its custom metadata is
empty-equivalent, saved in the sidecar. -/
def fetchMetadata (disk : LocalDisk φ) (c : VaultClient σ) (f : SyncerConfig) (key : String)
    (w : World (FetchState σ φ)) : ErrorValue × World (FetchState σ φ) :=
  let localPath := ToLocalPath f.LocalPath f.VaultPath key
  let mr := kvV2ReadMetadata (liftClient c) key f.MountPath w
  match mr.1 with
  | CallResult.ok metadataResponse =>
    let metadataPath := toMetadataPath localPath
    if IsEmptyMap metadataResponse.CustomMetadata then (ErrorValue.nil, mr.2)
    else
      let mc := createFile disk metadataPath mr.2
      if !mc.1 then (ErrorValue.error "failed to create metadata file", mc.2)
      else
        let en := encodeMetadata disk metadataPath
          { CasRequired := metadataResponse.CasRequired
            DeleteVersionAfter := metadataResponse.DeleteVersionAfter
            MaxVersions := toInt32 metadataResponse.MaxVersions
            CustomMetadata := metadataResponse.CustomMetadata } mc.2
        if !en.1 then (ErrorValue.error "failed to save metadata", en.2)
        else (ErrorValue.nil, en.2)
  | _ => (ErrorValue.error "failed to read metadata", mr.2)

/-- The callback `Fetch` gives to `WalkKV`. -/
def fetchKey (disk : LocalDisk φ) (c : VaultClient σ) (f : SyncerConfig) (key : String)
    (w : World (FetchState σ φ)) : ErrorValue × World (FetchState σ φ) :=
  let d := fetchData disk c f key w
  match d.1 with
  | ErrorValue.error msg => (ErrorValue.error msg, d.2)
  | ErrorValue.nil => fetchMetadata disk c f key d.2

/-- Function `(f *Fetcher) Fetch(ctx)` from the point where the client has been
made and its token set. `fuel` bounds the depth of the remote walk; the result
is `none` when the bound is reached. -/
def Fetch (disk : LocalDisk φ) (c : VaultClient σ) (f : SyncerConfig) (fuel : Nat)
    (w : World (FetchState σ φ)) : Option (ErrorValue × World (FetchState σ φ)) :=
  match WalkKV (liftClient c) fuel f.VaultPath f.MountPath (fetchKey disk c f) w with
  | none => none
  | some k =>
    match k.1 with
    | ErrorValue.error _ => some (ErrorValue.error "failed to walk kv", k.2)
    | ErrorValue.nil => some (ErrorValue.nil, k.2)

end FetchPass

/-- The calls to the local disk issued between the world `w` and a later world
`w1` of the same fetch. -/
def issuedLocal {σ φ : Type} (w w1 : World (FetchState σ φ)) : List LocalCall :=
  w1.remote.localTrace.drop w.remote.localTrace.length

/-- The sidecar record `Fetch` writes for a remote metadata record. -/
def sidecarRequest (metadataResponse : KvV2ReadMetadataResponse) : KvV2WriteMetadataRequest :=
  { CasRequired := metadataResponse.CasRequired
    DeleteVersionAfter := metadataResponse.DeleteVersionAfter
    MaxVersions := toInt32 metadataResponse.MaxVersions
    CustomMetadata := metadataResponse.CustomMetadata }

/-! ## A local disk that keeps what is written

The filesystem of the spec (section 6) on the write side: creating a file and
writing to it always succeed, a created file is empty until something is
encoded into it, and directories are not kept. -/

/-- Modelled from the spec: the content of a file on the local disk: nothing yet,
an encoded payload, or an encoded metadata request. -/
inductive FileContent where
  | empty
  | data (payload : GoMap)
  | metadata (request : KvV2WriteMetadataRequest)
  deriving DecidableEq

/-- Modelled from the spec: the files of the local disk with their content; the
first entry of a path counts. -/
abbrev Disk := List (String × FileContent)

/-- The content of the file at a path. -/
def Disk.get (dk : Disk) (path : String) : Option FileContent :=
  match dk with
  | [] => none
  | (p, x) :: rest => if p = path then some x else Disk.get rest path

/-- The disk with the content of a path set. -/
def Disk.put (dk : Disk) (path : String) (x : FileContent) : Disk :=
  (path, x) :: dk.filter (fun px => px.1 ≠ path)

/-- Modelled from the spec: the file operations on the local disk that keeps what
is written; they always succeed. -/
def memDisk : LocalDisk Disk where
  MkdirAll := fun _ dk => (true, dk)
  Create := fun path dk => (true, dk.put path FileContent.empty)
  EncodeData := fun path payload dk => (true, dk.put path (FileContent.data payload))
  EncodeMetadata := fun path request dk => (true, dk.put path (FileContent.metadata request))

/-- A fetch that starts on a remote store and an empty local disk. -/
def fetchStart (st : Store) : World (FetchState Store Disk) :=
  ⟨⟨st, [], []⟩, []⟩

/-- The configuration `NewFetcher` makes of the local path `out` and the vault path `un`. -/
def configFetch : SyncerConfig :=
  NewFetcher { VaultAddr := "", VaultToken := "", MountPath := "kv", VaultPath := "un",
               LocalPath := "out", CasTry := 3 }

/-- The payload `d` is the payload of a data file of the local walk whose key is `key`. -/
def FromLocal (fs : LocalFS) (s : SyncerConfig) (key : String) (d : GoMap) : Prop :=
  ∃ x ∈ fs.WalkDir s.LocalPath, x.isDataFile = true ∧
    toVaultKey s.LocalPath x.path s.VaultPath = key ∧
    ∃ secret, ReadLocalSecret fs x.path = some secret ∧ secret.Data = d

/-- Every key of the store that has a version holds the payload of a data file
of the local walk with that key. -/
def AllFromLocal (fs : LocalFS) (s : SyncerConfig) (st : Store) : Prop :=
  ∀ key en, st.get key = some en → 0 < en.currentVersion → FromLocal fs s key en.data

/-- The disk after a successful callback of `Fetch` for a key whose entry in
the store is `en`: the data file holds the payload, and the sidecar holds the
sidecar record unless the custom metadata is empty-equivalent. -/
def fetchedDisk (f : SyncerConfig) (key : String) (en : RemoteEntry) (dk : Disk) : Disk :=
  let dataDisk := (dk.put (ToLocalPath f.LocalPath f.VaultPath key) FileContent.empty).put
    (ToLocalPath f.LocalPath f.VaultPath key) (FileContent.data en.data)
  if IsEmptyMap en.metadata.CustomMetadata then dataDisk
  else
    (dataDisk.put (toMetadataPath (ToLocalPath f.LocalPath f.VaultPath key))
      FileContent.empty).put (toMetadataPath (ToLocalPath f.LocalPath f.VaultPath key))
      (FileContent.metadata (sidecarRequest en.metadata))

/-- The disk holds what `Fetch` writes for a key of the store: the payload in
the data file, and the sidecar record in the sidecar, which is absent when the
custom metadata is empty-equivalent. -/
def FetchedKey (st : Store) (f : SyncerConfig) (dk : Disk) (key : String) : Prop :=
  ∃ en, st.get key = some en ∧ 0 < en.currentVersion ∧ en.deleted = false ∧
    dk.get (ToLocalPath f.LocalPath f.VaultPath key) = some (FileContent.data en.data) ∧
    dk.get (toMetadataPath (ToLocalPath f.LocalPath f.VaultPath key)) =
      (if IsEmptyMap en.metadata.CustomMetadata then none
       else some (FileContent.metadata (sidecarRequest en.metadata)))

/-- The state of a fetch from the store `st` after the callback has run for
the keys `ks`: the store is unchanged, every key of `ks` is the key of a local
data file and has been fetched, and every file of the disk is the data file or
the sidecar of a key of `ks`. -/
def FetchInv (fs : LocalFS) (s f : SyncerConfig) (st : Store) (ks : List String)
    (x : World (FetchState Store Disk)) : Prop :=
  x.remote.store = st ∧
  (∀ k ∈ ks, (∃ d, FromLocal fs s k d) ∧ FetchedKey st f x.remote.disk k) ∧
  (∀ path content, x.remote.disk.get path = some content →
    ∃ k ∈ ks, path = ToLocalPath f.LocalPath f.VaultPath k ∨
      path = toMetadataPath (ToLocalPath f.LocalPath f.VaultPath k))

/-- The local sidecar `{cas_required: true, delete_version_after: "0s",
max_versions: 5}` with no `custom_metadata` entry. -/
def casRequest : KvV2WriteMetadataRequest :=
  { CasRequired := true, CustomMetadata := none, DeleteVersionAfter := "0s", MaxVersions := 5 }

/-- The local tree with `data/a.json` holding `{"x": 1}` and the sidecar
`data/a.meta.json` holding `casRequest`. -/
def casOnlyFS : LocalFS :=
  treeFS "data" ["data/a.json", "data/a.meta.json"]
    (fun p => if p = "data/a.json" then some payloadOne else none)
    (fun p => if p = "data/a.meta.json" then some casRequest else none)

/-- The store after `twoFilesFS` is synced into the empty store under `un`. -/
def syncedStore : Store :=
  [("un/b/c", { data := payloadTwo, currentVersion := 1, deleted := false,
                metadata := defaultMetadata }),
   ("un/a", { data := payloadOne, currentVersion := 1, deleted := false,
              metadata := storedMetadata teamRequest })]

/-- The namespace of `syncedStore` below `un`, in the order of its listings: the
sub-namespace `b/` holding the leaf `c`, then the leaf `a`. -/
def syncedTree : NsTree :=
  NsTree.sub "b/" (NsTree.leaf "c" NsTree.nil) (NsTree.leaf "a" NsTree.nil)
/-! # Theorems -/

/-! ## Key mapper: round trips -/

/-- C1 (fails on the code): with the local root `.` that `NewSyncer` makes of `.`
(or of the empty default), the walk reports the hidden file `.env.json` as
`.env.json`; `toVaultKey` trims the root `.` off as a string prefix and gives
the key `un/env`, and `ToLocalPath` maps that key to `env.json`, which is not
the file the key came from. -/
theorem toLocalPath_toVaultKey_hidden_file :
    (NewSyncer ⟨"", "", "kv", "un", ".", 3⟩).LocalPath = "." ∧
    (NewSyncer ⟨"", "", "kv", "un", ".", 3⟩).VaultPath = "un" ∧
    Join [".", ".env.json"] = ".env.json" ∧
    toVaultKey "." ".env.json" "un" = "un/env" ∧
    ToLocalPath "." "un" (toVaultKey "." ".env.json" "un") = "env.json" ∧
    ToLocalPath "." "un" (toVaultKey "." ".env.json" "un") ≠ ".env.json" := by
  decide

/-- C2 (fails on the code): with the normalised root `.` and the prefix `un`, the
remote walk yields the key `un/.env` for the entry `.env`; its local path is
`.env.json`, and `toVaultKey` maps that path to `un/env`, not back to `un/.env`. -/
theorem toVaultKey_toLocalPath_hidden_key :
    (NewSyncer ⟨"", "", "kv", "un", ".", 3⟩).LocalPath = "." ∧
    (NewSyncer ⟨"", "", "kv", "un", ".", 3⟩).VaultPath = "un" ∧
    Join ["un", ".env"] = "un/.env" ∧
    ToLocalPath "." "un" "un/.env" = ".env.json" ∧
    toVaultKey "." (ToLocalPath "." "un" "un/.env") "un" = "un/env" ∧
    toVaultKey "." (ToLocalPath "." "un" "un/.env") "un" ≠ "un/.env" := by
  decide

/-! ## Equality oracle -/

theorem DeepEqual_len {a b : GoMap} (h : DeepEqual a b = true) : a.len = b.len := by
  cases a with
  | none => cases b with
    | none => rfl
    | some y => simp [DeepEqual] at h
  | some x => cases b with
    | none => simp [DeepEqual] at h
    | some y =>
      simp only [DeepEqual, Bool.and_eq_true, beq_iff_eq] at h
      exact h.1

theorem MapEqual_eq_true_iff (a b : GoMap) :
    MapEqual a b = true ↔
      (IsEmptyMap a = true ∧ IsEmptyMap b = true) ∨ DeepEqual a b = true := by
  unfold MapEqual
  by_cases he : (IsEmptyMap a && IsEmptyMap b) = true
  · simp only [he, if_true, true_iff]
    left
    simpa using he
  · have he2 : ¬ (IsEmptyMap a = true ∧ IsEmptyMap b = true) := by simpa using he
    simp only [he, if_false, he2, false_or, Bool.false_eq_true]
    by_cases hl : a.len = b.len
    · simp [hl]
    · have : DeepEqual a b ≠ true := fun h => hl (DeepEqual_len h)
      simp [hl, this]

theorem IsEmptyMap_none : IsEmptyMap none = true := by decide

theorem IsEmptyMap_emptyMap : IsEmptyMap emptyMap = true := by decide

theorem IsEmptyMap_sentinelMap : IsEmptyMap sentinelMap = true := by decide

/-- C3: `MetadataEqual` is true for a remote and a local record with equal
`CasRequired`, `DeleteVersionAfter` and `MaxVersions` whose custom-metadata maps
are each the nil map, the empty map or the sentinel map (all nine combinations). -/
theorem MetadataEqual_empty_combinations (a : KvV2ReadMetadataResponse)
    (b : KvV2WriteMetadataRequest)
    (hcas : a.CasRequired = b.CasRequired)
    (hdva : a.DeleteVersionAfter = b.DeleteVersionAfter)
    (hmax : a.MaxVersions = b.MaxVersions)
    (ha : a.CustomMetadata = none ∨ a.CustomMetadata = emptyMap ∨ a.CustomMetadata = sentinelMap)
    (hb : b.CustomMetadata = none ∨ b.CustomMetadata = emptyMap ∨ b.CustomMetadata = sentinelMap) :
    MetadataEqual (some a) (some b) = some true := by
  have hea : IsEmptyMap a.CustomMetadata = true := by
    rcases ha with h | h | h <;> rw [h] <;> decide
  have heb : IsEmptyMap b.CustomMetadata = true := by
    rcases hb with h | h | h <;> rw [h] <;> decide
  simp [MetadataEqual, hcas, hdva, hmax, MapEqual, hea, heb]

/-- Witness of C3: a remote record with the nil map against a local record with
the sentinel map. -/
theorem MetadataEqual_empty_combinations_witness :
    MetadataEqual (some ⟨true, none, "0s", 3⟩) (some ⟨true, sentinelMap, "0s", 3⟩) = some true :=
  MetadataEqual_empty_combinations ⟨true, none, "0s", 3⟩ ⟨true, sentinelMap, "0s", 3⟩
    rfl rfl rfl (Or.inl rfl) (Or.inr (Or.inr rfl))

theorem IsEmptyMap_eq_true_iff (m : GoMap) :
    IsEmptyMap m = true ↔
      m = none ∨ m = emptyMap ∨
        ∃ (v : GoValue) (h : ([("(empty)", v)].map Prod.fst).Nodup),
          m = some ⟨[("(empty)", v)], h⟩ := by
  cases m with
  | none => simp [IsEmptyMap, GoMap.len]
  | some o =>
    obtain ⟨entries, hn⟩ := o
    cases entries with
    | nil => simp [IsEmptyMap, GoMap.len, emptyMap]
    | cons kv rest =>
      obtain ⟨k, v⟩ := kv
      cases rest with
      | nil =>
        by_cases hk : k = "(empty)"
        · subst hk
          simp [IsEmptyMap, GoMap.len, GoMap.get, List.lookup, emptyMap]
        · have hb : ("(empty)" == k) = false := by
            simpa using fun h : "(empty)" = k => hk h.symm
          simp [IsEmptyMap, GoMap.len, GoMap.get, List.lookup, emptyMap, hb, hk]
      | cons kv2 rest2 =>
        simp [IsEmptyMap, GoMap.len, emptyMap]

/-- C4 as stated fails: the custom metadata `{"(empty)": "x"}` is neither nil, nor
the empty map, nor the sentinel map, so it is not empty-equivalent, and it is
not deep-equal to the nil map. `MetadataEqual` is true for a remote record
that carries it against an unset local record, for an unset remote record
against a local record that carries it, and for a remote record that carries
it against a local record with the same scalar fields and the nil map. -/
theorem MetadataEqual_marker_value :
    markerPayload ≠ none ∧ markerPayload ≠ emptyMap ∧ markerPayload ≠ sentinelMap ∧
    MetadataEqual (some ⟨false, markerPayload, "0s", 0⟩) none = some true ∧
    MetadataEqual none (some ⟨false, markerPayload, "0s", 0⟩) = some true ∧
    DeepEqual markerPayload none = false ∧
    MetadataEqual (some ⟨false, markerPayload, "0s", 0⟩) (some ⟨false, none, "0s", 0⟩) =
      some true := by
  decide

/-- C4, amended: with "empty" read as the code decides it (the map is nil, has no
entries, or has exactly one entry whose key is `(empty)`, whatever its value):
`MetadataEqual(a, b)` with `b` unset is true exactly when the custom metadata of
`a` is empty, whatever the other fields of `a`, and false otherwise; with `a`
unset and `b` set it is true exactly when the custom metadata of `b` is empty,
and false otherwise; with both set it is true exactly when `CasRequired`,
`DeleteVersionAfter` and `MaxVersions` are equal and the custom-metadata maps
are both empty or deep-equal, and false otherwise. -/
theorem MetadataEqual_exact_cases :
    (∀ a : KvV2ReadMetadataResponse,
      (MetadataEqual (some a) none = some true ↔
        a.CustomMetadata = none ∨ a.CustomMetadata = emptyMap ∨
          ∃ (v : GoValue) (h : ([("(empty)", v)].map Prod.fst).Nodup),
            a.CustomMetadata = some ⟨[("(empty)", v)], h⟩) ∧
      (MetadataEqual (some a) none = some true ∨ MetadataEqual (some a) none = some false)) ∧
    (∀ b : KvV2WriteMetadataRequest,
      (MetadataEqual none (some b) = some true ↔
        b.CustomMetadata = none ∨ b.CustomMetadata = emptyMap ∨
          ∃ (v : GoValue) (h : ([("(empty)", v)].map Prod.fst).Nodup),
            b.CustomMetadata = some ⟨[("(empty)", v)], h⟩) ∧
      (MetadataEqual none (some b) = some true ∨ MetadataEqual none (some b) = some false)) ∧
    (∀ (a : KvV2ReadMetadataResponse) (b : KvV2WriteMetadataRequest),
      (MetadataEqual (some a) (some b) = some true ↔
        a.CasRequired = b.CasRequired ∧ a.DeleteVersionAfter = b.DeleteVersionAfter ∧
        a.MaxVersions = b.MaxVersions ∧
        (((a.CustomMetadata = none ∨ a.CustomMetadata = emptyMap ∨
            ∃ (v : GoValue) (h : ([("(empty)", v)].map Prod.fst).Nodup),
              a.CustomMetadata = some ⟨[("(empty)", v)], h⟩) ∧
          (b.CustomMetadata = none ∨ b.CustomMetadata = emptyMap ∨
            ∃ (v : GoValue) (h : ([("(empty)", v)].map Prod.fst).Nodup),
              b.CustomMetadata = some ⟨[("(empty)", v)], h⟩)) ∨
          DeepEqual a.CustomMetadata b.CustomMetadata = true)) ∧
      (MetadataEqual (some a) (some b) = some true ∨
        MetadataEqual (some a) (some b) = some false)) := by
  refine ⟨fun a => ⟨?_, ?_⟩, fun b => ⟨?_, ?_⟩, fun a b => ?_⟩
  · rw [← IsEmptyMap_eq_true_iff]
    simp [MetadataEqual]
  · cases h : IsEmptyMap a.CustomMetadata <;> simp [MetadataEqual, h]
  · rw [← IsEmptyMap_eq_true_iff]
    simp [MetadataEqual]
  · cases h : IsEmptyMap b.CustomMetadata <;> simp [MetadataEqual, h]
  · rw [← IsEmptyMap_eq_true_iff, ← IsEmptyMap_eq_true_iff]
    by_cases h1 : a.CasRequired = b.CasRequired
    · by_cases h2 : a.DeleteVersionAfter = b.DeleteVersionAfter
      · by_cases h3 : a.MaxVersions = b.MaxVersions
        · have hm := MapEqual_eq_true_iff a.CustomMetadata b.CustomMetadata
          cases hme : MapEqual a.CustomMetadata b.CustomMetadata <;>
            simp [MetadataEqual, h1, h2, h3, hme, ← hm]
        · simp [MetadataEqual, h1, h2, h3]
      · simp [MetadataEqual, h1, h2]
    · simp [MetadataEqual, h1]

/-! ## Write side -/

theorem issued_append {σ : Type} (w : World σ) (st : σ) (cs : List RemoteCall) :
    issued w ⟨st, w.trace ++ cs⟩ = cs := by
  simp [issued]

/-- C6: when the read of the remote metadata gives a record or not-found, the
metadata phase issues no metadata write exactly when the record is not found
and the local metadata is unset, or the record is found and `MetadataEqual` to
the local metadata; in every other case it issues exactly one metadata write,
for the key of the pair, and that write is the local record itself whenever
the local metadata is set. -/
theorem trySetMetadata_issued {σ : Type} (c : VaultClient σ) (pair : VaultPair) (w : World σ)
    (hread : (c.KvV2ReadMetadata pair.Key pair.MountPath w.remote).1 =
        CallResult.responseError 404 ∨
      ∃ response,
        (c.KvV2ReadMetadata pair.Key pair.MountPath w.remote).1 = CallResult.ok response) :
    ((issued w (trySetMetadata c pair w).2).filter RemoteCall.isMetadataWrite = [] ↔
      noMetadataWriteCase c pair w) ∧
    (¬ noMetadataWriteCase c pair w →
      ∃ request,
        (issued w (trySetMetadata c pair w).2).filter RemoteCall.isMetadataWrite =
          [RemoteCall.KvV2WriteMetadata pair.Key request pair.MountPath] ∧
        ∀ m, pair.Metadata = some m → request = m) := by
  rcases hread with h | ⟨response, h⟩
  · cases hm : pair.Metadata with
    | none =>
      simp [trySetMetadata, kvV2ReadMetadata, h, hm, issued, noMetadataWriteCase,
        RemoteCall.isMetadataWrite]
    | some m =>
      simp [trySetMetadata, kvV2ReadMetadata, kvV2WriteMetadata, h, hm, issued,
        noMetadataWriteCase, RemoteCall.isMetadataWrite]
  · by_cases heq : MetadataEqual (some response) pair.Metadata = some true
    · simp [trySetMetadata, kvV2ReadMetadata, h, heq, issued, noMetadataWriteCase,
        RemoteCall.isMetadataWrite]
    · cases hm : pair.Metadata with
      | none =>
        rw [hm] at heq
        simp [trySetMetadata, kvV2ReadMetadata, kvV2WriteMetadata, h, hm, heq, issued,
          noMetadataWriteCase, RemoteCall.isMetadataWrite]
      | some m =>
        rw [hm] at heq
        simp [trySetMetadata, kvV2ReadMetadata, kvV2WriteMetadata, h, hm, heq, issued,
          noMetadataWriteCase, RemoteCall.isMetadataWrite]

/-- Witness of C6: the key `un/a` holds the custom metadata `{"team": "x"}` and the
local metadata is unset, so the read finds a record and one write is issued. -/
theorem trySetMetadata_issued_witness :
    ((storeClient.KvV2ReadMetadata pairA.Key pairA.MountPath
        (worldA payloadOne teamMetadata).remote).1 = CallResult.responseError 404 ∨
      ∃ response, (storeClient.KvV2ReadMetadata pairA.Key pairA.MountPath
        (worldA payloadOne teamMetadata).remote).1 = CallResult.ok response) ∧
    ((issued (worldA payloadOne teamMetadata)
        (trySetMetadata storeClient pairA (worldA payloadOne teamMetadata)).2).filter
          RemoteCall.isMetadataWrite = [] ↔
      noMetadataWriteCase storeClient pairA (worldA payloadOne teamMetadata)) ∧
    (¬ noMetadataWriteCase storeClient pairA (worldA payloadOne teamMetadata) →
      ∃ request,
        (issued (worldA payloadOne teamMetadata)
          (trySetMetadata storeClient pairA (worldA payloadOne teamMetadata)).2).filter
            RemoteCall.isMetadataWrite =
          [RemoteCall.KvV2WriteMetadata pairA.Key request pairA.MountPath] ∧
        ∀ m, pairA.Metadata = some m → request = m) :=
  ⟨Or.inr ⟨_, rfl⟩,
   trySetMetadata_issued storeClient pairA (worldA payloadOne teamMetadata) (Or.inr ⟨_, rfl⟩)⟩

/-! ## Retry loop -/

theorem attemptWorld_succ {σ : Type} (float64ToInt : String → Option Int) (c : VaultClient σ)
    (pair : VaultPair) (k : Nat) (w : World σ) :
    attemptWorld float64ToInt c pair (k + 1) w =
      attemptWorld float64ToInt c pair k (trySetKV float64ToInt c pair w).2 := by
  simp [attemptWorld, Function.iterate_succ_apply]

theorem attemptOutcome_succ {σ : Type} (float64ToInt : String → Option Int) (c : VaultClient σ)
    (pair : VaultPair) (k : Nat) (w : World σ) :
    attemptOutcome float64ToInt c pair (k + 1) w =
      attemptOutcome float64ToInt c pair k (trySetKV float64ToInt c pair w).2 := by
  simp [attemptOutcome, attemptWorld_succ]

theorem setKVLoop_attempts {σ : Type} (float64ToInt : String → Option Int) (c : VaultClient σ)
    (pair : VaultPair) (n : Nat) (w : World σ) :
    ∃ k : Nat, k ≤ n ∧
      (setKVLoop float64ToInt c pair n w).2 = attemptWorld float64ToInt c pair k w ∧
      (∀ j, j + 1 < k → attemptOutcome float64ToInt c pair j w ≠ ErrorValue.nil) ∧
      ((setKVLoop float64ToInt c pair n w).1 = ErrorValue.nil →
        0 < k ∧ attemptOutcome float64ToInt c pair (k - 1) w = ErrorValue.nil) ∧
      ((setKVLoop float64ToInt c pair n w).1 ≠ ErrorValue.nil →
        k = n ∧ ∀ j, j < n → attemptOutcome float64ToInt c pair j w ≠ ErrorValue.nil) := by
  induction n generalizing w with
  | zero =>
    refine ⟨0, le_refl _, rfl, ?_, ?_, ?_⟩
    · intro j hj; omega
    · intro h; simp [setKVLoop] at h
    · intro _; exact ⟨rfl, fun j hj => by omega⟩
  | succ n ih =>
    cases ht : (trySetKV float64ToInt c pair w).1 with
    | nil =>
      refine ⟨1, by omega, ?_, ?_, ?_, ?_⟩
      · simp [setKVLoop, ht, attemptWorld]
      · intro j hj; omega
      · intro _
        exact ⟨by omega, by simpa [attemptOutcome, attemptWorld] using ht⟩
      · intro h; simp [setKVLoop, ht] at h
    | error msg =>
      obtain ⟨k, hk, hw, hbefore, hok, herr⟩ := ih (trySetKV float64ToInt c pair w).2
      have h0 : attemptOutcome float64ToInt c pair 0 w ≠ ErrorValue.nil := by
        simp [attemptOutcome, attemptWorld, ht]
      have hloop : setKVLoop float64ToInt c pair (n + 1) w =
          setKVLoop float64ToInt c pair n (trySetKV float64ToInt c pair w).2 := by
        simp [setKVLoop, ht]
      refine ⟨k + 1, by omega, ?_, ?_, ?_, ?_⟩
      · rw [hloop, hw, attemptWorld_succ]
      · intro j hj
        cases j with
        | zero => exact h0
        | succ j =>
          rw [attemptOutcome_succ]
          exact hbefore j (by omega)
      · intro h
        rw [hloop] at h
        obtain ⟨hpos, hlast⟩ := hok h
        refine ⟨by omega, ?_⟩
        have : k + 1 - 1 = (k - 1) + 1 := by omega
        rw [this, attemptOutcome_succ]
        exact hlast
      · intro h
        rw [hloop] at h
        obtain ⟨hkn, hall⟩ := herr h
        refine ⟨by omega, ?_⟩
        intro j hj
        cases j with
        | zero => exact h0
        | succ j =>
          rw [attemptOutcome_succ]
          exact hall j (by omega)

/-- C7: for every bound `casTry` and every client, `setKV` runs attempts (data
phase, then metadata phase) one after another: it ends after some number `k`
of attempts, `k` at most `casTry` (and 0 when `casTry` is not positive), every
attempt before the last one run has failed, a nil result means that the last
attempt run succeeded, and the result is an error if and only if none of the
first `casTry` attempts succeeds, in which case exactly `casTry` attempts
(none when `casTry` is not positive) were run. -/
theorem setKV_attempts {σ : Type} (float64ToInt : String → Option Int) (c : VaultClient σ)
    (pair : VaultPair) (casTry : Int) (w : World σ) :
    ((setKV float64ToInt c pair casTry w).1 ≠ ErrorValue.nil ↔
      ∀ j : Nat, (j : Int) < casTry →
        attemptOutcome float64ToInt c pair j w ≠ ErrorValue.nil) ∧
    ∃ k : Nat, (k : Int) ≤ max casTry 0 ∧
      (setKV float64ToInt c pair casTry w).2 = attemptWorld float64ToInt c pair k w ∧
      (∀ j, j + 1 < k → attemptOutcome float64ToInt c pair j w ≠ ErrorValue.nil) ∧
      ((setKV float64ToInt c pair casTry w).1 = ErrorValue.nil →
        0 < k ∧ attemptOutcome float64ToInt c pair (k - 1) w = ErrorValue.nil) ∧
      ((setKV float64ToInt c pair casTry w).1 ≠ ErrorValue.nil → (k : Int) = max casTry 0) := by
  obtain ⟨k, hk, hw, hbefore, hok, herr⟩ :=
    setKVLoop_attempts float64ToInt c pair casTry.toNat w
  have hmax : ((casTry.toNat : Nat) : Int) = max casTry 0 := Int.toNat_eq_max casTry
  refine ⟨⟨fun h j hj => (herr h).2 j (by omega), fun h hnil => ?_⟩, k, by omega, hw, hbefore,
    hok, fun h => by rw [(herr h).1]; exact hmax⟩
  obtain ⟨hpos, hlast⟩ := hok hnil
  exact h (k - 1) (by omega) hlast

/-! ## Delete phase -/

/-- C8 as stated fails: the local tree has no file for the remote key `un/a`, and
the client refuses the data delete (status 403). The delete phase issues the
data delete and returns the error; the delete of all versions and metadata is
never issued. -/
theorem deleteKey_refused_delete :
    FileExists (treeFS "data" [] (fun _ => none) (fun _ => none))
        (ToLocalPath configA.LocalPath configA.VaultPath "un/a") = some false ∧
    (deleteKey (treeFS "data" [] (fun _ => none) (fun _ => none)) denyDeleteClient configA "un/a"
        (worldA payloadOne none)).1 = ErrorValue.error "failed to delete kv" ∧
    issued (worldA payloadOne none)
        (deleteKey (treeFS "data" [] (fun _ => none) (fun _ => none)) denyDeleteClient configA "un/a"
          (worldA payloadOne none)).2 = [RemoteCall.KvV2Delete "un/a" "kv"] ∧
    RemoteCall.KvV2DeleteMetadataAndAllVersions "un/a" "kv" ∉
      issued (worldA payloadOne none)
        (deleteKey (treeFS "data" [] (fun _ => none) (fun _ => none)) denyDeleteClient configA "un/a"
          (worldA payloadOne none)).2 := by
  decide

/-- C8, amended: for a remote key `key` with local path `p` and both existence
checks succeeding. If no file exists at `p`, the step issues a data delete
for `key` and then, exactly when that delete succeeded, a delete of all
versions and metadata for `key`, and nothing else. If a file and its sidecar
exist, the step issues no remote call at all. If a file exists and no sidecar,
the step issues no delete; it reads the remote metadata and issues a metadata
write exactly when that read gives a record whose custom metadata is not
empty-equivalent, and the write is the clearing request for that record. -/
theorem deleteKey_issued {σ : Type} (fs : LocalFS) (c : VaultClient σ) (s : SyncerConfig)
    (key : String) (w : World σ) :
    (FileExists fs (ToLocalPath s.LocalPath s.VaultPath key) = some false →
      FileExists fs (toMetadataPath (ToLocalPath s.LocalPath s.VaultPath key)) ≠ none →
      issued w (deleteKey fs c s key w).2 =
        RemoteCall.KvV2Delete key s.MountPath ::
          (if (c.KvV2Delete key s.MountPath w.remote).1.isOk then
            [RemoteCall.KvV2DeleteMetadataAndAllVersions key s.MountPath]
           else [])) ∧
    (FileExists fs (ToLocalPath s.LocalPath s.VaultPath key) = some true →
      FileExists fs (toMetadataPath (ToLocalPath s.LocalPath s.VaultPath key)) = some true →
      issued w (deleteKey fs c s key w).2 = []) ∧
    (FileExists fs (ToLocalPath s.LocalPath s.VaultPath key) = some true →
      FileExists fs (toMetadataPath (ToLocalPath s.LocalPath s.VaultPath key)) = some false →
      (issued w (deleteKey fs c s key w).2).filter RemoteCall.isDelete = [] ∧
      ((issued w (deleteKey fs c s key w).2).filter RemoteCall.isMetadataWrite ≠ [] ↔
        ∃ response, (c.KvV2ReadMetadata key s.MountPath w.remote).1 = CallResult.ok response ∧
          IsEmptyMap response.CustomMetadata = false) ∧
      ∀ response, (c.KvV2ReadMetadata key s.MountPath w.remote).1 = CallResult.ok response →
        IsEmptyMap response.CustomMetadata = false →
        issued w (deleteKey fs c s key w).2 =
          [RemoteCall.KvV2ReadMetadata key s.MountPath,
           RemoteCall.KvV2WriteMetadata key (clearRequest response) s.MountPath]) := by
  refine ⟨fun h1 h2 => ?_, fun h1 h2 => ?_, fun h1 h2 => ?_⟩
  · obtain ⟨b, hb⟩ := Option.ne_none_iff_exists'.mp h2
    cases hd : (c.KvV2Delete key s.MountPath w.remote).1 <;>
      simp [deleteKey, h1, hb, kvV2Delete, kvV2DeleteMetadataAndAllVersions, hd, issued,
        CallResult.isOk]
  · simp [deleteKey, h1, h2, issued]
  · cases hr : (c.KvV2ReadMetadata key s.MountPath w.remote).1 with
    | ok response =>
      cases he : IsEmptyMap response.CustomMetadata <;>
        simp [deleteKey, h1, h2, kvV2ReadMetadata, kvV2WriteMetadata, hr, he, issued,
          MetadataEqual, RemoteCall.isDelete, RemoteCall.isMetadataWrite, clearRequest]
    | responseError status =>
      simp [deleteKey, h1, h2, kvV2ReadMetadata, hr, issued, RemoteCall.isDelete,
        RemoteCall.isMetadataWrite]
    | otherError =>
      simp [deleteKey, h1, h2, kvV2ReadMetadata, hr, issued, RemoteCall.isDelete,
        RemoteCall.isMetadataWrite]

/-- Witness of C8 (amended), on the store without concurrent writers and the key
`un/a`: with no local file both deletes are issued; with `data/a.json` and its
sidecar nothing is issued; with `data/a.json` alone and the remote custom
metadata `{"team": "x"}` the clearing write is issued. -/
theorem deleteKey_issued_witness :
    issued (worldA payloadOne none)
        (deleteKey (treeFS "data" [] (fun _ => none) (fun _ => none)) storeClient configA "un/a"
          (worldA payloadOne none)).2 =
      [RemoteCall.KvV2Delete "un/a" "kv",
       RemoteCall.KvV2DeleteMetadataAndAllVersions "un/a" "kv"] ∧
    issued (worldA payloadOne teamMetadata)
        (deleteKey (treeFS "data" ["data/a.json", "data/a.meta.json"] (fun _ => none) (fun _ => none))
          storeClient configA "un/a" (worldA payloadOne teamMetadata)).2 = [] ∧
    issued (worldA payloadOne teamMetadata)
        (deleteKey (treeFS "data" ["data/a.json"] (fun _ => none) (fun _ => none))
          storeClient configA "un/a" (worldA payloadOne teamMetadata)).2 =
      [RemoteCall.KvV2ReadMetadata "un/a" "kv",
       RemoteCall.KvV2WriteMetadata "un/a"
         (clearRequest { defaultMetadata with CustomMetadata := teamMetadata }) "kv"] :=
  ⟨(deleteKey_issued (treeFS "data" [] (fun _ => none) (fun _ => none)) storeClient configA "un/a"
      (worldA payloadOne none)).1 (by decide) (by decide),
   (deleteKey_issued (treeFS "data" ["data/a.json", "data/a.meta.json"] (fun _ => none)
      (fun _ => none)) storeClient configA "un/a" (worldA payloadOne teamMetadata)).2.1
      (by decide) (by decide),
   ((deleteKey_issued (treeFS "data" ["data/a.json"] (fun _ => none) (fun _ => none)) storeClient
      configA "un/a" (worldA payloadOne teamMetadata)).2.2 (by decide) (by decide)).2.2
      { defaultMetadata with CustomMetadata := teamMetadata } (by decide) (by decide)⟩

/-! ## Convergence on the store without concurrent writers -/

theorem Store.get_erase_ne (st : Store) {k key : String} (h : k ≠ key) :
    (Store.erase st key).get k = st.get k := by
  induction st with
  | nil => rfl
  | cons ke rest ih =>
    obtain ⟨k0, e0⟩ := ke
    by_cases hk : k0 = key
    · have hne : k0 ≠ k := fun h0 => h (h0 ▸ hk)
      have : Store.erase ((k0, e0) :: rest) key = Store.erase rest key := by
        simp [Store.erase, hk]
      rw [this, ih]
      simp [Store.get, hne]
    · have : Store.erase ((k0, e0) :: rest) key = (k0, e0) :: Store.erase rest key := by
        simp [Store.erase, hk]
      rw [this]
      simp only [Store.get]
      rw [ih]

theorem Store.get_put_self (st : Store) (key : String) (e : RemoteEntry) :
    (Store.put st key e).get key = some e := by
  simp [Store.put, Store.get]

theorem Store.get_put_ne (st : Store) {k key : String} (e : RemoteEntry) (h : k ≠ key) :
    (Store.put st key e).get k = st.get k := by
  have hne : key ≠ k := fun h0 => h h0.symm
  simp only [Store.put, Store.get, hne, if_false]
  exact Store.get_erase_ne st h

theorem lookup_of_mem_nodup (l : List (String × GoValue)) (hn : (l.map Prod.fst).Nodup)
    (kv : String × GoValue) (hm : kv ∈ l) : l.lookup kv.1 = some kv.2 := by
  induction l with
  | nil => cases hm
  | cons hd tl ih =>
    obtain ⟨k0, v0⟩ := hd
    rw [List.map_cons, List.nodup_cons] at hn
    rcases List.mem_cons.mp hm with h | h
    · subst h
      simp [List.lookup]
    · have hne : kv.1 ≠ k0 := by
        intro heq
        apply hn.1
        rw [← heq]
        exact List.mem_map.mpr ⟨kv, h, rfl⟩
      have hb : (kv.1 == k0) = false := by simpa using hne
      simp only [List.lookup, hb]
      exact ih hn.2 h

theorem DeepEqual_refl (a : GoMap) : DeepEqual a a = true := by
  cases a with
  | none => rfl
  | some x =>
    simp only [DeepEqual, beq_self_eq_true, Bool.true_and, List.all_eq_true, beq_iff_eq]
    intro kv hkv
    exact lookup_of_mem_nodup x.entries x.nodupKeys kv hkv

theorem MapEqual_refl (a : GoMap) : MapEqual a a = true :=
  (MapEqual_eq_true_iff a a).mpr (Or.inr (DeepEqual_refl a))

theorem getVersion_versionMetadata (float64ToInt : String → Option Int) (v : Int) :
    getVersion float64ToInt (versionMetadata v) = some v := by
  simp [getVersion, versionMetadata, GoMap.get, List.lookup]

theorem trySetData_store_frame (float64ToInt : String → Option Int) (pair : VaultPair)
    (w : World Store) {k : String} (h : k ≠ pair.Key) :
    (trySetData float64ToInt storeClient pair w).2.remote.get k = w.remote.get k := by
  cases hg : w.remote.get pair.Key with
  | none =>
    simp [trySetData, kvV2Read, kvV2Write, storeClient, Store.KvV2Read, Store.KvV2Write, hg,
      Store.get_put_ne _ _ h]
  | some e =>
    by_cases hv : 0 < e.currentVersion ∧ e.deleted = false
    · by_cases hm : MapEqual e.data pair.Data = true
      · simp [trySetData, kvV2Read, kvV2Write, storeClient, Store.KvV2Read, Store.KvV2Write, hg,
          hv, hm]
      · simp [trySetData, kvV2Read, kvV2Write, storeClient, Store.KvV2Read, Store.KvV2Write, hg,
          hv, hm, getVersion_versionMetadata, Store.get_put_ne _ _ h]
    · by_cases h0 : (0 : Int) = e.currentVersion
      · simp [trySetData, kvV2Read, kvV2Write, storeClient, Store.KvV2Read, Store.KvV2Write, hg,
          hv, h0, Store.get_put_ne _ _ h]
      · simp [trySetData, kvV2Read, kvV2Write, storeClient, Store.KvV2Read, Store.KvV2Write, hg,
          hv, h0]

theorem trySetData_store_ok (float64ToInt : String → Option Int) (pair : VaultPair)
    (w : World Store) (hok : (trySetData float64ToInt storeClient pair w).1 = ErrorValue.nil) :
    ∃ e, (trySetData float64ToInt storeClient pair w).2.remote.get pair.Key = some e ∧
      0 < e.currentVersion ∧ e.deleted = false ∧ MapEqual e.data pair.Data = true := by
  revert hok
  cases hg : w.remote.get pair.Key with
  | none =>
    intro _
    simp [trySetData, kvV2Read, kvV2Write, storeClient, Store.KvV2Read, Store.KvV2Write, hg,
      Store.get_put_self, MapEqual_refl]
  | some e =>
    by_cases hv : 0 < e.currentVersion ∧ e.deleted = false
    · by_cases hm : MapEqual e.data pair.Data = true
      · intro _
        simp [trySetData, kvV2Read, kvV2Write, storeClient, Store.KvV2Read, Store.KvV2Write, hg,
          hv, hm]
      · intro _
        simp [trySetData, kvV2Read, kvV2Write, storeClient, Store.KvV2Read, Store.KvV2Write, hg,
          hv, hm, getVersion_versionMetadata, Store.get_put_self, MapEqual_refl]
        omega
    · by_cases h0 : (0 : Int) = e.currentVersion
      · intro _
        simp [trySetData, kvV2Read, kvV2Write, storeClient, Store.KvV2Read, Store.KvV2Write, hg,
          hv, h0, Store.get_put_self, MapEqual_refl]
        omega
      · simp [trySetData, kvV2Read, kvV2Write, storeClient, Store.KvV2Read, Store.KvV2Write, hg,
          hv, h0, errorOf]

theorem MetadataEqual_storedMetadata (m : KvV2WriteMetadataRequest) :
    MetadataEqual (some (storedMetadata m)) (some m) = some true := by
  simp [MetadataEqual, storedMetadata, MapEqual_refl]

theorem trySetMetadata_store_frame (pair : VaultPair) (w : World Store) {k : String}
    (h : k ≠ pair.Key) :
    (trySetMetadata storeClient pair w).2.remote.get k = w.remote.get k := by
  cases hg : w.remote.get pair.Key with
  | none =>
    cases hm : pair.Metadata <;>
      simp [trySetMetadata, kvV2ReadMetadata, kvV2WriteMetadata, storeClient,
        Store.KvV2ReadMetadata, Store.KvV2WriteMetadata, hg, hm, Store.get_put_ne _ _ h]
  | some e =>
    by_cases heq : MetadataEqual (some e.metadata) pair.Metadata = some true
    · simp [trySetMetadata, kvV2ReadMetadata, kvV2WriteMetadata, storeClient,
        Store.KvV2ReadMetadata, Store.KvV2WriteMetadata, hg, heq]
    · cases hm : pair.Metadata <;> rw [hm] at heq <;>
        simp [trySetMetadata, kvV2ReadMetadata, kvV2WriteMetadata, storeClient,
          Store.KvV2ReadMetadata, Store.KvV2WriteMetadata, hg, hm, heq, Store.get_put_ne _ _ h]

theorem trySetMetadata_store_keep (pair : VaultPair) (w : World Store) (e : RemoteEntry)
    (hg : w.remote.get pair.Key = some e) :
    ∃ e1, (trySetMetadata storeClient pair w).2.remote.get pair.Key = some e1 ∧
      e1.data = e.data ∧ e1.currentVersion = e.currentVersion ∧ e1.deleted = e.deleted ∧
      MetadataEqual (some e1.metadata) pair.Metadata = some true := by
  by_cases heq : MetadataEqual (some e.metadata) pair.Metadata = some true
  · refine ⟨e, ?_, rfl, rfl, rfl, heq⟩
    simp [trySetMetadata, kvV2ReadMetadata, kvV2WriteMetadata, storeClient,
      Store.KvV2ReadMetadata, Store.KvV2WriteMetadata, hg, heq]
  · cases hm : pair.Metadata with
    | none =>
      rw [hm] at heq
      refine ⟨{ e with metadata := storedMetadata (clearRequest e.metadata) }, ?_, rfl, rfl, rfl,
        ?_⟩
      · simp [trySetMetadata, kvV2ReadMetadata, kvV2WriteMetadata, storeClient,
          Store.KvV2ReadMetadata, Store.KvV2WriteMetadata, hg, hm, heq, Store.get_put_self,
          clearRequest]
      · simp [MetadataEqual, storedMetadata, clearRequest, IsEmptyMap_sentinelMap]
    | some m =>
      rw [hm] at heq
      refine ⟨{ e with metadata := storedMetadata m }, ?_, rfl, rfl, rfl,
        MetadataEqual_storedMetadata m⟩
      simp [trySetMetadata, kvV2ReadMetadata, kvV2WriteMetadata, storeClient,
        Store.KvV2ReadMetadata, Store.KvV2WriteMetadata, hg, hm, heq, Store.get_put_self]

theorem trySetKV_store_frame (float64ToInt : String → Option Int) (pair : VaultPair)
    (w : World Store) {k : String} (h : k ≠ pair.Key) :
    (trySetKV float64ToInt storeClient pair w).2.remote.get k = w.remote.get k := by
  unfold trySetKV
  cases hd : (trySetData float64ToInt storeClient pair w).1 with
  | error msg => simp [hd, trySetData_store_frame float64ToInt pair w h]
  | nil =>
    cases hm : (trySetMetadata storeClient pair
        (trySetData float64ToInt storeClient pair w).2).1 <;>
      simp [hd, hm, trySetMetadata_store_frame pair _ h,
        trySetData_store_frame float64ToInt pair w h]

theorem trySetKV_store_ok (float64ToInt : String → Option Int) (pair : VaultPair)
    (w : World Store) (hok : (trySetKV float64ToInt storeClient pair w).1 = ErrorValue.nil) :
    ConvergedAt (trySetKV float64ToInt storeClient pair w).2.remote pair.Key
      ⟨pair.Data, pair.Metadata⟩ := by
  unfold trySetKV at hok ⊢
  cases hd : (trySetData float64ToInt storeClient pair w).1 with
  | error msg => simp [hd] at hok
  | nil =>
    obtain ⟨e, hg, hv, hdel, hmap⟩ := trySetData_store_ok float64ToInt pair w hd
    obtain ⟨e1, hg1, h1, h2, h3, h4⟩ := trySetMetadata_store_keep pair _ e hg
    have hfinal : (match (trySetMetadata storeClient pair
          (trySetData float64ToInt storeClient pair w).2).1 with
        | ErrorValue.error _ => (ErrorValue.error "failed to set metadata",
            (trySetMetadata storeClient pair (trySetData float64ToInt storeClient pair w).2).2)
        | ErrorValue.nil => (ErrorValue.nil,
            (trySetMetadata storeClient pair
              (trySetData float64ToInt storeClient pair w).2).2)).2 =
        (trySetMetadata storeClient pair (trySetData float64ToInt storeClient pair w).2).2 := by
      split <;> rfl
    simp only [hd]
    rw [hfinal]
    exact ⟨e1, hg1, by rw [h2]; exact hv, by rw [h3]; exact hdel, by rw [h1]; exact hmap, h4⟩

theorem setKVLoop_store_frame (float64ToInt : String → Option Int) (pair : VaultPair) (n : Nat)
    (w : World Store) {k : String} (h : k ≠ pair.Key) :
    (setKVLoop float64ToInt storeClient pair n w).2.remote.get k = w.remote.get k := by
  induction n generalizing w with
  | zero => rfl
  | succ n ih =>
    cases ht : (trySetKV float64ToInt storeClient pair w).1 with
    | nil => simp [setKVLoop, ht, trySetKV_store_frame float64ToInt pair w h]
    | error msg =>
      simp only [setKVLoop, ht]
      rw [ih, trySetKV_store_frame float64ToInt pair w h]

theorem setKVLoop_store_ok (float64ToInt : String → Option Int) (pair : VaultPair) (n : Nat)
    (w : World Store)
    (hok : (setKVLoop float64ToInt storeClient pair n w).1 = ErrorValue.nil) :
    ConvergedAt (setKVLoop float64ToInt storeClient pair n w).2.remote pair.Key
      ⟨pair.Data, pair.Metadata⟩ := by
  induction n generalizing w with
  | zero => simp [setKVLoop] at hok
  | succ n ih =>
    cases ht : (trySetKV float64ToInt storeClient pair w).1 with
    | nil =>
      simp only [setKVLoop, ht]
      exact trySetKV_store_ok float64ToInt pair w ht
    | error msg =>
      simp only [setKVLoop, ht] at hok ⊢
      exact ih _ hok

theorem syncFile_store_frame (float64ToInt : String → Option Int) (fs : LocalFS)
    (s : SyncerConfig) (entry : WalkEntry) (w : World Store) {k : String}
    (h : k ≠ toVaultKey s.LocalPath entry.path s.VaultPath) :
    (syncFile float64ToInt fs storeClient s entry w).2.remote.get k = w.remote.get k := by
  unfold syncFile
  split
  · rfl
  · split
    · rfl
    · split
      · rfl
      · split
        · rfl
        · split
          · rfl
          · rename_i secret _
            have hf := setKVLoop_store_frame float64ToInt
              { MountPath := s.MountPath, Key := toVaultKey s.LocalPath entry.path s.VaultPath,
                Data := secret.Data, Metadata := secret.Metadata } s.CasTry.toNat w h
            simp only [setKV]
            split <;> exact hf

theorem syncFile_store_same (float64ToInt : String → Option Int) (fs : LocalFS)
    (s : SyncerConfig) (entry : WalkEntry) (w : World Store)
    (hnot : entry.isDataFile = false) :
    (syncFile float64ToInt fs storeClient s entry w).2 = w := by
  unfold syncFile
  simp only [WalkEntry.isDataFile, Bool.and_eq_false_iff, Bool.not_eq_false'] at hnot
  rcases hnot with ((h | h) | h) | h
  · simp [h]
  · by_cases he : entry.err = true <;> simp [he, h]
  · by_cases he : entry.err = true <;> by_cases hd : entry.isDir = true <;> simp [he, hd, h]
  · by_cases he : entry.err = true <;> by_cases hd : entry.isDir = true <;>
      by_cases hj : HasSuffix entry.path ".json" = true <;> simp [he, hd, hj, h]

theorem syncFile_store_ok (float64ToInt : String → Option Int) (fs : LocalFS)
    (s : SyncerConfig) (entry : WalkEntry) (w : World Store)
    (hok : (syncFile float64ToInt fs storeClient s entry w).1 = ErrorValue.nil) :
    ConvergedFile fs s (syncFile float64ToInt fs storeClient s entry w).2.remote entry := by
  intro hdata
  simp only [WalkEntry.isDataFile, Bool.and_eq_true, Bool.not_eq_true'] at hdata
  obtain ⟨⟨⟨he, hd⟩, hj⟩, hm⟩ := hdata
  unfold syncFile at hok ⊢
  simp only [he, hd, hj, hm, Bool.false_eq_true, if_false, Bool.not_true] at hok ⊢
  cases hs : ReadLocalSecret fs entry.path with
  | none => simp [hs] at hok
  | some secret =>
    simp only [hs] at hok ⊢
    refine ⟨secret, rfl, ?_⟩
    cases hr : (setKV float64ToInt storeClient
        { MountPath := s.MountPath, Key := toVaultKey s.LocalPath entry.path s.VaultPath,
          Data := secret.Data, Metadata := secret.Metadata } s.CasTry w).1 with
    | error msg => simp [hr] at hok
    | nil =>
      simp only [hr]
      exact setKVLoop_store_ok float64ToInt _ _ w hr

theorem ConvergedAt_congr {st st1 : Store} {key : String} {secret : Secret}
    (h : st1.get key = st.get key) (hc : ConvergedAt st key secret) :
    ConvergedAt st1 key secret := by
  obtain ⟨e, hg, rest⟩ := hc
  exact ⟨e, by rw [h]; exact hg, rest⟩

theorem syncFile_preserves (float64ToInt : String → Option Int) (fs : LocalFS)
    (s : SyncerConfig) (entry e : WalkEntry) (w : World Store)
    (hre : e.isDataFile = true →
      ToLocalPath s.LocalPath s.VaultPath (toVaultKey s.LocalPath e.path s.VaultPath) = e.path)
    (hrentry : entry.isDataFile = true →
      ToLocalPath s.LocalPath s.VaultPath (toVaultKey s.LocalPath entry.path s.VaultPath) =
        entry.path)
    (hgood : ConvergedFile fs s w.remote e)
    (hok : (syncFile float64ToInt fs storeClient s entry w).1 = ErrorValue.nil) :
    ConvergedFile fs s (syncFile float64ToInt fs storeClient s entry w).2.remote e := by
  intro hdata
  cases hentry : entry.isDataFile with
  | false =>
    rw [syncFile_store_same float64ToInt fs s entry w hentry]
    exact hgood hdata
  | true =>
    by_cases hk : toVaultKey s.LocalPath e.path s.VaultPath =
        toVaultKey s.LocalPath entry.path s.VaultPath
    · have hpath : e.path = entry.path := by
        rw [← hre hdata, hk, hrentry hentry]
      have := syncFile_store_ok float64ToInt fs s entry w hok hentry
      rw [hpath]
      exact this
    · obtain ⟨secret, hs, hc⟩ := hgood hdata
      exact ⟨secret, hs,
        ConvergedAt_congr (syncFile_store_frame float64ToInt fs s entry w hk) hc⟩

theorem walkLocal_converged (float64ToInt : String → Option Int) (fs : LocalFS)
    (s : SyncerConfig) (entries done : List WalkEntry) (w : World Store)
    (hround : ∀ e ∈ done ++ entries, e.isDataFile = true →
      ToLocalPath s.LocalPath s.VaultPath (toVaultKey s.LocalPath e.path s.VaultPath) = e.path)
    (hdone : ∀ e ∈ done, ConvergedFile fs s w.remote e)
    (hok : (walkLocal (syncFile float64ToInt fs storeClient s) entries w).1 = ErrorValue.nil) :
    ∀ e ∈ done ++ entries,
      ConvergedFile fs s
        (walkLocal (syncFile float64ToInt fs storeClient s) entries w).2.remote e := by
  induction entries generalizing done w with
  | nil =>
    intro e he
    simp only [List.append_nil] at he
    exact hdone e he
  | cons entry rest ih =>
    cases hr : (syncFile float64ToInt fs storeClient s entry w).1 with
    | error msg => simp [walkLocal, hr] at hok
    | nil =>
      simp only [walkLocal, hr] at hok ⊢
      have hround1 : ∀ e ∈ (done ++ [entry]) ++ rest, e.isDataFile = true →
          ToLocalPath s.LocalPath s.VaultPath (toVaultKey s.LocalPath e.path s.VaultPath) =
            e.path := by
        intro e he
        exact hround e (by simpa using he)
      have hdone1 : ∀ e ∈ done ++ [entry],
          ConvergedFile fs s (syncFile float64ToInt fs storeClient s entry w).2.remote e := by
        intro e he
        rcases List.mem_append.mp he with h | h
        · exact syncFile_preserves float64ToInt fs s entry e w
            (hround e (List.mem_append_left _ h))
            (hround entry (List.mem_append_right _ (List.mem_cons_self _ _)))
            (hdone e h) hr
        · have : e = entry := by simpa using h
          subst this
          exact syncFile_store_ok float64ToInt fs s e w hr
      intro e he
      exact ih (done ++ [entry]) _ hround1 hdone1 hok e (by simpa using he)

theorem deleteKey_store_frame (fs : LocalFS) (s : SyncerConfig) (key : String)
    (w : World Store) {k : String} (h : k ≠ key) :
    (deleteKey fs storeClient s key w).2.remote.get k = w.remote.get k := by
  cases h1 : FileExists fs (ToLocalPath s.LocalPath s.VaultPath key) with
  | none => simp [deleteKey, h1]
  | some b1 =>
    cases h2 : FileExists fs (toMetadataPath (ToLocalPath s.LocalPath s.VaultPath key)) with
    | none => simp [deleteKey, h1, h2]
    | some b2 =>
      cases b1 <;> cases b2 <;> cases hg : w.remote.get key <;>
        simp [deleteKey, h1, h2, kvV2ReadMetadata, kvV2WriteMetadata, kvV2Delete,
          kvV2DeleteMetadataAndAllVersions, storeClient, Store.KvV2ReadMetadata,
          Store.KvV2WriteMetadata, Store.KvV2Delete, Store.KvV2DeleteMetadataAndAllVersions,
          hg, Store.get_put_ne _ _ h, Store.get_erase_ne _ h]
      · rename_i e0
        by_cases heq : MetadataEqual (some e0.metadata) none = some true
        · simp [heq]
        · simp [heq, hg, Store.get_put_ne _ _ h]

theorem ReadLocalSecret_no_sidecar (fs : LocalFS) (file : String) (secret : Secret)
    (hs : ReadLocalSecret fs file = some secret)
    (hm : FileExists fs (toMetadataPath file) = some false) : secret.Metadata = none := by
  unfold ReadLocalSecret at hs
  cases hd : ReadData fs file with
  | none => simp [hd] at hs
  | some data =>
    simp only [hd, hm] at hs
    cases hs
    rfl

theorem deleteKey_preserves (fs : LocalFS) (s : SyncerConfig) (key : String) (e : WalkEntry)
    (w : World Store)
    (hre : e.isDataFile = true →
      ToLocalPath s.LocalPath s.VaultPath (toVaultKey s.LocalPath e.path s.VaultPath) = e.path)
    (hstat : e.isDataFile = true → fs.Stat e.path = StatResult.found)
    (hgood : ConvergedFile fs s w.remote e) :
    ConvergedFile fs s (deleteKey fs storeClient s key w).2.remote e := by
  intro hdata
  obtain ⟨secret, hs, hc⟩ := hgood hdata
  refine ⟨secret, hs, ?_⟩
  by_cases hk : toVaultKey s.LocalPath e.path s.VaultPath = key
  · have hpath : ToLocalPath s.LocalPath s.VaultPath key = e.path := by
      rw [← hk]; exact hre hdata
    have h1 : FileExists fs e.path = some true := by
      simp [FileExists, hstat hdata]
    have hsame : (deleteKey fs storeClient s key w).2.remote = w.remote := by
      cases h2 : FileExists fs (toMetadataPath e.path) with
      | none => simp [deleteKey, hpath, h1, h2]
      | some b2 =>
        cases b2 with
        | true => simp [deleteKey, hpath, h1, h2]
        | false =>
          have hnone := ReadLocalSecret_no_sidecar fs e.path secret hs h2
          obtain ⟨e0, hg, _, _, _, hmeta⟩ := hc
          rw [hk] at hg
          rw [hnone] at hmeta
          simp [deleteKey, hpath, h1, h2, kvV2ReadMetadata, storeClient,
            Store.KvV2ReadMetadata, hg, hmeta]
    rw [hsame]
    exact hc
  · exact ConvergedAt_congr (deleteKey_store_frame fs s key w hk) hc

theorem walkKeys_store_preserves (P : Store → Prop)
    (recurse : String → World Store → Option (ErrorValue × World Store))
    (hrec : ∀ p w r, recurse p w = some r → P w.remote → P r.2.remote)
    (vaultPath : String) (walkFn : String → World Store → ErrorValue × World Store)
    (hfn : ∀ k w, P w.remote → P (walkFn k w).2.remote) :
    ∀ (keys : List String) (w : World Store) (r : ErrorValue × World Store),
      walkKeys recurse vaultPath walkFn keys w = some r → P w.remote → P r.2.remote := by
  intro keys
  induction keys with
  | nil =>
    intro w r h hp
    simp only [walkKeys, Option.some.injEq] at h
    subst h
    exact hp
  | cons key keys ih =>
    intro w r h hp
    unfold walkKeys at h
    by_cases hdir : HasSuffix key "/" = true
    · simp only [hdir, if_true] at h
      cases hr : recurse (Join [vaultPath, key]) w with
      | none => simp [hr] at h
      | some r1 =>
        have hp1 := hrec _ _ _ hr hp
        simp only [hr] at h
        cases he : r1.1 with
        | error msg =>
          simp only [he, Option.some.injEq] at h
          subst h
          exact hp1
        | nil =>
          simp only [he] at h
          exact ih _ _ h hp1
    · simp only [hdir, Bool.false_eq_true, if_false] at h
      have hp1 := hfn (Join [vaultPath, key]) w hp
      cases he : (walkFn (Join [vaultPath, key]) w).1 with
      | error msg =>
        simp only [he, Option.some.injEq] at h
        subst h
        exact hp1
      | nil =>
        simp only [he] at h
        exact ih _ _ h hp1

theorem WalkKV_store_preserves (P : Store → Prop) (mountPath : String)
    (walkFn : String → World Store → ErrorValue × World Store)
    (hfn : ∀ k w, P w.remote → P (walkFn k w).2.remote) :
    ∀ (fuel : Nat) (vaultPath : String) (w : World Store) (r : ErrorValue × World Store),
      WalkKV storeClient fuel vaultPath mountPath walkFn w = some r → P w.remote →
        P r.2.remote := by
  intro fuel
  induction fuel with
  | zero =>
    intro vaultPath w r h
    simp [WalkKV] at h
  | succ fuel ih =>
    intro vaultPath w r h hp
    unfold WalkKV at h
    have hl : (kvV2List storeClient vaultPath mountPath w).2.remote = w.remote := by
      simp only [kvV2List, storeClient, Store.KvV2List]
      split <;> rfl
    cases hr : (kvV2List storeClient vaultPath mountPath w).1 with
    | ok response =>
      simp only [hr] at h
      exact walkKeys_store_preserves P _ (fun p x r1 h1 hp1 => ih p x r1 h1 hp1) vaultPath walkFn
        hfn response.Keys _ r h (by rw [hl]; exact hp)
    | responseError status =>
      simp only [hr, Option.some.injEq] at h
      subst h
      simpa [hl] using hp
    | otherError =>
      simp only [hr, Option.some.injEq] at h
      subst h
      simpa [hl] using hp

theorem exists_world_of_nil {σ : Type} (o : Option (ErrorValue × World σ))
    (h : o.map (fun r => r.1) = some ErrorValue.nil) : ∃ w1, o = some (ErrorValue.nil, w1) := by
  cases o with
  | none => simp at h
  | some r =>
    obtain ⟨e, w1⟩ := r
    simp only [Option.map_some', Option.some.injEq] at h
    subst h
    exact ⟨w1, rfl⟩

/-- C9 as stated fails: the local file `data/a.json` holds `{}` and the remote key
`un/a` holds `{"(empty)": "x"}`. `MapEqual` takes both payloads for empty, so
the pass succeeds without a data write, and afterwards the remote payload at
`toVaultKey` of the file is still `{"(empty)": "x"}`, which is not deep-equal
to the payload of the file. -/
theorem Sync_payload_not_deep_equal :
    toVaultKey configA.LocalPath "data/a.json" configA.VaultPath = "un/a" ∧
    ReadLocalSecret emptyPayloadFS "data/a.json" = some ⟨emptyMap, none⟩ ∧
    (Sync noFloat emptyPayloadFS storeClient configA 2 (worldA markerPayload none)).map
        (fun r => (r.1, (storeClient.KvV2Read "un/a" "kv" r.2.remote).1)) =
      some (ErrorValue.nil, CallResult.ok ⟨markerPayload, versionMetadata 4⟩) ∧
    DeepEqual markerPayload emptyMap = false := by
  decide

theorem Sync_convergedFile (float64ToInt : String → Option Int) (fs : LocalFS)
    (s : SyncerConfig) (fuel : Nat) (w w1 : World Store)
    (hsync : Sync float64ToInt fs storeClient s fuel w = some (ErrorValue.nil, w1))
    (hround : ∀ e ∈ fs.WalkDir s.LocalPath, e.isDataFile = true →
      ToLocalPath s.LocalPath s.VaultPath (toVaultKey s.LocalPath e.path s.VaultPath) = e.path)
    (hstat : ∀ e ∈ fs.WalkDir s.LocalPath, e.isDataFile = true →
      fs.Stat e.path = StatResult.found) :
    ∀ e ∈ fs.WalkDir s.LocalPath, ConvergedFile fs s w1.remote e := by
  unfold Sync at hsync
  cases hr : (walkLocal (syncFile float64ToInt fs storeClient s) (fs.WalkDir s.LocalPath) w).1
    with
  | error msg => simp [hr] at hsync
  | nil =>
    simp only [hr] at hsync
    have hwrite := walkLocal_converged float64ToInt fs s (fs.WalkDir s.LocalPath) [] w
      (by simpa using hround) (by simp) hr
    cases hk : WalkKV storeClient fuel s.VaultPath s.MountPath (deleteKey fs storeClient s)
        (walkLocal (syncFile float64ToInt fs storeClient s) (fs.WalkDir s.LocalPath) w).2 with
    | none => simp [hk] at hsync
    | some k =>
      simp only [hk] at hsync
      have hw1 : w1 = k.2 := by
        cases hk1 : k.1 with
        | error msg => simp [hk1] at hsync
        | nil =>
          simp only [hk1, Option.some.injEq, Prod.mk.injEq, true_and] at hsync
          exact hsync.symm
      rw [hw1]
      exact WalkKV_store_preserves
        (fun st => ∀ e ∈ fs.WalkDir s.LocalPath, ConvergedFile fs s st e) s.MountPath
        (deleteKey fs storeClient s)
        (fun key x hp e he =>
          deleteKey_preserves fs s key e x (hround e he) (hstat e he) (hp e he))
        fuel s.VaultPath _ k hk (by simpa using hwrite)

/-- C9, amended: on the store without concurrent writers, for a local tree on
which the key mapping gives every data file back (`ToLocalPath` of `toVaultKey`
of its path is its path) and whose data files exist where the walk reports
them, after a pass of `Sync` that returns without error every data file of
the local walk can be read, the remote read at `toVaultKey` of the file finds
a payload that is `MapEqual` to the payload of the file, and the remote
metadata read finds a record that is `MetadataEqual` to the local metadata. -/
theorem Sync_converges (float64ToInt : String → Option Int) (fs : LocalFS) (s : SyncerConfig)
    (fuel : Nat) (w w1 : World Store)
    (hsync : Sync float64ToInt fs storeClient s fuel w = some (ErrorValue.nil, w1))
    (hround : ∀ e ∈ fs.WalkDir s.LocalPath, e.isDataFile = true →
      ToLocalPath s.LocalPath s.VaultPath (toVaultKey s.LocalPath e.path s.VaultPath) = e.path)
    (hstat : ∀ e ∈ fs.WalkDir s.LocalPath, e.isDataFile = true →
      fs.Stat e.path = StatResult.found) :
    ∀ e ∈ fs.WalkDir s.LocalPath, e.isDataFile = true →
      ∃ secret response metadataResponse,
        ReadLocalSecret fs e.path = some secret ∧
        (storeClient.KvV2Read (toVaultKey s.LocalPath e.path s.VaultPath) s.MountPath
          w1.remote).1 = CallResult.ok response ∧
        MapEqual response.Data secret.Data = true ∧
        (storeClient.KvV2ReadMetadata (toVaultKey s.LocalPath e.path s.VaultPath) s.MountPath
          w1.remote).1 = CallResult.ok metadataResponse ∧
        MetadataEqual (some metadataResponse) secret.Metadata = some true := by
  have hall := Sync_convergedFile float64ToInt fs s fuel w w1 hsync hround hstat
  intro e he hdata
  obtain ⟨secret, hs, e0, hg, hv, hdel, hmap, hmeta⟩ := hall e he hdata
  refine ⟨secret, ⟨e0.data, versionMetadata e0.currentVersion⟩, e0.metadata, hs, ?_, hmap, ?_,
    hmeta⟩
  · simp [storeClient, Store.KvV2Read, hg, hv, hdel]
  · simp [storeClient, Store.KvV2ReadMetadata, hg]

/-- Witness of C9 (amended): the tree with `data/a.json` (with a sidecar) and
`data/b/c.json`, synced into a store that holds another payload at `un/a` and
the key `un/old`; the pass succeeds. -/
theorem Sync_converges_witness :
    ∃ w1, Sync noFloat twoFilesFS storeClient configA 3 worldOld = some (ErrorValue.nil, w1) ∧
      ∀ e ∈ twoFilesFS.WalkDir configA.LocalPath, e.isDataFile = true →
        ∃ secret response metadataResponse,
          ReadLocalSecret twoFilesFS e.path = some secret ∧
          (storeClient.KvV2Read (toVaultKey configA.LocalPath e.path configA.VaultPath)
            configA.MountPath w1.remote).1 = CallResult.ok response ∧
          MapEqual response.Data secret.Data = true ∧
          (storeClient.KvV2ReadMetadata (toVaultKey configA.LocalPath e.path configA.VaultPath)
            configA.MountPath w1.remote).1 = CallResult.ok metadataResponse ∧
          MetadataEqual (some metadataResponse) secret.Metadata = some true := by
  obtain ⟨w1, h⟩ := exists_world_of_nil
    (Sync noFloat twoFilesFS storeClient configA 3 worldOld) (by decide)
  exact ⟨w1, h, Sync_converges noFloat twoFilesFS configA 3 worldOld w1 h (by decide) (by decide)⟩

/-! ## Idempotence -/

/-- C10 (fails on the code): the local tree is the directory `.` with the one data
file `.env.json`, the remote store starts empty. The first pass succeeds: it
creates the key `un/env` and then deletes it again, because the local path of
that key is `env.json`, which does not exist. The second pass over the
unchanged tree issues the same data write and the same two deletes. -/
theorem Sync_second_pass_writes_and_deletes :
    configDot.LocalPath = "." ∧ configDot.VaultPath = "un" ∧
    hiddenFileFS.WalkDir "." = [⟨".", true, false⟩, ⟨".env.json", false, false⟩] ∧
    (Sync noFloat hiddenFileFS storeClient configDot 2 emptyWorld).map
        (fun r => (r.1, r.2.trace)) =
      some (ErrorValue.nil,
        [RemoteCall.KvV2Read "un/env" "kv",
         RemoteCall.KvV2Write "un/env" ⟨payloadOne, 0⟩ "kv",
         RemoteCall.KvV2ReadMetadata "un/env" "kv",
         RemoteCall.KvV2List "un" "kv",
         RemoteCall.KvV2Delete "un/env" "kv",
         RemoteCall.KvV2DeleteMetadataAndAllVersions "un/env" "kv"]) ∧
    (Sync noFloat hiddenFileFS storeClient configDot 2 emptyWorld).bind
        (fun r1 => (Sync noFloat hiddenFileFS storeClient configDot 2 r1.2).map
          (fun r2 => (r2.1, issued r1.2 r2.2))) =
      some (ErrorValue.nil,
        [RemoteCall.KvV2Read "un/env" "kv",
         RemoteCall.KvV2Write "un/env" ⟨payloadOne, 0⟩ "kv",
         RemoteCall.KvV2ReadMetadata "un/env" "kv",
         RemoteCall.KvV2List "un" "kv",
         RemoteCall.KvV2Delete "un/env" "kv",
         RemoteCall.KvV2DeleteMetadataAndAllVersions "un/env" "kv"]) := by
  decide

/-! ## Empty-equivalence -/

/-- C17 as stated fails: the one-entry map `{"(empty)": "x"}` is neither nil, nor
empty, nor the sentinel map, and `IsEmptyMap` is true for it, because only the
key of the entry is looked at. -/
theorem IsEmptyMap_marker_value :
    IsEmptyMap markerPayload = true ∧ markerPayload ≠ none ∧ markerPayload ≠ emptyMap ∧
      markerPayload ≠ sentinelMap := by
  decide

/-- C17, amended: `IsEmptyMap(m)` is true if and only if `m` is nil, has no entries,
or has exactly one entry and the key of that entry is `(empty)`, whatever its
value; so the sentinel map is empty-equivalent and every map with another
single key or with two or more entries is not. -/
theorem IsEmptyMap_iff (m : GoMap) :
    IsEmptyMap m = true ↔
      m = none ∨ m = emptyMap ∨
        ∃ (v : GoValue) (h : ([("(empty)", v)].map Prod.fst).Nodup),
          m = some ⟨[("(empty)", v)], h⟩ := by
  cases m with
  | none => simp [IsEmptyMap, GoMap.len]
  | some o =>
    obtain ⟨entries, hn⟩ := o
    cases entries with
    | nil => simp [IsEmptyMap, GoMap.len, emptyMap]
    | cons kv rest =>
      obtain ⟨k, v⟩ := kv
      cases rest with
      | nil =>
        by_cases hk : k = "(empty)"
        · subst hk
          simp [IsEmptyMap, GoMap.len, GoMap.get, List.lookup, emptyMap]
        · have hb : ("(empty)" == k) = false := by
            simpa using fun h : "(empty)" = k => hk h.symm
          simp [IsEmptyMap, GoMap.len, GoMap.get, List.lookup, emptyMap, hb, hk]
      | cons kv2 rest2 =>
        simp [IsEmptyMap, GoMap.len, emptyMap]

/-! ## Clearing remote custom metadata -/

/-- C16 (fails on the code): the remote key `un/a` has the custom metadata
`{"team": "x"}` and the local sidecar has no custom metadata (its map is absent,
so empty-equivalent). The metadata phase finds the records unequal and writes
the local record as it is: the write carries the absent map, not the sentinel
map. The same happens for a sidecar whose map is `{}`. -/
theorem trySetMetadata_sidecar_without_sentinel :
    IsEmptyMap teamMetadata = false ∧ pairBare.Metadata = some bareRequest ∧
    IsEmptyMap bareRequest.CustomMetadata = true ∧ IsEmptyMap emptyMap = true ∧
    (issued (worldA payloadOne teamMetadata)
        (trySetMetadata storeClient pairBare (worldA payloadOne teamMetadata)).2).filter
          RemoteCall.isMetadataWrite =
      [RemoteCall.KvV2WriteMetadata "un/a"
        { CasRequired := false, CustomMetadata := none, DeleteVersionAfter := "0s",
          MaxVersions := 0 } "kv"] ∧
    (issued (worldA payloadOne teamMetadata)
        (trySetMetadata storeClient
          { pairBare with Metadata := some { bareRequest with CustomMetadata := emptyMap } }
          (worldA payloadOne teamMetadata)).2).filter RemoteCall.isMetadataWrite =
      [RemoteCall.KvV2WriteMetadata "un/a"
        { CasRequired := false, CustomMetadata := emptyMap, DeleteVersionAfter := "0s",
          MaxVersions := 0 } "kv"] ∧
    (none : GoMap) ≠ sentinelMap ∧ emptyMap ≠ sentinelMap := by
  decide

/-- C15 as stated fails: the remote record of `un/a` has the custom metadata
`{"team": "x"}` and `max_versions` 2147483648, and the local metadata is unset.
The clearing write of the metadata phase carries `max_versions` -2147483648,
the value of `int32(2147483648)`, not the value just read. -/
theorem trySetMetadata_clear_truncates :
    (storeClient.KvV2ReadMetadata "un/a" "kv" worldBig.remote).1 =
      CallResult.ok { CasRequired := false, CustomMetadata := teamMetadata,
                      DeleteVersionAfter := "0s", MaxVersions := 2147483648 } ∧
    (issued worldBig (trySetMetadata storeClient pairA worldBig).2).filter
        RemoteCall.isMetadataWrite =
      [RemoteCall.KvV2WriteMetadata "un/a"
        { CasRequired := false, CustomMetadata := sentinelMap, DeleteVersionAfter := "0s",
          MaxVersions := -2147483648 } "kv"] := by
  decide

theorem toInt32_of_range (x : Int) (hlo : -2147483648 ≤ x) (hhi : x < 2147483648) :
    toInt32 x = x := by
  unfold toInt32
  omega

/-- C15, amended: whenever sync clears remote custom metadata because the local
metadata is unset, in the metadata phase of the write side (the record read
is not `MetadataEqual` to the unset local metadata) and in the delete phase
(the file exists, the sidecar does not, and the custom metadata read is not
empty-equivalent), the one metadata write it issues has the `CasRequired` and
`DeleteVersionAfter` of the record just read, exactly the sentinel map as
custom metadata, and `int32(MaxVersions)` as `MaxVersions`, which is the
`MaxVersions` just read whenever that value fits in 32 bits. -/
theorem clear_write_fields {σ : Type} (fs : LocalFS) (c : VaultClient σ) (s : SyncerConfig)
    (pair : VaultPair) (key : String) (w : World σ) (r : KvV2ReadMetadataResponse) :
    (pair.Metadata = none →
      (c.KvV2ReadMetadata pair.Key pair.MountPath w.remote).1 = CallResult.ok r →
      MetadataEqual (some r) none ≠ some true →
      (issued w (trySetMetadata c pair w).2).filter RemoteCall.isMetadataWrite =
        [RemoteCall.KvV2WriteMetadata pair.Key (clearRequest r) pair.MountPath]) ∧
    (FileExists fs (ToLocalPath s.LocalPath s.VaultPath key) = some true →
      FileExists fs (toMetadataPath (ToLocalPath s.LocalPath s.VaultPath key)) = some false →
      (c.KvV2ReadMetadata key s.MountPath w.remote).1 = CallResult.ok r →
      IsEmptyMap r.CustomMetadata = false →
      (issued w (deleteKey fs c s key w).2).filter RemoteCall.isMetadataWrite =
        [RemoteCall.KvV2WriteMetadata key (clearRequest r) s.MountPath]) ∧
    (clearRequest r).CasRequired = r.CasRequired ∧
    (clearRequest r).DeleteVersionAfter = r.DeleteVersionAfter ∧
    (clearRequest r).CustomMetadata = sentinelMap ∧
    (clearRequest r).MaxVersions = toInt32 r.MaxVersions ∧
    (-2147483648 ≤ r.MaxVersions → r.MaxVersions < 2147483648 →
      (clearRequest r).MaxVersions = r.MaxVersions) := by
  refine ⟨fun hm hr hne => ?_, fun h1 h2 hr he => ?_, rfl, rfl, rfl, rfl,
    fun hlo hhi => toInt32_of_range _ hlo hhi⟩
  · simp [trySetMetadata, kvV2ReadMetadata, kvV2WriteMetadata, hr, hm, hne, issued,
      RemoteCall.isMetadataWrite, clearRequest]
  · simp [deleteKey, h1, h2, kvV2ReadMetadata, kvV2WriteMetadata, hr, he, issued,
      MetadataEqual, RemoteCall.isMetadataWrite, clearRequest]

/-- Witness of C15 (amended): the key `un/a` holds the custom metadata `{"team": "x"}`
with `max_versions` 0; the metadata phase with unset local metadata and the
delete phase with `data/a.json` and no sidecar both issue the clearing write. -/
theorem clear_write_fields_witness :
    (issued (worldA payloadOne teamMetadata)
        (trySetMetadata storeClient pairA (worldA payloadOne teamMetadata)).2).filter
          RemoteCall.isMetadataWrite =
      [RemoteCall.KvV2WriteMetadata "un/a"
        (clearRequest { defaultMetadata with CustomMetadata := teamMetadata }) "kv"] ∧
    (issued (worldA payloadOne teamMetadata)
        (deleteKey (treeFS "data" ["data/a.json"] (fun _ => none) (fun _ => none)) storeClient
          configA "un/a" (worldA payloadOne teamMetadata)).2).filter
          RemoteCall.isMetadataWrite =
      [RemoteCall.KvV2WriteMetadata "un/a"
        (clearRequest { defaultMetadata with CustomMetadata := teamMetadata }) "kv"] ∧
    (clearRequest { defaultMetadata with CustomMetadata := teamMetadata }).MaxVersions = 0 :=
  ⟨(clear_write_fields (treeFS "data" ["data/a.json"] (fun _ => none) (fun _ => none))
      storeClient configA pairA "un/a" (worldA payloadOne teamMetadata)
      { defaultMetadata with CustomMetadata := teamMetadata }).1 (by decide) (by decide)
      (by decide),
   (clear_write_fields (treeFS "data" ["data/a.json"] (fun _ => none) (fun _ => none))
      storeClient configA pairA "un/a" (worldA payloadOne teamMetadata)
      { defaultMetadata with CustomMetadata := teamMetadata }).2.1 (by decide) (by decide)
      (by decide) (by decide),
   (clear_write_fields (treeFS "data" ["data/a.json"] (fun _ => none) (fun _ => none))
      storeClient configA pairA "un/a" (worldA payloadOne teamMetadata)
      { defaultMetadata with CustomMetadata := teamMetadata }).2.2.2.2.2.2 (by decide)
      (by decide)⟩

/-! ## Data paths and sidecar paths -/

theorem HasSuffix_append (s suf : String) : HasSuffix (s ++ suf) suf = true := by
  simp [HasSuffix, String.data_append, List.reverse_append]

theorem TrimSuffix_append (s suf : String) : TrimSuffix (s ++ suf) suf = s := by
  simp [TrimSuffix, HasSuffix_append, String.data_append]

theorem HasSuffix_append_append (s a b : String) :
    HasSuffix (s ++ b) (a ++ b) = HasSuffix s a := by
  simp only [HasSuffix, String.data_append, List.reverse_append]
  induction b.data.reverse with
  | nil => simp
  | cons c cs ih => simpa [List.isPrefixOf] using ih

theorem ToLocalPath_eq (r n k : String) :
    ToLocalPath r n k = Join [r, TrimPrefix k n] ++ ".json" := rfl

theorem toMetadataPath_ToLocalPath (r n k : String) :
    toMetadataPath (ToLocalPath r n k) = Join [r, TrimPrefix k n] ++ ".meta.json" := by
  simp [toMetadataPath, ToLocalPath_eq, TrimSuffix_append]

theorem String.append_right_cancel {a b c : String} (h : a ++ c = b ++ c) : a = b := by
  have hd : a.data ++ c.data = b.data ++ c.data := by
    have := congrArg String.data h
    simpa [String.data_append] using this
  exact String.ext (List.append_cancel_right hd)

/-- C14 as stated fails: with the root `data` and the prefix `un`, the local path of
the remote key `un/a.meta` is `data/a.meta.json`, which is the sidecar path of
the remote key `un/a`; it ends in `.meta.json`, so the local walk of `Sync`
does not take it for a data file. -/
theorem ToLocalPath_meta_key_collides :
    Join ["un", "a.meta"] = "un/a.meta" ∧ Join ["un", "a"] = "un/a" ∧
    ToLocalPath "data" "un" "un/a.meta" = "data/a.meta.json" ∧
    toMetadataPath (ToLocalPath "data" "un" "un/a") = "data/a.meta.json" ∧
    ToLocalPath "data" "un" "un/a.meta" = toMetadataPath (ToLocalPath "data" "un" "un/a") ∧
    HasSuffix (ToLocalPath "data" "un" "un/a.meta") ".meta.json" = true ∧
    (⟨ToLocalPath "data" "un" "un/a.meta", false, false⟩ : WalkEntry).isDataFile = false := by
  decide

/-- C14, amended: for every root, prefix and remote key whose local stem
`path.Join(r, TrimPrefix(k, n))` does not end in `.meta`, the local path of the
key ends in `.json` and not in `.meta.json`, the write phase takes a file at
that path for a data file, and the path is not the sidecar path of any remote
key. -/
theorem ToLocalPath_not_sidecar (r n k : String)
    (hstem : HasSuffix (Join [r, TrimPrefix k n]) ".meta" = false) :
    HasSuffix (ToLocalPath r n k) ".json" = true ∧
    HasSuffix (ToLocalPath r n k) ".meta.json" = false ∧
    (⟨ToLocalPath r n k, false, false⟩ : WalkEntry).isDataFile = true ∧
    ∀ k2, ToLocalPath r n k ≠ toMetadataPath (ToLocalPath r n k2) := by
  have h1 : HasSuffix (ToLocalPath r n k) ".json" = true := by
    rw [ToLocalPath_eq]; exact HasSuffix_append _ _
  have h2 : HasSuffix (ToLocalPath r n k) ".meta.json" = false := by
    rw [ToLocalPath_eq]
    have : (".meta.json" : String) = ".meta" ++ ".json" := by decide
    rw [this, HasSuffix_append_append]
    exact hstem
  refine ⟨h1, h2, by simp [WalkEntry.isDataFile, h1, h2], fun k2 heq => ?_⟩
  rw [toMetadataPath_ToLocalPath, ToLocalPath_eq] at heq
  have hsplit : Join [r, TrimPrefix k2 n] ++ ".meta.json" =
      (Join [r, TrimPrefix k2 n] ++ ".meta") ++ ".json" := by
    have : (".meta.json" : String) = ".meta" ++ ".json" := by decide
    rw [this, String.append_assoc]
  rw [hsplit] at heq
  have hstem2 := String.append_right_cancel heq
  rw [hstem2, HasSuffix_append] at hstem
  cases hstem

/-- Witness of C14 (amended): the remote key `un/a` under the root `data`. -/
theorem ToLocalPath_not_sidecar_witness :
    HasSuffix (ToLocalPath "data" "un" "un/a") ".json" = true ∧
    HasSuffix (ToLocalPath "data" "un" "un/a") ".meta.json" = false ∧
    (⟨ToLocalPath "data" "un" "un/a", false, false⟩ : WalkEntry).isDataFile = true ∧
    ∀ k2, ToLocalPath "data" "un" "un/a" ≠ toMetadataPath (ToLocalPath "data" "un" k2) :=
  ToLocalPath_not_sidecar "data" "un" "un/a" (by decide)

/-! ## Failure of the write phase -/

theorem WritePhaseOnly.refl {σ : Type} (w : World σ) : WritePhaseOnly w w :=
  ⟨[], by simp, by simp⟩

theorem WritePhaseOnly.trans {σ : Type} {w w1 w2 : World σ} (h1 : WritePhaseOnly w w1)
    (h2 : WritePhaseOnly w1 w2) : WritePhaseOnly w w2 := by
  obtain ⟨cs1, ht1, hp1⟩ := h1
  obtain ⟨cs2, ht2, hp2⟩ := h2
  refine ⟨cs1 ++ cs2, by rw [ht2, ht1, List.append_assoc], ?_⟩
  intro call hc
  rcases List.mem_append.mp hc with h | h
  · exact hp1 call h
  · exact hp2 call h

theorem WritePhaseOnly.issued {σ : Type} {w w1 : World σ} (h : WritePhaseOnly w w1) :
    ∀ call ∈ issued w w1, call.isDelete = false ∧ call.isList = false := by
  obtain ⟨cs, ht, hp⟩ := h
  intro call hc
  simp only [VaultSync.issued, ht, List.drop_left] at hc
  exact hp call hc

theorem trySetData_writePhaseOnly {σ : Type} (float64ToInt : String → Option Int)
    (c : VaultClient σ) (pair : VaultPair) (w : World σ) :
    WritePhaseOnly w (trySetData float64ToInt c pair w).2 := by
  cases hr : (c.KvV2Read pair.Key pair.MountPath w.remote).1 with
  | otherError =>
    exact ⟨[RemoteCall.KvV2Read pair.Key pair.MountPath], by simp [trySetData, trySetMetadata, hr, kvV2Read],
      by simp [RemoteCall.isDelete, RemoteCall.isList]⟩
  | responseError status =>
    by_cases h404 : status = 404
    · exact ⟨[RemoteCall.KvV2Read pair.Key pair.MountPath,
          RemoteCall.KvV2Write pair.Key ⟨pair.Data, 0⟩ pair.MountPath],
        by simp [trySetData, trySetMetadata, hr, h404, kvV2Read, kvV2Write], by simp [RemoteCall.isDelete, RemoteCall.isList]⟩
    · exact ⟨[RemoteCall.KvV2Read pair.Key pair.MountPath], by simp [trySetData, trySetMetadata, hr, h404, kvV2Read],
        by simp [RemoteCall.isDelete, RemoteCall.isList]⟩
  | ok response =>
    by_cases hm : MapEqual response.Data pair.Data = true
    · exact ⟨[RemoteCall.KvV2Read pair.Key pair.MountPath], by simp [trySetData, trySetMetadata, hr, hm, kvV2Read],
        by simp [RemoteCall.isDelete, RemoteCall.isList]⟩
    · cases hv : getVersion float64ToInt response.Metadata with
      | none =>
        exact ⟨[RemoteCall.KvV2Read pair.Key pair.MountPath], by simp [trySetData, trySetMetadata, hr, hm, hv, kvV2Read],
          by simp [RemoteCall.isDelete, RemoteCall.isList]⟩
      | some version =>
        exact ⟨[RemoteCall.KvV2Read pair.Key pair.MountPath,
            RemoteCall.KvV2Write pair.Key ⟨pair.Data, version⟩ pair.MountPath],
          by simp [trySetData, trySetMetadata, hr, hm, hv, kvV2Read, kvV2Write],
          by simp [RemoteCall.isDelete, RemoteCall.isList]⟩

theorem trySetMetadata_writePhaseOnly {σ : Type} (c : VaultClient σ) (pair : VaultPair)
    (w : World σ) : WritePhaseOnly w (trySetMetadata c pair w).2 := by
  cases hr : (c.KvV2ReadMetadata pair.Key pair.MountPath w.remote).1 with
  | otherError =>
    exact ⟨[RemoteCall.KvV2ReadMetadata pair.Key pair.MountPath],
      by simp [trySetMetadata, hr, kvV2ReadMetadata],
      by simp [RemoteCall.isDelete, RemoteCall.isList]⟩
  | responseError status =>
    by_cases h404 : status = 404
    · cases hm : pair.Metadata with
      | none =>
        exact ⟨[RemoteCall.KvV2ReadMetadata pair.Key pair.MountPath],
          by simp [trySetMetadata, hr, hm, h404, kvV2ReadMetadata],
          by simp [RemoteCall.isDelete, RemoteCall.isList]⟩
      | some m =>
        exact ⟨[RemoteCall.KvV2ReadMetadata pair.Key pair.MountPath,
            RemoteCall.KvV2WriteMetadata pair.Key m pair.MountPath],
          by simp [trySetMetadata, hr, hm, h404, kvV2ReadMetadata, kvV2WriteMetadata],
          by simp [RemoteCall.isDelete, RemoteCall.isList]⟩
    · exact ⟨[RemoteCall.KvV2ReadMetadata pair.Key pair.MountPath],
        by simp [trySetMetadata, hr, h404, kvV2ReadMetadata],
        by simp [RemoteCall.isDelete, RemoteCall.isList]⟩
  | ok response =>
    by_cases heq : MetadataEqual (some response) pair.Metadata = some true
    · exact ⟨[RemoteCall.KvV2ReadMetadata pair.Key pair.MountPath],
        by simp [trySetMetadata, hr, heq, kvV2ReadMetadata],
        by simp [RemoteCall.isDelete, RemoteCall.isList]⟩
    · cases hm : pair.Metadata with
      | none =>
        rw [hm] at heq
        exact ⟨[RemoteCall.KvV2ReadMetadata pair.Key pair.MountPath,
            RemoteCall.KvV2WriteMetadata pair.Key (clearRequest response) pair.MountPath],
          by simp [trySetMetadata, hr, hm, heq, kvV2ReadMetadata, kvV2WriteMetadata,
            clearRequest],
          by simp [RemoteCall.isDelete, RemoteCall.isList]⟩
      | some m =>
        rw [hm] at heq
        exact ⟨[RemoteCall.KvV2ReadMetadata pair.Key pair.MountPath,
            RemoteCall.KvV2WriteMetadata pair.Key m pair.MountPath],
          by simp [trySetMetadata, hr, hm, heq, kvV2ReadMetadata, kvV2WriteMetadata],
          by simp [RemoteCall.isDelete, RemoteCall.isList]⟩

theorem trySetKV_writePhaseOnly {σ : Type} (float64ToInt : String → Option Int)
    (c : VaultClient σ) (pair : VaultPair) (w : World σ) :
    WritePhaseOnly w (trySetKV float64ToInt c pair w).2 := by
  have hd := trySetData_writePhaseOnly float64ToInt c pair w
  have hm := trySetMetadata_writePhaseOnly c pair (trySetData float64ToInt c pair w).2
  unfold trySetKV
  cases h1 : (trySetData float64ToInt c pair w).1 with
  | error msg => simpa [h1] using hd
  | nil =>
    cases h2 : (trySetMetadata c pair (trySetData float64ToInt c pair w).2).1 <;>
      simpa [h1, h2] using hd.trans hm

theorem setKVLoop_writePhaseOnly {σ : Type} (float64ToInt : String → Option Int)
    (c : VaultClient σ) (pair : VaultPair) (n : Nat) (w : World σ) :
    WritePhaseOnly w (setKVLoop float64ToInt c pair n w).2 := by
  induction n generalizing w with
  | zero => exact WritePhaseOnly.refl w
  | succ n ih =>
    have ht := trySetKV_writePhaseOnly float64ToInt c pair w
    cases h1 : (trySetKV float64ToInt c pair w).1 with
    | nil => simpa [setKVLoop, h1] using ht
    | error msg =>
      simp only [setKVLoop, h1]
      exact ht.trans (ih _)

theorem syncFile_writePhaseOnly {σ : Type} (float64ToInt : String → Option Int) (fs : LocalFS)
    (c : VaultClient σ) (s : SyncerConfig) (entry : WalkEntry) (w : World σ) :
    WritePhaseOnly w (syncFile float64ToInt fs c s entry w).2 := by
  unfold syncFile
  split
  · exact WritePhaseOnly.refl w
  · split
    · exact WritePhaseOnly.refl w
    · split
      · exact WritePhaseOnly.refl w
      · split
        · exact WritePhaseOnly.refl w
        · split
          · exact WritePhaseOnly.refl w
          · rename_i secret _
            have hk := setKVLoop_writePhaseOnly float64ToInt c
              { MountPath := s.MountPath, Key := toVaultKey s.LocalPath entry.path s.VaultPath,
                Data := secret.Data, Metadata := secret.Metadata } s.CasTry.toNat w
            simp only [setKV]
            split <;> exact hk

theorem walkLocal_writePhaseOnly {σ : Type} (float64ToInt : String → Option Int)
    (fs : LocalFS) (c : VaultClient σ) (s : SyncerConfig) (entries : List WalkEntry)
    (w : World σ) :
    WritePhaseOnly w (walkLocal (syncFile float64ToInt fs c s) entries w).2 := by
  induction entries generalizing w with
  | nil => exact WritePhaseOnly.refl w
  | cons entry rest ih =>
    have h1 := syncFile_writePhaseOnly float64ToInt fs c s entry w
    cases hr : (syncFile float64ToInt fs c s entry w).1 with
    | error msg => simpa [walkLocal, hr] using h1
    | nil =>
      simp only [walkLocal, hr]
      exact h1.trans (ih _)

theorem walkLocal_append_fail {σ : Type} (fn : WalkEntry → World σ → ErrorValue × World σ)
    (pre post : List WalkEntry) (e : WalkEntry) (w : World σ)
    (hpre : (walkLocal fn pre w).1 = ErrorValue.nil)
    (hfail : (fn e (walkLocal fn pre w).2).1 ≠ ErrorValue.nil) :
    (walkLocal fn (pre ++ e :: post) w).1 ≠ ErrorValue.nil ∧
      (walkLocal fn (pre ++ e :: post) w).2 = (fn e (walkLocal fn pre w).2).2 := by
  induction pre generalizing w with
  | nil =>
    simp only [walkLocal, List.nil_append] at hfail ⊢
    cases hr : (fn e w).1 with
    | nil => exact absurd hr hfail
    | error msg => simp
  | cons x rest ih =>
    cases hx : (fn x w).1 with
    | error msg => simp [walkLocal, hx] at hpre
    | nil =>
      simp only [walkLocal, hx, List.cons_append] at hpre hfail ⊢
      exact ih _ hpre hfail

theorem syncFile_fails {σ : Type} (float64ToInt : String → Option Int) (fs : LocalFS)
    (c : VaultClient σ) (s : SyncerConfig) (e : WalkEntry) (w0 : World σ)
    (hdata : e.isDataFile = true)
    (hfail : ReadLocalSecret fs e.path = none ∨
      ∃ secret, ReadLocalSecret fs e.path = some secret ∧
        (setKV float64ToInt c
          { MountPath := s.MountPath, Key := toVaultKey s.LocalPath e.path s.VaultPath,
            Data := secret.Data, Metadata := secret.Metadata } s.CasTry w0).1 ≠
          ErrorValue.nil) :
    (syncFile float64ToInt fs c s e w0).1 ≠ ErrorValue.nil := by
  simp only [WalkEntry.isDataFile, Bool.and_eq_true, Bool.not_eq_true'] at hdata
  obtain ⟨⟨⟨he, hd⟩, hj⟩, hm⟩ := hdata
  unfold syncFile
  simp only [he, hd, hj, hm, Bool.false_eq_true, if_false, Bool.not_true]
  rcases hfail with hnone | ⟨secret, hs, hset⟩
  · simp [hnone]
  · simp only [hs]
    cases hr : (setKV float64ToInt c
        { MountPath := s.MountPath, Key := toVaultKey s.LocalPath e.path s.VaultPath,
          Data := secret.Data, Metadata := secret.Metadata } s.CasTry w0).1 with
    | nil => exact absurd hr hset
    | error msg => simp

/-- C18: if the write phase fails at a data file of the local walk (every entry
before it was processed without error, and either `ReadLocalSecret` cannot
read its JSON or its sidecar, or `setKV` returns an error for it), then `Sync`
returns an error, whatever the bound on the remote walk; the run ends in the
world in which the callback of that file ended, so no later file is processed
and the delete phase is not run; none of the calls issued in the pass is a
delete or a listing. -/
theorem Sync_write_phase_failure {σ : Type} (float64ToInt : String → Option Int)
    (fs : LocalFS) (c : VaultClient σ) (s : SyncerConfig) (fuel : Nat) (w : World σ)
    (pre post : List WalkEntry) (e : WalkEntry)
    (hwalk : fs.WalkDir s.LocalPath = pre ++ e :: post)
    (hpre : (walkLocal (syncFile float64ToInt fs c s) pre w).1 = ErrorValue.nil)
    (hdata : e.isDataFile = true)
    (hfail : ReadLocalSecret fs e.path = none ∨
      ∃ secret, ReadLocalSecret fs e.path = some secret ∧
        (setKV float64ToInt c
          { MountPath := s.MountPath, Key := toVaultKey s.LocalPath e.path s.VaultPath,
            Data := secret.Data, Metadata := secret.Metadata } s.CasTry
          (walkLocal (syncFile float64ToInt fs c s) pre w).2).1 ≠ ErrorValue.nil) :
    Sync float64ToInt fs c s fuel w =
      some (ErrorValue.error "failed to walk local file",
        (syncFile float64ToInt fs c s e (walkLocal (syncFile float64ToInt fs c s) pre w).2).2) ∧
    ∀ call ∈ issued w
        (syncFile float64ToInt fs c s e (walkLocal (syncFile float64ToInt fs c s) pre w).2).2,
      call.isDelete = false ∧ call.isList = false := by
  have hcb := syncFile_fails float64ToInt fs c s e
    (walkLocal (syncFile float64ToInt fs c s) pre w).2 hdata hfail
  obtain ⟨hne, hw⟩ := walkLocal_append_fail (syncFile float64ToInt fs c s) pre post e w hpre hcb
  refine ⟨?_, ?_⟩
  · unfold Sync
    rw [hwalk]
    cases hr : (walkLocal (syncFile float64ToInt fs c s) (pre ++ e :: post) w).1 with
    | nil => exact absurd hr hne
    | error msg => simp only [hr, hw]
  · exact ((walkLocal_writePhaseOnly float64ToInt fs c s pre w).trans
      (syncFile_writePhaseOnly float64ToInt fs c s e _)).issued

/-- Witness of C18: the tree with `data/a.json` and `data/b/c.json`, synced into a
store in which the current version of `un/a` has been deleted: every attempt
of `setKV` for `data/a.json` is refused, the pass fails there, and nothing is
issued for `data/b/c.json` or for the remote key `un/old`. -/
theorem Sync_write_phase_failure_witness :
    Sync noFloat twoFilesFS storeClient configA 3 worldDeleted =
      some (ErrorValue.error "failed to walk local file",
        (syncFile noFloat twoFilesFS storeClient configA ⟨"data/a.json", false, false⟩
          (walkLocal (syncFile noFloat twoFilesFS storeClient configA) [⟨"data", true, false⟩]
            worldDeleted).2).2) ∧
    ∀ call ∈ issued worldDeleted
        (syncFile noFloat twoFilesFS storeClient configA ⟨"data/a.json", false, false⟩
          (walkLocal (syncFile noFloat twoFilesFS storeClient configA) [⟨"data", true, false⟩]
            worldDeleted).2).2,
      call.isDelete = false ∧ call.isList = false :=
  Sync_write_phase_failure noFloat twoFilesFS storeClient configA 3 worldDeleted
    [⟨"data", true, false⟩] [⟨"data/a.meta.json", false, false⟩, ⟨"data/b/c.json", false, false⟩]
    ⟨"data/a.json", false, false⟩ (by decide) (by decide) (by decide)
    (Or.inr ⟨⟨payloadOne, some teamRequest⟩, by decide, by decide⟩)

/-! ## Remote walk over a finite namespace -/

theorem runSteps_append {σ : Type} (c : VaultClient σ) (mount : String)
    (walkFn : String → World σ → ErrorValue × World σ) (xs ys : List WalkStep) (w : World σ) :
    runSteps c mount walkFn (xs ++ ys) w =
      runSteps c mount walkFn ys (runSteps c mount walkFn xs w) := by
  simp [runSteps, List.foldl_append]

theorem walkKeys_tree {σ : Type} (inv : σ → Prop) (c : VaultClient σ) (mount : String)
    (walkFn : String → World σ → ErrorValue × World σ)
    (hfn : ∀ k x, inv x.remote →
      (walkFn k x).1 = ErrorValue.nil ∧ inv (walkFn k x).2.remote) :
    ∀ (t : NsTree) (path : String) (fuel : Nat) (w : World σ),
      servesBelow inv c mount t path → t.wellFormed = true → t.depth ≤ fuel → inv w.remote →
      walkKeys (fun p x => WalkKV c fuel p mount walkFn x) path walkFn t.names w =
          some (ErrorValue.nil, runSteps c mount walkFn (t.entrySteps path) w) ∧
        inv (runSteps c mount walkFn (t.entrySteps path) w).remote := by
  intro t
  induction t with
  | nil =>
    intro path fuel w _ _ _ hinv
    exact ⟨rfl, hinv⟩
  | leaf name rest ih =>
    intro path fuel w hs hwf hd hinv
    simp only [NsTree.wellFormed, Bool.and_eq_true, Bool.not_eq_true'] at hwf
    obtain ⟨hv, hi⟩ := hfn (Join [path, name]) w hinv
    obtain ⟨hrun, hinv2⟩ := ih path fuel (walkFn (Join [path, name]) w).2 hs hwf.2 hd hi
    simp only [NsTree.names, NsTree.entrySteps, walkKeys, hwf.1, Bool.false_eq_true, if_false, hv]
    exact ⟨hrun, hinv2⟩
  | sub name children rest ihc ihr =>
    intro path fuel w hs hwf hd hinv
    simp only [NsTree.wellFormed, Bool.and_eq_true] at hwf
    obtain ⟨⟨hname, hwfc⟩, hwfr⟩ := hwf
    obtain ⟨hlist, hsc, hsr⟩ := hs
    simp only [NsTree.depth] at hd
    obtain ⟨fuel1, rfl⟩ : ∃ fuel1, fuel = fuel1 + 1 := ⟨fuel - 1, by omega⟩
    obtain ⟨hl1, hl2⟩ := hlist w.remote hinv
    have hw1 : inv (kvV2List c (Join [path, name]) mount w).2.remote := hl2
    obtain ⟨hrunc, hinvc⟩ := ihc (Join [path, name]) fuel1
      (kvV2List c (Join [path, name]) mount w).2 hsc hwfc (by omega) hw1
    have hrec : WalkKV c (fuel1 + 1) (Join [path, name]) mount walkFn w =
        some (ErrorValue.nil,
          runSteps c mount walkFn
            (WalkStep.list (Join [path, name]) :: children.entrySteps (Join [path, name])) w) := by
      have hk : (kvV2List c (Join [path, name]) mount w).1 = CallResult.ok ⟨children.names⟩ := hl1
      simp only [WalkKV, hk]
      rw [hrunc]
      rfl
    obtain ⟨hrunr, hinvr⟩ := ihr path (fuel1 + 1)
      (runSteps c mount walkFn
        (WalkStep.list (Join [path, name]) :: children.entrySteps (Join [path, name])) w)
      hsr hwfr (by omega) hinvc
    simp only [NsTree.names, NsTree.entrySteps, walkKeys, hname, if_true, hrec, runSteps_append]
    exact ⟨hrunr, hinvr⟩

theorem WalkKV_tree {σ : Type} (inv : σ → Prop) (c : VaultClient σ) (mount : String)
    (walkFn : String → World σ → ErrorValue × World σ)
    (hfn : ∀ k x, inv x.remote →
      (walkFn k x).1 = ErrorValue.nil ∧ inv (walkFn k x).2.remote)
    (t : NsTree) (path : String) (fuel : Nat) (w : World σ)
    (hs : ServesOn inv c mount t path) (hwf : t.wellFormed = true) (hd : t.depth < fuel)
    (hinv : inv w.remote) :
    WalkKV c fuel path mount walkFn w =
        some (ErrorValue.nil, runSteps c mount walkFn (t.walkSteps path) w) ∧
      inv (runSteps c mount walkFn (t.walkSteps path) w).remote := by
  obtain ⟨fuel1, rfl⟩ : ∃ fuel1, fuel = fuel1 + 1 := ⟨fuel - 1, by omega⟩
  obtain ⟨hl1, hl2⟩ := hs.1 w.remote hinv
  have hk : (kvV2List c path mount w).1 = CallResult.ok ⟨t.names⟩ := hl1
  obtain ⟨hrun, hinv2⟩ := walkKeys_tree inv c mount walkFn hfn t path fuel1
    (kvV2List c path mount w).2 hs.2 hwf (by omega) hl2
  simp only [WalkKV, hk]
  rw [hrun]
  exact ⟨rfl, hinv2⟩

theorem visitedKeys_entrySteps (t : NsTree) (path : String) :
    visitedKeys (t.entrySteps path) = t.leafKeys path := by
  induction t generalizing path with
  | nil => rfl
  | leaf name rest ih =>
    simp only [NsTree.entrySteps, NsTree.leafKeys, visitedKeys, List.filterMap_cons]
    exact congrArg _ (ih path)
  | sub name children rest ihc ihr =>
    have h1 := ihc (Join [path, name])
    have h2 := ihr path
    simp only [visitedKeys] at h1 h2
    simp only [NsTree.entrySteps, NsTree.leafKeys, visitedKeys, List.filterMap_append,
      List.cons_append, List.filterMap_cons, h1, h2]

/-- C11: for every finite remote namespace tree that the client lists at `path`
(every listing succeeds and returns the names of the tree) and every visitor
that never returns an error, `WalkKV` returns without error as soon as the
bound on its recursion exceeds the depth of the tree; the run is the run of
the steps of the tree, one listing for the prefix and for each sub-namespace
entry and one call of the visitor for each leaf entry, and the keys the visitor
is called with are, call by call, the leaf keys of the tree: the prefix joined
with the entry names on the way to the leaf. -/
theorem WalkKV_visits_leaves {σ : Type} (c : VaultClient σ) (mount : String)
    (walkFn : String → World σ → ErrorValue × World σ) (t : NsTree) (path : String)
    (w : World σ) (hs : Serves c mount t path) (hwf : t.wellFormed = true)
    (hfn : ∀ k x, (walkFn k x).1 = ErrorValue.nil) :
    (∀ fuel, t.depth < fuel →
      WalkKV c fuel path mount walkFn w =
        some (ErrorValue.nil, runSteps c mount walkFn (t.walkSteps path) w)) ∧
    visitedKeys (t.walkSteps path) = t.leafKeys path := by
  refine ⟨fun fuel hd => ?_, ?_⟩
  · exact (WalkKV_tree (fun _ => True) c mount walkFn (fun k x _ => ⟨hfn k x, trivial⟩) t path
      fuel w hs hwf hd trivial).1
  · simp only [NsTree.walkSteps, visitedKeys, List.filterMap_cons]
    exact visitedKeys_entrySteps t path

theorem smallTree_served : Serves (listingClient smallListing) "kv" smallTree "un" := by
  refine ⟨fun st _ => ⟨?_, trivial⟩, fun st _ => ⟨?_, trivial⟩, trivial, trivial⟩
  · cases st; decide
  · cases st; decide

/-- Witness of C11: the namespace with the leaf `a` and the sub-namespace `b/`
holding the leaf `c`, walked from the prefix `un` with a visitor that reads
the key it is given: the visitor is called with `un/a` and `un/b/c`. -/
theorem WalkKV_visits_leaves_witness :
    (∀ fuel, smallTree.depth < fuel →
      WalkKV (listingClient smallListing) fuel "un" "kv"
          (readVisitor (listingClient smallListing) "kv") ⟨(), []⟩ =
        some (ErrorValue.nil,
          runSteps (listingClient smallListing) "kv"
            (readVisitor (listingClient smallListing) "kv") (smallTree.walkSteps "un")
            ⟨(), []⟩)) ∧
    visitedKeys (smallTree.walkSteps "un") = smallTree.leafKeys "un" ∧
    smallTree.leafKeys "un" = ["un/a", "un/b/c"] ∧
    (runSteps (listingClient smallListing) "kv" (readVisitor (listingClient smallListing) "kv")
        (smallTree.walkSteps "un") ⟨(), []⟩).trace =
      [RemoteCall.KvV2List "un" "kv", RemoteCall.KvV2Read "un/a" "kv",
       RemoteCall.KvV2List "un/b" "kv", RemoteCall.KvV2Read "un/b/c" "kv"] :=
  ⟨(WalkKV_visits_leaves (listingClient smallListing) "kv"
      (readVisitor (listingClient smallListing) "kv") smallTree "un" ⟨(), []⟩
      smallTree_served (by decide) (fun _ _ => rfl)).1,
   (WalkKV_visits_leaves (listingClient smallListing) "kv"
      (readVisitor (listingClient smallListing) "kv") smallTree "un" ⟨(), []⟩
      smallTree_served (by decide) (fun _ _ => rfl)).2,
   by decide, by decide⟩

/-! ## Fetch -/

/-- C12 as stated fails: the remote record of `un/a` has the custom metadata
`{"team": "x"}` and `max_versions` 2147483648. `Fetch` writes one sidecar, at
`out/a.meta.json`, and its `max_versions` is -2147483648, the value of
`int32(2147483648)`, not the value of the remote record. -/
theorem fetchKey_sidecar_truncates :
    toMetadataPath (ToLocalPath configFetch.LocalPath configFetch.VaultPath "un/a") =
      "out/a.meta.json" ∧
    (storeClient.KvV2ReadMetadata "un/a" "kv" worldBig.remote).1 =
      CallResult.ok { CasRequired := false, CustomMetadata := teamMetadata,
                      DeleteVersionAfter := "0s", MaxVersions := 2147483648 } ∧
    (fetchKey memDisk storeClient configFetch "un/a" (fetchStart worldBig.remote)).1 =
      ErrorValue.nil ∧
    (fetchKey memDisk storeClient configFetch "un/a"
        (fetchStart worldBig.remote)).2.remote.disk.get "out/a.meta.json" =
      some (FileContent.metadata
        { CasRequired := false, CustomMetadata := teamMetadata, DeleteVersionAfter := "0s",
          MaxVersions := -2147483648 }) := by
  decide

/-- C12, amended: in the callback of `Fetch` for a remote key, when the data part
has succeeded and the metadata read returns the record `r`: if the custom
metadata of `r` is empty-equivalent, no local file operation follows, so no
sidecar is created or written; otherwise the sidecar is created at
`toMetadataPath(ToLocalPath(root, prefix, key))` and, when that succeeds,
exactly one record is written to it, with the `CasRequired`,
`DeleteVersionAfter` and custom metadata of `r` and with `int32(MaxVersions)`
as `MaxVersions`, which is the `MaxVersions` of `r` whenever that value fits in
32 bits. -/
theorem fetchKey_sidecar {σ φ : Type} (disk : LocalDisk φ) (c : VaultClient σ)
    (f : SyncerConfig) (key : String) (w : World (FetchState σ φ))
    (r : KvV2ReadMetadataResponse)
    (hdata : (fetchData disk c f key w).1 = ErrorValue.nil)
    (hr : (c.KvV2ReadMetadata key f.MountPath (fetchData disk c f key w).2.remote.store).1 =
      CallResult.ok r) :
    (IsEmptyMap r.CustomMetadata = true →
      issuedLocal (fetchData disk c f key w).2 (fetchKey disk c f key w).2 = []) ∧
    (IsEmptyMap r.CustomMetadata = false →
      issuedLocal (fetchData disk c f key w).2 (fetchKey disk c f key w).2 =
        LocalCall.Create (toMetadataPath (ToLocalPath f.LocalPath f.VaultPath key)) ::
          (if (disk.Create (toMetadataPath (ToLocalPath f.LocalPath f.VaultPath key))
                (fetchData disk c f key w).2.remote.disk).1 then
            [LocalCall.EncodeMetadata (toMetadataPath (ToLocalPath f.LocalPath f.VaultPath key))
              (sidecarRequest r)]
           else [])) ∧
    (sidecarRequest r).CasRequired = r.CasRequired ∧
    (sidecarRequest r).DeleteVersionAfter = r.DeleteVersionAfter ∧
    (sidecarRequest r).CustomMetadata = r.CustomMetadata ∧
    (sidecarRequest r).MaxVersions = toInt32 r.MaxVersions ∧
    (-2147483648 ≤ r.MaxVersions → r.MaxVersions < 2147483648 →
      (sidecarRequest r).MaxVersions = r.MaxVersions) := by
  have hkey : fetchKey disk c f key w = fetchMetadata disk c f key (fetchData disk c f key w).2 := by
    simp [fetchKey, hdata]
  refine ⟨fun he => ?_, fun he => ?_, rfl, rfl, rfl, rfl,
    fun hlo hhi => toInt32_of_range _ hlo hhi⟩
  · rw [hkey]
    simp [fetchMetadata, kvV2ReadMetadata, liftClient, hr, he, issuedLocal]
  · rw [hkey]
    cases hc : (disk.Create (toMetadataPath (ToLocalPath f.LocalPath f.VaultPath key))
        (fetchData disk c f key w).2.remote.disk).1 with
    | false =>
      simp [fetchMetadata, kvV2ReadMetadata, liftClient, hr, he, issuedLocal, createFile, hc]
    | true =>
      cases hen : (disk.EncodeMetadata
          (toMetadataPath (ToLocalPath f.LocalPath f.VaultPath key)) (sidecarRequest r)
          (disk.Create (toMetadataPath (ToLocalPath f.LocalPath f.VaultPath key))
            (fetchData disk c f key w).2.remote.disk).2).1 <;>
        simp [sidecarRequest] at hen <;>
        simp [fetchMetadata, kvV2ReadMetadata, liftClient, hr, he, issuedLocal, createFile,
          encodeMetadata, hc, hen, sidecarRequest]

/-- Witness of C12 (amended): the key `un/a` with the custom metadata `{"team": "x"}`
and `max_versions` 0, fetched to an empty disk: the sidecar `out/a.meta.json`
is created and one record is written to it. -/
theorem fetchKey_sidecar_witness :
    issuedLocal
        (fetchData memDisk storeClient configFetch "un/a"
          (fetchStart (worldA payloadOne teamMetadata).remote)).2
        (fetchKey memDisk storeClient configFetch "un/a"
          (fetchStart (worldA payloadOne teamMetadata).remote)).2 =
      [LocalCall.Create "out/a.meta.json",
       LocalCall.EncodeMetadata "out/a.meta.json"
         (sidecarRequest { defaultMetadata with CustomMetadata := teamMetadata })] ∧
    (sidecarRequest { defaultMetadata with CustomMetadata := teamMetadata }).MaxVersions = 0 :=
  ⟨(fetchKey_sidecar memDisk storeClient configFetch "un/a"
      (fetchStart (worldA payloadOne teamMetadata).remote)
      { defaultMetadata with CustomMetadata := teamMetadata } (by decide) (by decide)).2.1
      (by decide),
   (fetchKey_sidecar memDisk storeClient configFetch "un/a"
      (fetchStart (worldA payloadOne teamMetadata).remote)
      { defaultMetadata with CustomMetadata := teamMetadata } (by decide)
      (by decide)).2.2.2.2.2.2 (by decide) (by decide)⟩

/-! ## Round trip: what a pass of `Sync` from the empty store leaves in the store -/

theorem trySetData_store_at (float64ToInt : String → Option Int) (pair : VaultPair)
    (w : World Store) :
    (trySetData float64ToInt storeClient pair w).2.remote.get pair.Key =
        w.remote.get pair.Key ∨
      ∃ en, (trySetData float64ToInt storeClient pair w).2.remote.get pair.Key = some en ∧
        en.data = pair.Data := by
  cases hg : w.remote.get pair.Key with
  | none =>
    right
    simp [trySetData, kvV2Read, kvV2Write, storeClient, Store.KvV2Read, Store.KvV2Write, hg,
      Store.get_put_self]
  | some e =>
    by_cases hv : 0 < e.currentVersion ∧ e.deleted = false
    · by_cases hm : MapEqual e.data pair.Data = true
      · left
        simp [trySetData, kvV2Read, kvV2Write, storeClient, Store.KvV2Read, Store.KvV2Write, hg,
          hv, hm]
      · right
        simp [trySetData, kvV2Read, kvV2Write, storeClient, Store.KvV2Read, Store.KvV2Write, hg,
          hv, hm, getVersion_versionMetadata, Store.get_put_self]
    · by_cases h0 : (0 : Int) = e.currentVersion
      · right
        simp [trySetData, kvV2Read, kvV2Write, storeClient, Store.KvV2Read, Store.KvV2Write, hg,
          hv, h0, Store.get_put_self]
      · left
        simp [trySetData, kvV2Read, kvV2Write, storeClient, Store.KvV2Read, Store.KvV2Write, hg,
          hv, h0]

theorem trySetData_store_local (float64ToInt : String → Option Int) (fs : LocalFS)
    (s : SyncerConfig) (pair : VaultPair) (w : World Store)
    (hinv : AllFromLocal fs s w.remote) (hpair : FromLocal fs s pair.Key pair.Data) :
    AllFromLocal fs s (trySetData float64ToInt storeClient pair w).2.remote := by
  intro key en hg hv
  by_cases hk : key = pair.Key
  · subst hk
    rcases trySetData_store_at float64ToInt pair w with h | ⟨en1, h1, h2⟩
    · rw [h] at hg
      exact hinv _ en hg hv
    · rw [h1] at hg
      cases hg
      rw [h2]
      exact hpair
  · rw [trySetData_store_frame float64ToInt pair w hk] at hg
    exact hinv key en hg hv

theorem trySetMetadata_store_absent (pair : VaultPair) (w : World Store)
    (hg : w.remote.get pair.Key = none) :
    ∀ en, (trySetMetadata storeClient pair w).2.remote.get pair.Key = some en →
      en.currentVersion = 0 := by
  intro en
  cases hm : pair.Metadata with
  | none =>
    simp [trySetMetadata, kvV2ReadMetadata, kvV2WriteMetadata, storeClient,
      Store.KvV2ReadMetadata, Store.KvV2WriteMetadata, hg, hm]
  | some m =>
    simp only [trySetMetadata, kvV2ReadMetadata, kvV2WriteMetadata, storeClient,
      Store.KvV2ReadMetadata, Store.KvV2WriteMetadata, hg, hm, if_true, Store.get_put_self,
      Option.some.injEq]
    intro h
    rw [← h]

theorem trySetMetadata_store_local (fs : LocalFS) (s : SyncerConfig) (pair : VaultPair)
    (w : World Store) (hinv : AllFromLocal fs s w.remote) :
    AllFromLocal fs s (trySetMetadata storeClient pair w).2.remote := by
  intro key en hg hv
  by_cases hk : key = pair.Key
  · subst hk
    cases h0 : w.remote.get pair.Key with
    | none =>
      have := trySetMetadata_store_absent pair w h0 en hg
      omega
    | some e =>
      obtain ⟨e1, hg1, hd, hver, _, _⟩ := trySetMetadata_store_keep pair w e h0
      rw [hg1] at hg
      cases hg
      rw [hd]
      exact hinv _ e h0 (by rw [← hver]; exact hv)
  · rw [trySetMetadata_store_frame pair w hk] at hg
    exact hinv key en hg hv

theorem trySetKV_store_local (float64ToInt : String → Option Int) (fs : LocalFS)
    (s : SyncerConfig) (pair : VaultPair) (w : World Store)
    (hinv : AllFromLocal fs s w.remote) (hpair : FromLocal fs s pair.Key pair.Data) :
    AllFromLocal fs s (trySetKV float64ToInt storeClient pair w).2.remote := by
  have hd := trySetData_store_local float64ToInt fs s pair w hinv hpair
  have hm := trySetMetadata_store_local fs s pair (trySetData float64ToInt storeClient pair w).2 hd
  unfold trySetKV
  cases h1 : (trySetData float64ToInt storeClient pair w).1 with
  | error msg => simpa [h1] using hd
  | nil =>
    cases h2 : (trySetMetadata storeClient pair
        (trySetData float64ToInt storeClient pair w).2).1 <;>
      simpa [h1, h2] using hm

theorem setKVLoop_store_local (float64ToInt : String → Option Int) (fs : LocalFS)
    (s : SyncerConfig) (pair : VaultPair) (n : Nat) (w : World Store)
    (hinv : AllFromLocal fs s w.remote) (hpair : FromLocal fs s pair.Key pair.Data) :
    AllFromLocal fs s (setKVLoop float64ToInt storeClient pair n w).2.remote := by
  induction n generalizing w with
  | zero => exact hinv
  | succ n ih =>
    have ht := trySetKV_store_local float64ToInt fs s pair w hinv hpair
    cases h1 : (trySetKV float64ToInt storeClient pair w).1 with
    | nil => simpa [setKVLoop, h1] using ht
    | error msg =>
      simp only [setKVLoop, h1]
      exact ih _ ht

theorem syncFile_store_local (float64ToInt : String → Option Int) (fs : LocalFS)
    (s : SyncerConfig) (entry : WalkEntry) (w : World Store)
    (hmem : entry ∈ fs.WalkDir s.LocalPath) (hinv : AllFromLocal fs s w.remote) :
    AllFromLocal fs s (syncFile float64ToInt fs storeClient s entry w).2.remote := by
  cases hdata : entry.isDataFile with
  | false =>
    rw [syncFile_store_same float64ToInt fs s entry w hdata]
    exact hinv
  | true =>
    have hdata2 := hdata
    simp only [WalkEntry.isDataFile, Bool.and_eq_true, Bool.not_eq_true'] at hdata2
    obtain ⟨⟨⟨he, hd⟩, hj⟩, hm⟩ := hdata2
    unfold syncFile
    simp only [he, hd, hj, hm, Bool.false_eq_true, if_false, Bool.not_true]
    cases hs : ReadLocalSecret fs entry.path with
    | none => exact hinv
    | some secret =>
      have hk := setKVLoop_store_local float64ToInt fs s
        { MountPath := s.MountPath, Key := toVaultKey s.LocalPath entry.path s.VaultPath,
          Data := secret.Data, Metadata := secret.Metadata } s.CasTry.toNat w hinv
        ⟨entry, hmem, hdata, rfl, secret, hs, rfl⟩
      simp only [setKV]
      split <;> exact hk

theorem walkLocal_store_local (float64ToInt : String → Option Int) (fs : LocalFS)
    (s : SyncerConfig) (entries : List WalkEntry) (w : World Store)
    (hmem : ∀ e ∈ entries, e ∈ fs.WalkDir s.LocalPath) (hinv : AllFromLocal fs s w.remote) :
    AllFromLocal fs s
      (walkLocal (syncFile float64ToInt fs storeClient s) entries w).2.remote := by
  induction entries generalizing w with
  | nil => exact hinv
  | cons entry rest ih =>
    have h1 := syncFile_store_local float64ToInt fs s entry w
      (hmem entry (List.mem_cons_self _ _)) hinv
    cases hr : (syncFile float64ToInt fs storeClient s entry w).1 with
    | error msg => simpa [walkLocal, hr] using h1
    | nil =>
      simp only [walkLocal, hr]
      exact ih _ (fun e he => hmem e (List.mem_cons_of_mem _ he)) h1

theorem Store.get_erase_self (st : Store) (key : String) : (Store.erase st key).get key = none := by
  induction st with
  | nil => rfl
  | cons ke rest ih =>
    obtain ⟨k0, e0⟩ := ke
    by_cases hk : k0 = key
    · have : Store.erase ((k0, e0) :: rest) key = Store.erase rest key := by
        simp [Store.erase, hk]
      rw [this]; exact ih
    · have : Store.erase ((k0, e0) :: rest) key = (k0, e0) :: Store.erase rest key := by
        simp [Store.erase, hk]
      rw [this]
      simp only [Store.get, hk, if_false]
      exact ih

theorem deleteKey_store_at (fs : LocalFS) (s : SyncerConfig) (key : String) (w : World Store)
    (en1 : RemoteEntry)
    (hg : (deleteKey fs storeClient s key w).2.remote.get key = some en1) :
    ∃ en, w.remote.get key = some en ∧ en1.data = en.data ∧
      en1.currentVersion = en.currentVersion := by
  revert hg
  cases h1 : FileExists fs (ToLocalPath s.LocalPath s.VaultPath key) with
  | none =>
    simp only [deleteKey, h1]
    intro hg
    exact ⟨en1, hg, rfl, rfl⟩
  | some b1 =>
    cases h2 : FileExists fs (toMetadataPath (ToLocalPath s.LocalPath s.VaultPath key)) with
    | none =>
      simp only [deleteKey, h1, h2]
      intro hg
      exact ⟨en1, hg, rfl, rfl⟩
    | some b2 =>
      cases hg0 : w.remote.get key with
      | none =>
        cases b1 <;> cases b2 <;>
          simp [deleteKey, h1, h2, kvV2ReadMetadata, kvV2WriteMetadata, kvV2Delete,
            kvV2DeleteMetadataAndAllVersions, storeClient, Store.KvV2ReadMetadata,
            Store.KvV2WriteMetadata, Store.KvV2Delete, Store.KvV2DeleteMetadataAndAllVersions,
            hg0, Store.get_erase_self]
      | some e0 =>
        cases b1 with
        | false =>
          simp [deleteKey, h1, h2, kvV2Delete, kvV2DeleteMetadataAndAllVersions, storeClient,
            Store.KvV2Delete, Store.KvV2DeleteMetadataAndAllVersions, hg0, Store.get_erase_self]
        | true =>
          cases b2 with
          | true =>
            have hsame : (deleteKey fs storeClient s key w).2.remote = w.remote := by
              simp [deleteKey, h1, h2]
            rw [hsame]
            intro hg
            rw [hg0] at hg
            cases hg
            exact ⟨_, rfl, rfl, rfl⟩
          | false =>
            by_cases heq : MetadataEqual (some e0.metadata) none = some true
            · have hsame : (deleteKey fs storeClient s key w).2.remote = w.remote := by
                simp [deleteKey, h1, h2, kvV2ReadMetadata, storeClient, Store.KvV2ReadMetadata,
                  hg0, heq]
              rw [hsame]
              intro hg
              rw [hg0] at hg
              cases hg
              exact ⟨_, rfl, rfl, rfl⟩
            · have hput : (deleteKey fs storeClient s key w).2.remote.get key =
                  some { e0 with metadata := storedMetadata (clearRequest e0.metadata) } := by
                simp [deleteKey, h1, h2, kvV2ReadMetadata, kvV2WriteMetadata, storeClient,
                  Store.KvV2ReadMetadata, Store.KvV2WriteMetadata, hg0, heq, Store.get_put_self,
                  clearRequest]
              rw [hput]
              intro hg
              cases hg
              exact ⟨e0, rfl, rfl, rfl⟩

theorem deleteKey_store_local (fs : LocalFS) (s : SyncerConfig) (key : String)
    (w : World Store) (hinv : AllFromLocal fs s w.remote) :
    AllFromLocal fs s (deleteKey fs storeClient s key w).2.remote := by
  intro k en hg hv
  by_cases hk : k = key
  · subst hk
    obtain ⟨en0, hg0, hd, hver⟩ := deleteKey_store_at fs s k w en hg
    rw [hd]
    exact hinv k en0 hg0 (by rw [← hver]; exact hv)
  · rw [deleteKey_store_frame fs s key w hk] at hg
    exact hinv k en hg hv

theorem Sync_store_local (float64ToInt : String → Option Int) (fs : LocalFS)
    (s : SyncerConfig) (fuel : Nat) (w w1 : World Store) (e : ErrorValue)
    (hsync : Sync float64ToInt fs storeClient s fuel w = some (e, w1))
    (hinv : AllFromLocal fs s w.remote) : AllFromLocal fs s w1.remote := by
  have hwrite := walkLocal_store_local float64ToInt fs s (fs.WalkDir s.LocalPath) w
    (fun _ h => h) hinv
  unfold Sync at hsync
  cases hr : (walkLocal (syncFile float64ToInt fs storeClient s) (fs.WalkDir s.LocalPath) w).1
    with
  | error msg =>
    simp only [hr, Option.some.injEq, Prod.mk.injEq] at hsync
    rw [← hsync.2]
    exact hwrite
  | nil =>
    simp only [hr] at hsync
    cases hk : WalkKV storeClient fuel s.VaultPath s.MountPath (deleteKey fs storeClient s)
        (walkLocal (syncFile float64ToInt fs storeClient s) (fs.WalkDir s.LocalPath) w).2 with
    | none => simp [hk] at hsync
    | some k =>
      have hdel := WalkKV_store_preserves (AllFromLocal fs s) s.MountPath
        (deleteKey fs storeClient s)
        (fun key x hp => deleteKey_store_local fs s key x hp) fuel s.VaultPath _ k hk hwrite
      simp only [hk] at hsync
      cases hk1 : k.1 with
      | error msg =>
        simp only [hk1, Option.some.injEq, Prod.mk.injEq] at hsync
        rw [← hsync.2]; exact hdel
      | nil =>
        simp only [hk1, Option.some.injEq, Prod.mk.injEq] at hsync
        rw [← hsync.2]; exact hdel

/-! ## Round trip: a walk whose visits succeed -/

theorem walkKeys_tree_run {σ : Type} (inv : σ → Prop) (c : VaultClient σ) (mount : String)
    (walkFn : String → World σ → ErrorValue × World σ) (G : List String → World σ → Prop)
    (K : String → Prop)
    (hGinv : ∀ ks x, G ks x → inv x.remote)
    (hlist : ∀ ks p x, G ks x → G ks (kvV2List c p mount x).2)
    (hvisit : ∀ ks k x, G ks x → K k →
      (walkFn k x).1 = ErrorValue.nil ∧ G (ks ++ [k]) (walkFn k x).2) :
    ∀ (t : NsTree) (path : String) (fuel : Nat) (ks : List String) (w : World σ),
      servesBelow inv c mount t path → t.wellFormed = true → t.depth ≤ fuel →
      (∀ k ∈ t.leafKeys path, K k) → G ks w →
      ∃ r, walkKeys (fun p x => WalkKV c fuel p mount walkFn x) path walkFn t.names w = some r ∧
        r.1 = ErrorValue.nil ∧ G (ks ++ t.leafKeys path) r.2 := by
  intro t
  induction t with
  | nil =>
    intro path fuel ks w _ _ _ _ hG
    exact ⟨(ErrorValue.nil, w), rfl, rfl, by simpa [NsTree.leafKeys] using hG⟩
  | leaf name rest ih =>
    intro path fuel ks w hs hwf hd hK hG
    simp only [NsTree.wellFormed, Bool.and_eq_true, Bool.not_eq_true'] at hwf
    obtain ⟨hv, hG1⟩ := hvisit ks (Join [path, name]) w hG (hK _ (by simp [NsTree.leafKeys]))
    obtain ⟨r, hrun, hnil, hGr⟩ := ih path fuel (ks ++ [Join [path, name]])
      (walkFn (Join [path, name]) w).2 hs hwf.2 hd
      (fun k hk => hK k (by simp [NsTree.leafKeys, hk])) hG1
    refine ⟨r, ?_, hnil, by simpa [NsTree.leafKeys, List.append_assoc] using hGr⟩
    simp only [NsTree.names, walkKeys, hwf.1, Bool.false_eq_true, if_false, hv]
    exact hrun
  | sub name children rest ihc ihr =>
    intro path fuel ks w hs hwf hd hK hG
    simp only [NsTree.wellFormed, Bool.and_eq_true] at hwf
    obtain ⟨⟨hname, hwfc⟩, hwfr⟩ := hwf
    obtain ⟨hl, hsc, hsr⟩ := hs
    simp only [NsTree.depth] at hd
    obtain ⟨fuel1, rfl⟩ : ∃ fuel1, fuel = fuel1 + 1 := ⟨fuel - 1, by omega⟩
    have hk : (kvV2List c (Join [path, name]) mount w).1 = CallResult.ok ⟨children.names⟩ :=
      (hl w.remote (hGinv ks w hG)).1
    obtain ⟨r1, hrun1, hnil1, hG1⟩ := ihc (Join [path, name]) fuel1 ks
      (kvV2List c (Join [path, name]) mount w).2 hsc hwfc (by omega)
      (fun k hk => hK k (by simp [NsTree.leafKeys, hk])) (hlist ks _ w hG)
    have hrec : WalkKV c (fuel1 + 1) (Join [path, name]) mount walkFn w = some r1 := by
      simp only [WalkKV, hk]
      exact hrun1
    obtain ⟨r, hrun, hnil, hGr⟩ := ihr path (fuel1 + 1)
      (ks ++ children.leafKeys (Join [path, name])) r1.2 hsr hwfr (by omega)
      (fun k hk => hK k (by simp [NsTree.leafKeys, hk])) hG1
    refine ⟨r, ?_, hnil, by simpa [NsTree.leafKeys, List.append_assoc] using hGr⟩
    simp only [NsTree.names, walkKeys, hname, if_true, hrec, hnil1]
    exact hrun

theorem WalkKV_tree_run {σ : Type} (inv : σ → Prop) (c : VaultClient σ) (mount : String)
    (walkFn : String → World σ → ErrorValue × World σ) (G : List String → World σ → Prop)
    (K : String → Prop)
    (hGinv : ∀ ks x, G ks x → inv x.remote)
    (hlist : ∀ ks p x, G ks x → G ks (kvV2List c p mount x).2)
    (hvisit : ∀ ks k x, G ks x → K k →
      (walkFn k x).1 = ErrorValue.nil ∧ G (ks ++ [k]) (walkFn k x).2)
    (t : NsTree) (path : String) (fuel : Nat) (w : World σ)
    (hs : ServesOn inv c mount t path) (hwf : t.wellFormed = true) (hd : t.depth < fuel)
    (hK : ∀ k ∈ t.leafKeys path, K k) (hG : G [] w) :
    ∃ r, WalkKV c fuel path mount walkFn w = some r ∧ r.1 = ErrorValue.nil ∧
      G (t.leafKeys path) r.2 := by
  obtain ⟨fuel1, rfl⟩ : ∃ fuel1, fuel = fuel1 + 1 := ⟨fuel - 1, by omega⟩
  have hk : (kvV2List c path mount w).1 = CallResult.ok ⟨t.names⟩ :=
    (hs.1 w.remote (hGinv [] w hG)).1
  obtain ⟨r, hrun, hnil, hGr⟩ := walkKeys_tree_run inv c mount walkFn G K hGinv hlist hvisit
    t path fuel1 [] (kvV2List c path mount w).2 hs.2 hwf (by omega) hK (hlist [] _ w hG)
  refine ⟨r, ?_, hnil, by simpa using hGr⟩
  simp only [WalkKV, hk]
  exact hrun

/-! ## Round trip: what `Fetch` writes -/

theorem Disk.file_put_self (dk : Disk) (path : String) (x : FileContent) :
    (Disk.put dk path x).get path = some x := by
  simp [Disk.put, Disk.get]

theorem Disk.get_filter_ne (dk : Disk) {q path : String} (h : q ≠ path) :
    Disk.get (dk.filter (fun px => px.1 ≠ path)) q = dk.get q := by
  induction dk with
  | nil => rfl
  | cons px rest ih =>
    obtain ⟨p0, x0⟩ := px
    by_cases hp : p0 = path
    · have hne : p0 ≠ q := fun h0 => h (h0 ▸ hp)
      have : List.filter (fun px : String × FileContent => px.1 ≠ path) ((p0, x0) :: rest) =
          List.filter (fun px : String × FileContent => px.1 ≠ path) rest := by
        simp [hp]
      rw [this, ih]
      simp [Disk.get, hne]
    · have : List.filter (fun px : String × FileContent => px.1 ≠ path) ((p0, x0) :: rest) =
          (p0, x0) :: List.filter (fun px : String × FileContent => px.1 ≠ path) rest := by
        simp [hp]
      rw [this]
      simp only [Disk.get]
      rw [ih]

theorem Disk.file_put_ne (dk : Disk) {q path : String} (x : FileContent) (h : q ≠ path) :
    (Disk.put dk path x).get q = dk.get q := by
  have hne : path ≠ q := fun h0 => h h0.symm
  simp only [Disk.put, Disk.get, hne, if_false]
  exact Disk.get_filter_ne dk h

theorem ToLocalPath_ne_toMetadataPath (r n k : String) :
    ToLocalPath r n k ≠ toMetadataPath (ToLocalPath r n k) := by
  rw [toMetadataPath_ToLocalPath, ToLocalPath_eq]
  intro h
  have hd := congrArg String.data h
  simp only [String.data_append] at hd
  exact absurd (List.append_cancel_left hd) (by decide)

theorem HasSuffix_toMetadataPath (r n k : String) :
    HasSuffix (toMetadataPath (ToLocalPath r n k)) ".meta.json" = true := by
  rw [toMetadataPath_ToLocalPath]
  exact HasSuffix_append _ _

theorem toMetadataPath_ToLocalPath_inj {r n k k2 : String}
    (h : toMetadataPath (ToLocalPath r n k) = toMetadataPath (ToLocalPath r n k2)) :
    ToLocalPath r n k = ToLocalPath r n k2 := by
  rw [toMetadataPath_ToLocalPath, toMetadataPath_ToLocalPath] at h
  rw [ToLocalPath_eq, ToLocalPath_eq, String.append_right_cancel h]

theorem fetchedDisk_get (f : SyncerConfig) (key : String) (en : RemoteEntry) (dk : Disk)
    (q : String) :
    (fetchedDisk f key en dk).get q =
      if q = ToLocalPath f.LocalPath f.VaultPath key then some (FileContent.data en.data)
      else if q = toMetadataPath (ToLocalPath f.LocalPath f.VaultPath key) then
        (if IsEmptyMap en.metadata.CustomMetadata then dk.get q
         else some (FileContent.metadata (sidecarRequest en.metadata)))
      else dk.get q := by
  have hpm := ToLocalPath_ne_toMetadataPath f.LocalPath f.VaultPath key
  unfold fetchedDisk
  by_cases hq : q = ToLocalPath f.LocalPath f.VaultPath key
  · subst hq
    by_cases he : IsEmptyMap en.metadata.CustomMetadata = true
    · simp [he, Disk.file_put_self]
    · simp [he, Disk.file_put_self, Disk.file_put_ne _ _ hpm]
  · by_cases hm : q = toMetadataPath (ToLocalPath f.LocalPath f.VaultPath key)
    · subst hm
      by_cases he : IsEmptyMap en.metadata.CustomMetadata = true
      · simp [he, hq, Disk.file_put_ne _ _ hq]
      · simp [he, hq, Disk.file_put_self]
    · by_cases he : IsEmptyMap en.metadata.CustomMetadata = true
      · simp [he, hq, hm, Disk.file_put_ne _ _ hq]
      · simp [he, hq, hm, Disk.file_put_ne _ _ hq, Disk.file_put_ne _ _ hm]

theorem fetchKey_store_run (f : SyncerConfig) (key : String)
    (x : World (FetchState Store Disk))
    (hok : (fetchKey memDisk storeClient f key x).1 = ErrorValue.nil) :
    ∃ en, x.remote.store.get key = some en ∧ 0 < en.currentVersion ∧ en.deleted = false ∧
      (fetchKey memDisk storeClient f key x).2.remote.store = x.remote.store ∧
      (fetchKey memDisk storeClient f key x).2.remote.disk =
        fetchedDisk f key en x.remote.disk := by
  revert hok
  cases hg : x.remote.store.get key with
  | none =>
    simp [fetchKey, fetchData, fetchMetadata, mkdirAll, createFile, encodeData, kvV2Read,
      liftClient, memDisk, storeClient, Store.KvV2Read, hg]
  | some en =>
    by_cases hv : 0 < en.currentVersion ∧ en.deleted = false
    · intro _
      refine ⟨en, rfl, hv.1, hv.2, ?_, ?_⟩
      · by_cases he : IsEmptyMap en.metadata.CustomMetadata = true <;>
          simp [fetchKey, fetchData, fetchMetadata, mkdirAll, createFile, encodeData,
            encodeMetadata, kvV2Read, kvV2ReadMetadata, liftClient, memDisk, storeClient,
            Store.KvV2Read, Store.KvV2ReadMetadata, hg, hv, he]
      · by_cases he : IsEmptyMap en.metadata.CustomMetadata = true <;>
          simp [fetchKey, fetchData, fetchMetadata, mkdirAll, createFile, encodeData,
            encodeMetadata, kvV2Read, kvV2ReadMetadata, liftClient, memDisk, storeClient,
            Store.KvV2Read, Store.KvV2ReadMetadata, hg, hv, he, fetchedDisk, sidecarRequest]
    · simp [fetchKey, fetchData, fetchMetadata, mkdirAll, createFile, encodeData, kvV2Read,
        liftClient, memDisk, storeClient, Store.KvV2Read, hg, hv]

theorem fetchKey_store_ok (f : SyncerConfig) (key : String)
    (x : World (FetchState Store Disk)) (en : RemoteEntry)
    (hg : x.remote.store.get key = some en) (hv : 0 < en.currentVersion)
    (hdel : en.deleted = false) :
    (fetchKey memDisk storeClient f key x).1 = ErrorValue.nil := by
  by_cases he : IsEmptyMap en.metadata.CustomMetadata = true <;>
    simp [fetchKey, fetchData, fetchMetadata, mkdirAll, createFile, encodeData,
      encodeMetadata, kvV2Read, kvV2ReadMetadata, liftClient, memDisk, storeClient,
      Store.KvV2Read, Store.KvV2ReadMetadata, hg, hv, hdel, he]

theorem fetchKey_inv (fs : LocalFS) (s f : SyncerConfig) (st : Store)
    (hall : AllFromLocal fs s st)
    (hinj : ∀ k k2 d d2, FromLocal fs s k d → FromLocal fs s k2 d2 →
      ToLocalPath f.LocalPath f.VaultPath k = ToLocalPath f.LocalPath f.VaultPath k2 → k = k2)
    (hnm : ∀ k d, FromLocal fs s k d →
      HasSuffix (ToLocalPath f.LocalPath f.VaultPath k) ".meta.json" = false)
    (ks : List String) (k : String) (x : World (FetchState Store Disk))
    (hG : FetchInv fs s f st ks x)
    (hok : (fetchKey memDisk storeClient f k x).1 = ErrorValue.nil) :
    FetchInv fs s f st (ks ++ [k]) (fetchKey memDisk storeClient f k x).2 := by
  obtain ⟨hst, hks, hfiles⟩ := hG
  obtain ⟨en, hg, hv, hdel, hstore, hdisk⟩ := fetchKey_store_run f k x hok
  rw [hst] at hg
  have hlk : FromLocal fs s k en.data := hall k en hg hv
  have hPM : ∀ a b da, FromLocal fs s a da →
      ToLocalPath f.LocalPath f.VaultPath a ≠
        toMetadataPath (ToLocalPath f.LocalPath f.VaultPath b) := by
    intro a b da ha heq
    have h1 := hnm a da ha
    rw [heq, HasSuffix_toMetadataPath] at h1
    cases h1
  have hMM : ∀ a b da db, FromLocal fs s a da → FromLocal fs s b db →
      toMetadataPath (ToLocalPath f.LocalPath f.VaultPath a) =
        toMetadataPath (ToLocalPath f.LocalPath f.VaultPath b) → a = b :=
    fun a b da db ha hb heq => hinj a b da db ha hb (toMetadataPath_ToLocalPath_inj heq)
  have hMk : IsEmptyMap en.metadata.CustomMetadata = true →
      x.remote.disk.get (toMetadataPath (ToLocalPath f.LocalPath f.VaultPath k)) = none := by
    intro he
    cases hc : x.remote.disk.get (toMetadataPath (ToLocalPath f.LocalPath f.VaultPath k)) with
    | none => rfl
    | some content =>
      obtain ⟨k2, hk2, hp⟩ := hfiles _ content hc
      obtain ⟨⟨d2, hl2⟩, en2, hg2, _, _, _, hM2⟩ := hks k2 hk2
      rcases hp with hp | hp
      · exact absurd hp.symm (hPM k2 k d2 hl2)
      · have hkk : k = k2 := hMM k k2 _ d2 hlk hl2 hp
        subst hkk
        rw [hg] at hg2
        cases hg2
        rw [hc, he] at hM2
        simp at hM2
  refine ⟨by rw [hstore, hst], ?_, ?_⟩
  · intro k0 hk0
    rcases List.mem_append.mp hk0 with h0 | h0
    · obtain ⟨⟨d0, hl0⟩, en0, hg0, hv0, hdel0, hP0, hM0⟩ := hks k0 h0
      refine ⟨⟨d0, hl0⟩, en0, hg0, hv0, hdel0, ?_, ?_⟩
      · rw [hdisk, fetchedDisk_get]
        by_cases h1 : ToLocalPath f.LocalPath f.VaultPath k0 =
            ToLocalPath f.LocalPath f.VaultPath k
        · have hkk : k0 = k := hinj k0 k d0 _ hl0 hlk h1
          subst hkk
          rw [hg] at hg0
          cases hg0
          simp
        · have h2 := hPM k0 k d0 hl0
          simp [h1, h2, hP0]
      · rw [hdisk, fetchedDisk_get]
        have h1 : toMetadataPath (ToLocalPath f.LocalPath f.VaultPath k0) ≠
            ToLocalPath f.LocalPath f.VaultPath k := fun h => hPM k k0 _ hlk h.symm
        by_cases h2 : toMetadataPath (ToLocalPath f.LocalPath f.VaultPath k0) =
            toMetadataPath (ToLocalPath f.LocalPath f.VaultPath k)
        · have hkk : k0 = k := hMM k0 k d0 _ hl0 hlk h2
          subst hkk
          rw [hg] at hg0
          cases hg0
          by_cases he : IsEmptyMap en.metadata.CustomMetadata = true
          · simp [h1, he, hMk he]
          · simp [h1, he]
        · simp [h1, h2, hM0]
    · have hkk : k0 = k := by simpa using h0
      subst hkk
      refine ⟨⟨_, hlk⟩, en, hg, hv, hdel, ?_, ?_⟩
      · rw [hdisk, fetchedDisk_get]
        simp
      · rw [hdisk, fetchedDisk_get]
        have h1 : toMetadataPath (ToLocalPath f.LocalPath f.VaultPath k0) ≠
            ToLocalPath f.LocalPath f.VaultPath k0 :=
          fun h => ToLocalPath_ne_toMetadataPath _ _ _ h.symm
        by_cases he : IsEmptyMap en.metadata.CustomMetadata = true
        · simp [h1, he, hMk he]
        · simp [h1, he]
  · intro path content hc
    rw [hdisk, fetchedDisk_get] at hc
    by_cases h1 : path = ToLocalPath f.LocalPath f.VaultPath k
    · exact ⟨k, by simp, Or.inl h1⟩
    · by_cases h2 : path = toMetadataPath (ToLocalPath f.LocalPath f.VaultPath k)
      · exact ⟨k, by simp, Or.inr h2⟩
      · simp only [h1, h2, if_false] at hc
        obtain ⟨k2, hk2, hp⟩ := hfiles path content hc
        exact ⟨k2, List.mem_append_left _ hk2, hp⟩

theorem kvV2List_fetch_inv (fs : LocalFS) (s f : SyncerConfig) (st : Store)
    (ks : List String) (p mount : String) (x : World (FetchState Store Disk))
    (hG : FetchInv fs s f st ks x) :
    FetchInv fs s f st ks (kvV2List (liftClient storeClient) p mount x).2 := by
  obtain ⟨hst, hks, hfiles⟩ := hG
  have hsame : (kvV2List (liftClient storeClient) p mount x).2.remote = x.remote := by
    simp only [kvV2List, liftClient, storeClient, Store.KvV2List]
    split <;> rfl
  exact ⟨by rw [hsame]; exact hst, by rw [hsame]; exact hks, by rw [hsame]; exact hfiles⟩

theorem IsEmptyMap_of_DeepEqual {a b : GoMap} (h : DeepEqual a b = true) :
    IsEmptyMap a = IsEmptyMap b := by
  cases a with
  | none =>
    cases b with
    | none => rfl
    | some y => simp [DeepEqual] at h
  | some x =>
    cases b with
    | none => simp [DeepEqual] at h
    | some y =>
      obtain ⟨xs, hx⟩ := x
      obtain ⟨ys, hy⟩ := y
      simp only [DeepEqual, Bool.and_eq_true, beq_iff_eq, List.all_eq_true] at h
      obtain ⟨hlen, hall⟩ := h
      cases xs with
      | nil =>
        cases ys with
        | nil => rfl
        | cons _ _ => simp at hlen
      | cons kv xs1 =>
        cases ys with
        | nil => simp at hlen
        | cons kv2 ys1 =>
          cases xs1 with
          | nil =>
            cases ys1 with
            | nil =>
              obtain ⟨k, v⟩ := kv
              obtain ⟨k2, v2⟩ := kv2
              have h1 := hall (k, v) (by simp)
              have hk : k = k2 := by
                by_cases hkk : k = k2
                · exact hkk
                · have hb : (k == k2) = false := by simpa using hkk
                  simp [List.lookup, hb] at h1
              subst hk
              cases hb : ("(empty)" == k) <;>
                simp [IsEmptyMap, GoMap.len, GoMap.get, List.lookup, hb]
            | cons _ _ => simp at hlen
          | cons _ _ =>
            cases ys1 with
            | nil => simp at hlen
            | cons _ _ => simp [IsEmptyMap, GoMap.len]

theorem MetadataEqual_both {a : KvV2ReadMetadataResponse} {b : KvV2WriteMetadataRequest}
    (h : MetadataEqual (some a) (some b) = some true) :
    a.CasRequired = b.CasRequired ∧ a.DeleteVersionAfter = b.DeleteVersionAfter ∧
      a.MaxVersions = b.MaxVersions ∧ MapEqual a.CustomMetadata b.CustomMetadata = true := by
  by_cases h1 : a.CasRequired = b.CasRequired
  · by_cases h2 : a.DeleteVersionAfter = b.DeleteVersionAfter
    · by_cases h3 : a.MaxVersions = b.MaxVersions
      · refine ⟨h1, h2, h3, ?_⟩
        simpa [MetadataEqual, h1, h2, h3] using h
      · simp [MetadataEqual, h1, h2, h3] at h
    · simp [MetadataEqual, h1, h2] at h
  · simp [MetadataEqual, h1] at h

theorem ReadLocalSecret_metadata (fs : LocalFS) (file : String) (secret : Secret)
    (m : KvV2WriteMetadataRequest) (hs : ReadLocalSecret fs file = some secret)
    (hm : secret.Metadata = some m) : ∃ q, fs.ReadJsonMetadata q = some m := by
  unfold ReadLocalSecret at hs
  cases hd : ReadData fs file with
  | none => simp [hd] at hs
  | some data =>
    simp only [hd] at hs
    cases he : FileExists fs (toMetadataPath file) with
    | none => simp [he] at hs
    | some b =>
      cases b with
      | false =>
        simp only [he, Option.some.injEq] at hs
        subst hs
        cases hm
      | true =>
        simp only [he] at hs
        cases hr : ReadMetadata fs (toMetadataPath file) with
        | none => simp [hr] at hs
        | some m0 =>
          simp only [hr, Option.some.injEq] at hs
          subst hs
          simp only [Option.some.injEq] at hm
          subst hm
          exact ⟨_, hr⟩

theorem Fetch_run (fs : LocalFS) (s f : SyncerConfig) (st : Store) (t : NsTree) (fuel : Nat)
    (hall : AllFromLocal fs s st)
    (hinj : ∀ k k2 d d2, FromLocal fs s k d → FromLocal fs s k2 d2 →
      ToLocalPath f.LocalPath f.VaultPath k = ToLocalPath f.LocalPath f.VaultPath k2 → k = k2)
    (hnm : ∀ k d, FromLocal fs s k d →
      HasSuffix (ToLocalPath f.LocalPath f.VaultPath k) ".meta.json" = false)
    (htree : ServesOn (fun x : FetchState Store Disk => x.store = st) (liftClient storeClient)
      f.MountPath t f.VaultPath)
    (hwf : t.wellFormed = true) (hd : t.depth < fuel)
    (hK : ∀ k ∈ t.leafKeys f.VaultPath,
      ∃ en, st.get k = some en ∧ 0 < en.currentVersion ∧ en.deleted = false) :
    ∃ w2, Fetch memDisk storeClient f fuel (fetchStart st) = some (ErrorValue.nil, w2) ∧
      FetchInv fs s f st (t.leafKeys f.VaultPath) w2 := by
  obtain ⟨r, hrun, hnil, hG⟩ := WalkKV_tree_run (fun x : FetchState Store Disk => x.store = st)
    (liftClient storeClient) f.MountPath (fetchKey memDisk storeClient f)
    (FetchInv fs s f st)
    (fun k => ∃ en, st.get k = some en ∧ 0 < en.currentVersion ∧ en.deleted = false)
    (fun ks x h => h.1)
    (fun ks p x h => kvV2List_fetch_inv fs s f st ks p f.MountPath x h)
    (fun ks k x h hk => by
      obtain ⟨en, hg, hv, hdel⟩ := hk
      have hok := fetchKey_store_ok f k x en (by rw [h.1]; exact hg) hv hdel
      exact ⟨hok, fetchKey_inv fs s f st hall hinj hnm ks k x h hok⟩)
    t f.VaultPath fuel (fetchStart st) htree hwf hd hK
    ⟨rfl, by simp, by simp [fetchStart, Disk.get]⟩
  refine ⟨r.2, ?_, hG⟩
  simp only [Fetch, hrun, hnil]

/-- C13, amended: after a successful `Sync` of a local tree into the empty
store, `Fetch` of that store into an empty disk returns without error and
reproduces the tree, when every data file maps back to its own path under the
sync root, the vault path is shared, the listing of the store presents a
finite tree of a depth below the bound of the walk whose leaf keys are the
keys of the data files, these keys map to distinct paths under the fetch root
that do not end in `.meta.json`, and the `max_versions` of every local sidecar
is a 32-bit value. Every data file `root/rel.json` has its payload at
`fetchRoot/rel.json`; a sidecar whose custom metadata is not empty-equivalent
has at `fetchRoot/rel.meta.json` a record with the same three scalar fields and
a deep-equal custom metadata; a data file with no sidecar, or with a sidecar
whose custom metadata is empty-equivalent, has no file at
`fetchRoot/rel.meta.json`; and the fetched disk holds no other file. -/
theorem Sync_Fetch_round_trip (float64ToInt : String → Option Int) (fs : LocalFS)
    (s f : SyncerConfig) (fuel1 fuel2 : Nat) (t : NsTree) (w1 : World Store)
    (hfV : f.VaultPath = s.VaultPath)
    (hsync : Sync float64ToInt fs storeClient s fuel1 emptyWorld = some (ErrorValue.nil, w1))
    (hround : ∀ e ∈ fs.WalkDir s.LocalPath, e.isDataFile = true →
      ToLocalPath s.LocalPath s.VaultPath (toVaultKey s.LocalPath e.path s.VaultPath) = e.path)
    (hstat : ∀ e ∈ fs.WalkDir s.LocalPath, e.isDataFile = true →
      fs.Stat e.path = StatResult.found)
    (hrange : ∀ p m, fs.ReadJsonMetadata p = some m →
      -2147483648 ≤ m.MaxVersions ∧ m.MaxVersions < 2147483648)
    (htree : ServesOn (fun x : FetchState Store Disk => x.store = w1.remote)
      (liftClient storeClient) f.MountPath t f.VaultPath)
    (hwf : t.wellFormed = true) (hfuel : t.depth < fuel2)
    (hcomplete : ∀ e ∈ fs.WalkDir s.LocalPath, e.isDataFile = true →
      toVaultKey s.LocalPath e.path s.VaultPath ∈ t.leafKeys f.VaultPath)
    (hleaf : ∀ k ∈ t.leafKeys f.VaultPath, ∃ e ∈ fs.WalkDir s.LocalPath,
      e.isDataFile = true ∧ toVaultKey s.LocalPath e.path s.VaultPath = k)
    (hinj : ∀ e ∈ fs.WalkDir s.LocalPath, ∀ e2 ∈ fs.WalkDir s.LocalPath,
      e.isDataFile = true → e2.isDataFile = true →
      ToLocalPath f.LocalPath f.VaultPath (toVaultKey s.LocalPath e.path s.VaultPath) =
        ToLocalPath f.LocalPath f.VaultPath (toVaultKey s.LocalPath e2.path s.VaultPath) →
      toVaultKey s.LocalPath e.path s.VaultPath = toVaultKey s.LocalPath e2.path s.VaultPath)
    (hnm : ∀ e ∈ fs.WalkDir s.LocalPath, e.isDataFile = true →
      HasSuffix (ToLocalPath f.LocalPath f.VaultPath
        (toVaultKey s.LocalPath e.path s.VaultPath)) ".meta.json" = false) :
    ∃ w2, Fetch memDisk storeClient f fuel2 (fetchStart w1.remote) =
        some (ErrorValue.nil, w2) ∧
    (∀ e ∈ fs.WalkDir s.LocalPath, e.isDataFile = true →
      ∃ secret rel, ReadLocalSecret fs e.path = some secret ∧
        e.path = Join [s.LocalPath, rel] ++ ".json" ∧
        w2.remote.disk.get (Join [f.LocalPath, rel] ++ ".json") =
          some (FileContent.data secret.Data) ∧
        (∀ m, secret.Metadata = some m → IsEmptyMap m.CustomMetadata = false →
          ∃ m2, w2.remote.disk.get (Join [f.LocalPath, rel] ++ ".meta.json") =
              some (FileContent.metadata m2) ∧
            m2.CasRequired = m.CasRequired ∧
            m2.DeleteVersionAfter = m.DeleteVersionAfter ∧
            m2.MaxVersions = m.MaxVersions ∧
            DeepEqual m2.CustomMetadata m.CustomMetadata = true) ∧
        ((∀ m, secret.Metadata = some m → IsEmptyMap m.CustomMetadata = true) →
          w2.remote.disk.get (Join [f.LocalPath, rel] ++ ".meta.json") = none)) ∧
    (∀ path content, w2.remote.disk.get path = some content →
      ∃ e ∈ fs.WalkDir s.LocalPath, e.isDataFile = true ∧
        ∃ rel, e.path = Join [s.LocalPath, rel] ++ ".json" ∧
          (path = Join [f.LocalPath, rel] ++ ".json" ∨
            path = Join [f.LocalPath, rel] ++ ".meta.json")) := by
  have hall : AllFromLocal fs s w1.remote :=
    Sync_store_local float64ToInt fs s fuel1 emptyWorld w1 ErrorValue.nil hsync
      (by intro key en h; simp [emptyWorld, Store.get] at h)
  have hconv := Sync_convergedFile float64ToInt fs s fuel1 emptyWorld w1 hsync hround hstat
  obtain ⟨w2, hfetch, -, hks, hfiles⟩ := Fetch_run fs s f w1.remote t fuel2 hall
    (by
      rintro k k2 d d2 ⟨x, hx, hxd, hxk, -⟩ ⟨x2, hx2, hxd2, hxk2, -⟩ hp
      rw [← hxk, ← hxk2] at hp ⊢
      exact hinj x hx x2 hx2 hxd hxd2 hp)
    (by
      rintro k d ⟨x, hx, hxd, hxk, -⟩
      rw [← hxk]
      exact hnm x hx hxd)
    htree hwf hfuel
    (by
      intro k hk
      obtain ⟨e, he, hd, hek⟩ := hleaf k hk
      obtain ⟨secret, -, en, hget, hver, hdel, -, -⟩ := hconv e he hd
      rw [hek] at hget
      exact ⟨en, hget, hver, hdel⟩)
  refine ⟨w2, hfetch, ?_, ?_⟩
  · intro e he hd
    obtain ⟨secret, hsec, en, hget, hver, -, -, hmeta⟩ := hconv e he hd
    obtain ⟨-, en2, hget2, -, -, hP, hM⟩ := hks _ (hcomplete e he hd)
    rw [hget] at hget2
    cases hget2
    obtain ⟨x, hx, hxd, hxk, sx, hsx, hsxd⟩ := hall _ en hget hver
    have hpath : x.path = e.path := by
      rw [← hround x hx hxd, ← hround e he hd, hxk]
    rw [hpath, hsec] at hsx
    cases hsx
    rw [hfV, ToLocalPath_eq] at hP
    rw [hfV, toMetadataPath_ToLocalPath] at hM
    refine ⟨secret, TrimPrefix (toVaultKey s.LocalPath e.path s.VaultPath) s.VaultPath, hsec,
      (hround e he hd).symm, ?_, ?_, ?_⟩
    · rw [hsxd]
      exact hP
    · intro m hm hne
      rw [hm] at hmeta
      obtain ⟨h1, h2, h3, h4⟩ := MetadataEqual_both hmeta
      rw [MapEqual_eq_true_iff] at h4
      have hdeep : DeepEqual en.metadata.CustomMetadata m.CustomMetadata = true := by
        rcases h4 with ⟨-, hb⟩ | hdeep
        · rw [hb] at hne
          cases hne
        · exact hdeep
      have hne2 : IsEmptyMap en.metadata.CustomMetadata = false := by
        rw [IsEmptyMap_of_DeepEqual hdeep]
        exact hne
      obtain ⟨q, hq⟩ := ReadLocalSecret_metadata fs e.path secret m hsec hm
      obtain ⟨hlo, hhi⟩ := hrange q m hq
      refine ⟨sidecarRequest en.metadata, ?_, h1, h2, ?_, hdeep⟩
      · rw [hM]
        simp [hne2]
      · simp only [sidecarRequest]
        rw [h3]
        exact toInt32_of_range _ hlo hhi
    · intro hempty
      have hemp : IsEmptyMap en.metadata.CustomMetadata = true := by
        cases hm : secret.Metadata with
        | none =>
          rw [hm] at hmeta
          simpa [MetadataEqual] using hmeta
        | some m =>
          rw [hm] at hmeta
          obtain ⟨-, -, -, h4⟩ := MetadataEqual_both hmeta
          rw [MapEqual_eq_true_iff] at h4
          rcases h4 with ⟨ha, -⟩ | hdeep
          · exact ha
          · rw [IsEmptyMap_of_DeepEqual hdeep]
            exact hempty m hm
      rw [hM]
      simp [hemp]
  · intro path content hpc
    obtain ⟨k, hk, hor⟩ := hfiles path content hpc
    obtain ⟨⟨d, x, hx, hxd, hxk, -⟩, -⟩ := hks k hk
    refine ⟨x, hx, hxd, TrimPrefix k s.VaultPath, ?_, ?_⟩
    · rw [← hxk]
      exact (hround x hx hxd).symm
    · rw [hfV, toMetadataPath_ToLocalPath, ToLocalPath_eq] at hor
      exact hor

theorem syncedTree_served :
    ServesOn (fun x : FetchState Store Disk => x.store = syncedStore)
      (liftClient storeClient) "kv" syncedTree "un" := by
  have hl : ∀ (p : String) (st : FetchState Store Disk), st.store = syncedStore →
      ((liftClient storeClient).KvV2List p "kv" st).1 = (Store.KvV2List p syncedStore).1 ∧
      ((liftClient storeClient).KvV2List p "kv" st).2.store = syncedStore := by
    intro p st h
    constructor
    · simp [liftClient, storeClient, h]
    · simp only [liftClient, storeClient, Store.KvV2List]
      split <;> exact h
  refine ⟨fun st h => ⟨?_, (hl _ st h).2⟩, fun st h => ⟨?_, (hl _ st h).2⟩, trivial, trivial⟩
  · rw [(hl _ st h).1]
    decide
  · rw [(hl _ st h).1]
    decide

/-- C13 as stated fails: the local tree has the data file `data/a.json` holding
`{"x": 1}` and the sidecar `data/a.meta.json` holding `{cas_required: true,
delete_version_after: "0s", max_versions: 5}` without custom metadata. `Sync`
into the empty store succeeds and stores that record at `un/a`; `Fetch` of the
store into the empty directory `out` succeeds and leaves the one file
`out/a.json`: the sidecar `a.meta.json` is not reproduced. -/
theorem Sync_Fetch_drops_sidecar :
    ReadLocalSecret casOnlyFS "data/a.json" = some ⟨payloadOne, some casRequest⟩ ∧
    (Sync noFloat casOnlyFS storeClient configA 3 emptyWorld).map (fun r => (r.1, r.2.remote)) =
      some (ErrorValue.nil,
        [("un/a", { data := payloadOne, currentVersion := 1, deleted := false,
                    metadata := storedMetadata casRequest })]) ∧
    (Sync noFloat casOnlyFS storeClient configA 3 emptyWorld).bind (fun r1 =>
        (Fetch memDisk storeClient configFetch 3 (fetchStart r1.2.remote)).map
          (fun r2 => (r2.1, r2.2.remote.disk))) =
      some (ErrorValue.nil, [("out/a.json", FileContent.data payloadOne)]) := by
  decide

/-- Witness of C13 (amended): the tree with `data/a.json` (with the sidecar
`teamRequest`) and `data/b/c.json` (without a sidecar), synced into the empty
store under `un` and fetched into the empty directory `out`; both passes
succeed. -/
theorem Sync_Fetch_round_trip_witness :
    ∃ w1, Sync noFloat twoFilesFS storeClient configA 3 emptyWorld = some (ErrorValue.nil, w1) ∧
      ∃ w2, Fetch memDisk storeClient configFetch 3 (fetchStart w1.remote) =
          some (ErrorValue.nil, w2) ∧
      (∀ e ∈ twoFilesFS.WalkDir configA.LocalPath, e.isDataFile = true →
        ∃ secret rel, ReadLocalSecret twoFilesFS e.path = some secret ∧
          e.path = Join [configA.LocalPath, rel] ++ ".json" ∧
          w2.remote.disk.get (Join [configFetch.LocalPath, rel] ++ ".json") =
            some (FileContent.data secret.Data) ∧
          (∀ m, secret.Metadata = some m → IsEmptyMap m.CustomMetadata = false →
            ∃ m2, w2.remote.disk.get (Join [configFetch.LocalPath, rel] ++ ".meta.json") =
                some (FileContent.metadata m2) ∧
              m2.CasRequired = m.CasRequired ∧
              m2.DeleteVersionAfter = m.DeleteVersionAfter ∧
              m2.MaxVersions = m.MaxVersions ∧
              DeepEqual m2.CustomMetadata m.CustomMetadata = true) ∧
          ((∀ m, secret.Metadata = some m → IsEmptyMap m.CustomMetadata = true) →
            w2.remote.disk.get (Join [configFetch.LocalPath, rel] ++ ".meta.json") = none)) ∧
      (∀ path content, w2.remote.disk.get path = some content →
        ∃ e ∈ twoFilesFS.WalkDir configA.LocalPath, e.isDataFile = true ∧
          ∃ rel, e.path = Join [configA.LocalPath, rel] ++ ".json" ∧
            (path = Join [configFetch.LocalPath, rel] ++ ".json" ∨
              path = Join [configFetch.LocalPath, rel] ++ ".meta.json")) := by
  obtain ⟨w1, h1⟩ := exists_world_of_nil
    (Sync noFloat twoFilesFS storeClient configA 3 emptyWorld) (by decide)
  have hst : w1.remote = syncedStore := by
    have h : (Sync noFloat twoFilesFS storeClient configA 3 emptyWorld).map
        (fun r => r.2.remote) = some syncedStore := by decide
    rw [h1] at h
    simpa using h
  exact ⟨w1, h1,
    Sync_Fetch_round_trip noFloat twoFilesFS configA configFetch 3 3 syncedTree w1
      (by decide) h1 (by decide) (by decide)
      (by
        intro p m h
        simp only [twoFilesFS, treeFS] at h
        split at h
        · cases h
          decide
        · cases h)
      (by rw [hst]; exact syncedTree_served) (by decide) (by decide) (by decide) (by decide)
      (by decide) (by decide)⟩


end VaultSync
